import Mathlib

/-!
CrossXP-UI-Library: widget tree, focus and event dispatch

Shallow embedding of `include/winxp_ui.hpp` (namespace `WXUI`).

* A C++ object address is a natural number (`ptr`).  A component is a node of
  an inductive tree: its own fields (`Fields`) and the list of the children it
  owns (`std::vector<std::unique_ptr<UIComponent>>`).
* The context holds the top-level forest `widgets` and the raw pointers
  `focusedWidget`, `hoveredWidget`, `pressedWidget`.  Dereferencing a pointer
  that is not in the forest (a destroyed object) is a fault: the operation
  returns `none`.
* Pixels, colours and fonts are left out; a surface is its size.  Widgets with
  floating-point state (slider, spinner, scroll bar, viewport) and the window
  chrome (title bar, window, tab panel) are not embedded.
* Application callbacks are observers: invoking one appends an entry to the
  ghost `trace`.  The closure that `UIMenuBar::onEvent` wires on a dropdown is
  the constructor `CB.menuClose`.
-/

namespace WXUI

set_option maxRecDepth 100000

/-! ## Section 4 of the header: Rect, WidgetState, EventType, UIEvent -/

structure Rect where
  x : Int
  y : Int
  w : Int
  h : Int
deriving DecidableEq

/-- `Rect::contains`. -/
def Rect.contains (r : Rect) (px py : Int) : Bool :=
  decide (px ≥ r.x) && decide (py ≥ r.y) && decide (px < r.x + r.w) && decide (py < r.y + r.h)

inductive WidgetState where
  | Normal
  | Hovered
  | Pressed
  | Disabled
deriving DecidableEq

inductive EventType where
  | Click
  | DblClick
  | MouseDown
  | MouseUp
  | MouseMove
  | MouseEnter
  | MouseLeave
  | MouseWheel
  | KeyDown
  | KeyUp
  | TextInput
  | ValueChanged
  | CheckChanged
  | FocusGained
  | FocusLost
  | MenuItemClicked
  | ViewportFocusGained
  | ViewportFocusLost
  | Scroll
deriving DecidableEq

/-- `struct UIEvent` (the float payload `fvalue` is not embedded). -/
structure UIEvent where
  type : EventType
  mx : Int := 0
  my : Int := 0
  mbtn : Int := 0
  wheel : Int := 0
  key : Int := 0
  mod : Nat := 0
  text : Option String := none
  ivalue : Int := 0
  svalue : String := ""
deriving DecidableEq

/-! SDL2 header values used by the handlers. -/

def SDL_BUTTON_LEFT : Int := 1
def SDLK_BACKSPACE : Int := 8
def SDLK_TAB : Int := 9
def SDLK_RETURN : Int := 13
def SDLK_SPACE : Int := 32
def SDLK_a : Int := 97
def SDLK_DELETE : Int := 127
def SDLK_HOME : Int := 1073741898
def SDLK_END : Int := 1073741901
def SDLK_RIGHT : Int := 1073741903
def SDLK_LEFT : Int := 1073741904
def KMOD_SHIFT : Nat := 3
def KMOD_CTRL : Nat := 192

/-- The raw input primitive handed to `processEvent` (`SDL_Event`).  For the
wheel the result of `SDL_GetMouseState` is part of the input. -/
inductive SDLEvent where
  | mouseMotion (x y : Int)
  | mouseButtonDown (x y : Int) (button : Int) (clicks : Nat)
  | mouseButtonUp (x y : Int) (button : Int)
  | mouseWheel (mouseX mouseY : Int) (wy : Int)
  | keyDown (sym : Int) (mod : Nat)
  | keyUp (sym : Int) (mod : Nat)
  | textInput (text : String)
  | windowResized (w h : Int)
  | other
deriving DecidableEq

/-! ## Section 5: UIComponent -/

/-- `struct MenuItem` (`submenu` is never read by the code). -/
structure MenuItem where
  text : String
  id : String
  separator : Bool := false
  disabled : Bool := false
deriving DecidableEq

/-- `UIMenuBar::Menu`. -/
structure Menu where
  title : String
  items : List MenuItem
deriving DecidableEq

/-- Data members of `UITextInput`. -/
structure TextInputState where
  text : String := ""
  cursor : Nat := 0
  selStart : Nat := 0
  selEnd : Nat := 0
  scrollOff : Int := 0
  maxLen : Nat := 256
deriving DecidableEq

/-- The dynamic type of a component with the data members its class adds.
`Base` stands for every class that does not override `onEvent`
(`UIComponent`, `UIPanel`, `UILabel`, `UIGroupBox`, `UISeparator`). -/
inductive Kind where
  | Base
  | Button
  | TextInput (st : TextInputState)
  | Checkbox (checked : Bool)
  | RadioButton (group : String) (checked : Bool)
  | MenuDropdown (items : List MenuItem) (hoveredIdx : Int)
  | MenuBar (menus : List Menu) (openIdx : Int) (dropdown : Option Nat)
deriving DecidableEq

/-- A registered `std::function`: an application callback (an observer, named
by a tag) or the close-wiring closure of `UIMenuBar::onEvent`, which captures
the menu bar. -/
inductive CB where
  | user (tag : Nat)
  | menuClose (mb : Nat)
deriving DecidableEq

/-- The data members of `UIComponent` other than `children`; `ptr` is the
address of the object and `surf` the size of the retained surface. -/
structure Fields where
  ptr : Nat
  id : String := ""
  rect : Rect := ⟨0, 0, 0, 0⟩
  layer : Int := 0
  visible : Bool := true
  enabled : Bool := true
  wstate : WidgetState := WidgetState.Normal
  focused : Bool := false
  dirty : Bool := true
  surf : Option (Int × Int) := none
  parent : Option Nat := none
  cbs : List (EventType × CB) := []
  kind : Kind := Kind.Base
deriving DecidableEq

/-- A component together with the children it owns. -/
inductive UIComponent where
  | node (self : Fields) (children : List UIComponent)

/-- Ghost record of what a dispatch did: a handler invocation
(`w->onEvent(e, ctx)`) or an application callback invocation (`cb(c, e)`). -/
inductive Trace where
  | handler (target : Nat) (e : UIEvent)
  | callback (tag : Nat) (c : Nat) (e : UIEvent)
deriving DecidableEq

/-! ## Section 6: UIContext -/

/-- `class UIContext`: surfaces are sizes, the registry is an association list,
`trace` is ghost state. -/
structure UIContext where
  winW : Int := 800
  winH : Int := 600
  root : Option (Int × Int) := none
  widgets : List UIComponent := []
  registry : List (String × Nat) := []
  focusedWidget : Option Nat := none
  hoveredWidget : Option Nat := none
  pressedWidget : Option Nat := none
  activeViewport : Option Nat := none
  needsRedraw : Bool := true
  openMenu : Option Nat := none
  trace : List Trace := []

/-! ## The tree as a store: dereferencing and updating by address -/

/-- The fields of the object a component node stands for. -/
def UIComponent.self : UIComponent → Fields
  | .node s _ => s

/-- The owned children, in vector order. -/
def UIComponent.children : UIComponent → List UIComponent
  | .node _ ch => ch

mutual
/-- The object at address `p` in a subtree, if it is there. -/
def getNode (p : Nat) : UIComponent → Option UIComponent
  | .node s ch => if s.ptr = p then some (.node s ch) else getNodeIn p ch
/-- The object at address `p` in a list of subtrees. -/
def getNodeIn (p : Nat) : List UIComponent → Option UIComponent
  | [] => none
  | c :: rest =>
    match getNode p c with
    | some n => some n
    | none => getNodeIn p rest
end

/-- The fields read through a pointer `p`; `none` when `p` dangles. -/
def fieldsAt (ws : List UIComponent) (p : Nat) : Option Fields :=
  (getNodeIn p ws).map UIComponent.self

/-- What an assignment through the pointer `p` does to the fields `s` of an
object: `f` rewrites them when `s` is the object at `p`; the address stays. -/
def updF (p : Nat) (f : Fields → Fields) (s : Fields) : Fields :=
  if s.ptr = p then { f s with ptr := s.ptr } else s

mutual
/-- Assignment to data members through the pointer `p`: `f` rewrites the
fields of the object at `p`; the address and the shape of the tree stay. -/
def updNode (p : Nat) (f : Fields → Fields) : UIComponent → UIComponent
  | .node s ch => .node (updF p f s) (updIn p f ch)
/-- Assignment through the pointer `p` in a list of subtrees. -/
def updIn (p : Nat) (f : Fields → Fields) : List UIComponent → List UIComponent
  | [] => []
  | c :: rest => updNode p f c :: updIn p f rest
end

mutual
/-- The fields of all objects of a subtree in depth-first pre-order. -/
def fieldsOf : UIComponent → List Fields
  | .node s ch => s :: fieldsIn ch
/-- The fields of all objects of a list of subtrees in depth-first pre-order. -/
def fieldsIn : List UIComponent → List Fields
  | [] => []
  | c :: rest => fieldsOf c ++ fieldsIn rest
end

/-- All addresses of a subtree in depth-first pre-order. -/
def ptrs (c : UIComponent) : List Nat := (fieldsOf c).map (fun s => s.ptr)

/-- All addresses of a list of subtrees in depth-first pre-order. -/
def ptrsIn (ws : List UIComponent) : List Nat := (fieldsIn ws).map (fun s => s.ptr)

mutual
/-- The addresses of the proper ancestors of the object at `p`, root first;
`none` when `p` is not in the subtree. -/
def ancestors (p : Nat) : UIComponent → Option (List Nat)
  | .node s ch =>
    if s.ptr = p then some []
    else (ancestorsIn p ch).map (fun l => s.ptr :: l)
/-- The ancestors of `p` inside a list of subtrees. -/
def ancestorsIn (p : Nat) : List UIComponent → Option (List Nat)
  | [] => none
  | c :: rest =>
    match ancestors p c with
    | some l => some l
    | none => ancestorsIn p rest
end

/-! ## UIComponent member functions -/

def setDirty (s : Fields) : Fields := { s with dirty := true }

/-- `UIComponent::markDirty`: sets the flag on this object and on the object
its `parent` pointer refers to. -/
def markDirty (ws : List UIComponent) (this : Nat) : List UIComponent :=
  let ws1 := updIn this setDirty ws
  match (fieldsAt ws this).bind (fun s => s.parent) with
  | some q => updIn q setDirty ws1
  | none => ws1

/-- `UIComponent::setState`. -/
def setState (ws : List UIComponent) (this : Nat) (st : WidgetState) : List UIComponent :=
  match fieldsAt ws this with
  | some s =>
    if s.wstate ≠ st then markDirty (updIn this (fun s => { s with wstate := st }) ws) this
    else ws
  | none => ws

/-- `UIComponent::hitTest` (no embedded class overrides it). -/
def Fields.hitTest (s : Fields) (x y : Int) : Bool :=
  s.visible && s.enabled && s.rect.contains x y

/-- `UIComponent::on`: appends a callback to the list kept for the event type. -/
def Fields.on (s : Fields) (t : EventType) (cb : CB) : Fields :=
  { s with cbs := s.cbs ++ [(t, cb)] }

/-- The callbacks `emit` runs for an event type, in registration order. -/
def Fields.subscribers (s : Fields) (t : EventType) : List CB :=
  (s.cbs.filter (fun tc => decide (tc.1 = t))).map (fun tc => tc.2)

/-! ## Registry, ordering and hit-testing -/

/-- `registry[k] = v`. -/
def regSet (r : List (String × Nat)) (k : String) (v : Nat) : List (String × Nat) :=
  (k, v) :: r.filter (fun kv => decide (kv.1 ≠ k))

/-- `registry.erase(k)`. -/
def regErase (r : List (String × Nat)) (k : String) : List (String × Nat) :=
  r.filter (fun kv => decide (kv.1 ≠ k))

/-- `registry.find(k)`. -/
def regFind (r : List (String × Nat)) (k : String) : Option Nat :=
  (r.find? (fun kv => decide (kv.1 = k))).map (fun kv => kv.2)

mutual
/-- `UIContext::registerWidget` (the lambda `reg` of `addChild` is the same). -/
def registerWidget (r : List (String × Nat)) : UIComponent → List (String × Nat)
  | .node s ch => registerAll (if s.id ≠ "" then regSet r s.id s.ptr else r) ch
/-- The loop of `registerWidget` over the children. -/
def registerAll (r : List (String × Nat)) : List UIComponent → List (String × Nat)
  | [] => r
  | c :: rest => registerAll (registerWidget r c) rest
end

mutual
/-- `UIContext::unregisterWidget`. -/
def unregisterWidget (r : List (String × Nat)) : UIComponent → List (String × Nat)
  | .node s ch => unregisterAll (if s.id ≠ "" then regErase r s.id else r) ch
/-- The loop of `unregisterWidget` over the children. -/
def unregisterAll (r : List (String × Nat)) : List UIComponent → List (String × Nat)
  | [] => r
  | c :: rest => unregisterAll (unregisterWidget r c) rest
end

/-- One insertion step of a stable sort by `layerLess`: `c` goes after every
element whose layer is not greater than its own. -/
def insertByLayer (c : UIComponent) : List UIComponent → List UIComponent
  | [] => [c]
  | d :: rest =>
    if c.self.layer < d.self.layer then c :: d :: rest else d :: insertByLayer c rest

/-- `std::stable_sort(v.begin(), v.end(), UIContext::layerLess)`. -/
def stableSort (l : List UIComponent) : List UIComponent :=
  l.foldl (fun acc c => insertByLayer c acc) []

mutual
/-- `UIContext::hitTestAll`: children from the last to the first, then the
node itself. -/
def hitTestAll (x y : Int) : UIComponent → Option Nat
  | .node s ch =>
    match hitTestList x y ch with
    | some r => some r
    | none => if s.hitTest x y then some s.ptr else none
/-- The reverse loop over a vector of components shared by `hitTestAll` and
`UIContext::hitTest`: invisible or disabled entries are skipped. -/
def hitTestList (x y : Int) : List UIComponent → Option Nat
  | [] => none
  | .node s ch :: rest =>
    match hitTestList x y rest with
    | some r => some r
    | none => if !s.visible || !s.enabled then none else hitTestAll x y (.node s ch)
end

mutual
/-- The lambda `collect` of the Tab navigation: enabled and visible objects in
pre-order. -/
def collect : UIComponent → List Nat
  | .node s ch => (if s.enabled && s.visible then [s.ptr] else []) ++ collectAll ch
/-- The loop `for(auto& w: widgets) collect(w.get())`. -/
def collectAll : List UIComponent → List Nat
  | [] => []
  | c :: rest => collect c ++ collectAll rest
end

/-! ## UIContext member functions -/

/-- The loop of `UIContext::remove`: the first top-level component with the
given id and the vector after `erase`. -/
def removeFirst (id : String) : List UIComponent → Option (UIComponent × List UIComponent)
  | [] => none
  | c :: rest =>
    if c.self.id = id then some (c, rest)
    else
      match removeFirst id rest with
      | some (d, r) => some (d, c :: r)
      | none => none

/-- `UIContext::remove`: the returned flag and the context afterwards.  The
erased component and its descendants are destroyed. -/
def UIContext.remove (ctx : UIContext) (id : String) : Bool × UIContext :=
  match removeFirst id ctx.widgets with
  | none => (false, ctx)
  | some (c, rest) =>
    (true,
      { ctx with
        registry := unregisterWidget ctx.registry c
        focusedWidget := if ctx.focusedWidget = some c.self.ptr then none else ctx.focusedWidget
        hoveredWidget := if ctx.hoveredWidget = some c.self.ptr then none else ctx.hoveredWidget
        widgets := rest
        needsRedraw := true })

/-- `UIContext::add`. -/
def UIContext.add (ctx : UIContext) (c : UIComponent) : UIContext :=
  { ctx with
    registry := registerWidget ctx.registry c
    widgets := stableSort (ctx.widgets ++ [c])
    needsRedraw := true }

/-- `UIContext::findById`. -/
def UIContext.findById (ctx : UIContext) (id : String) : Option Nat :=
  regFind ctx.registry id

/-- `UIContext::hitTest`. -/
def UIContext.hitTest (ctx : UIContext) (x y : Int) : Option Nat :=
  hitTestList x y ctx.widgets

/-- Invocation of callbacks that can only be application observers (the
subscribers of a menu bar): each appends to the trace.  The close-wiring
closure is never registered there. -/
def runObservers (c : Nat) (e : UIEvent) : List CB → UIContext → Option UIContext
  | [], ctx => some ctx
  | CB.user tag :: rest, ctx =>
    runObservers c e rest { ctx with trace := ctx.trace ++ [Trace.callback tag c e] }
  | CB.menuClose _ :: _, _ => none

/-- Assignment `openIdx = i` in a menu bar. -/
def setOpenIdx (i : Int) (s : Fields) : Fields :=
  match s.kind with
  | Kind.MenuBar menus _ dd => { s with kind := Kind.MenuBar menus i dd }
  | _ => s

/-- Assignment `dropdown = d` in a menu bar. -/
def setDropdown (d : Option Nat) (s : Fields) : Fields :=
  match s.kind with
  | Kind.MenuBar menus i _ => { s with kind := Kind.MenuBar menus i d }
  | _ => s

/-- The lambda wired on a dropdown for `MenuItemClicked`, called with the
emitting component `c`: `emit(ev); openIdx=-1; dropdown=nullptr;
ctx.remove(c->id);` where `emit` is the captured menu bar's. -/
def menuCloseCB (mb c : Nat) (ev : UIEvent) (ctx : UIContext) : Option UIContext :=
  match fieldsAt ctx.widgets mb with
  | none => none
  | some m =>
    match runObservers mb ev (m.subscribers ev.type) ctx with
    | none => none
    | some ctx1 =>
      let ws := updIn mb (setDropdown none) (updIn mb (setOpenIdx (-1)) ctx1.widgets)
      match fieldsAt ws c with
      | none => none
      | some d => some (UIContext.remove { ctx1 with widgets := ws } d.id).2

/-- The loop of `UIComponent::emit` over the callbacks of the event type. -/
def runCallbacks (c : Nat) (e : UIEvent) : List CB → UIContext → Option UIContext
  | [], ctx => some ctx
  | CB.user tag :: rest, ctx =>
    runCallbacks c e rest { ctx with trace := ctx.trace ++ [Trace.callback tag c e] }
  | CB.menuClose mb :: rest, ctx =>
    match menuCloseCB mb c e ctx with
    | none => none
    | some ctx1 => runCallbacks c e rest ctx1

/-- `UIComponent::emit` called on the object at `this`. -/
def emit (ctx : UIContext) (this : Nat) (e : UIEvent) : Option UIContext :=
  match fieldsAt ctx.widgets this with
  | none => none
  | some s => runCallbacks this e (s.subscribers e.type) ctx

/-- The first half of `UIContext::setFocus`: the previous holder loses the
flag, is marked dirty and emits `FocusLost`. -/
def unfocusOld (ctx : UIContext) : Option UIContext :=
  match ctx.focusedWidget with
  | none => some ctx
  | some old =>
    match fieldsAt ctx.widgets old with
    | none => none
    | some _ =>
      emit { ctx with widgets := markDirty (updIn old (fun s => { s with focused := false }) ctx.widgets) old }
        old { type := EventType.FocusLost }

/-- The second half of `UIContext::setFocus`: the target gets the flag, is
marked dirty and emits `FocusGained`. -/
def focusNew (ctx : UIContext) (c : Option Nat) : Option UIContext :=
  match c with
  | none => some ctx
  | some p =>
    match fieldsAt ctx.widgets p with
    | none => none
    | some _ =>
      emit { ctx with widgets := markDirty (updIn p (fun s => { s with focused := true }) ctx.widgets) p }
        p { type := EventType.FocusGained }

/-- `UIContext::setFocus`. -/
def UIContext.setFocus (ctx : UIContext) (c : Option Nat) : Option UIContext :=
  if ctx.focusedWidget = c then some ctx
  else
    match unfocusOld ctx with
    | none => none
    | some ctx1 =>
      match focusNew { ctx1 with focusedWidget := c } c with
      | none => none
      | some ctx2 => some { ctx2 with needsRedraw := true }

/-- `UIContext::resize`. -/
def UIContext.resize (ctx : UIContext) (w h : Int) : UIContext :=
  { ctx with
    winW := w
    winH := h
    root := some (w, h)
    widgets := (ctx.widgets.map (fun c => c.self.ptr)).foldl markDirty ctx.widgets
    needsRedraw := true }

/-- Allocation (`new`): an address that is neither the address of a live
object of the context nor a value one of the context's pointers still has. -/
def freshPtr (ctx : UIContext) : Nat :=
  (ptrsIn ctx.widgets ++ ctx.focusedWidget.toList ++ ctx.hoveredWidget.toList
    ++ ctx.pressedWidget.toList ++ ctx.activeViewport.toList ++ ctx.openMenu.toList).foldr
    (fun p m => max (p + 1) m) 0

mutual
/-- The structural part of `addChild`: `children.push_back(c)` and the stable
sort, at the object `this`. -/
def insertChild (this : Nat) (c : UIComponent) : UIComponent → UIComponent
  | .node s ch =>
    if s.ptr = this then .node s (stableSort (ch ++ [c]))
    else .node s (insertChildIn this c ch)
/-- The same inside a list of subtrees. -/
def insertChildIn (this : Nat) (c : UIComponent) : List UIComponent → List UIComponent
  | [] => []
  | d :: rest => insertChild this c d :: insertChildIn this c rest
end

/-- `c->parent = this`. -/
def setParent (this : Nat) : UIComponent → UIComponent
  | .node s ch => .node { s with parent := some this } ch

/-- `UIComponent::addChild` on the object `this` of the forest `ws` (the
context's widgets, or a tree that is not attached yet): the registry after the
registration and the forest afterwards. -/
def addChild (reg : List (String × Nat)) (ws : List UIComponent) (this : Nat) (c : UIComponent) :
    List (String × Nat) × List UIComponent :=
  (registerWidget reg (setParent this c),
    markDirty (insertChildIn this (setParent this c) ws) this)

/-- `parent->addChild(c, ctx)` for a parent that is part of the context. -/
def UIContext.addChild (ctx : UIContext) (this : Nat) (c : UIComponent) : UIContext :=
  { ctx with
    registry := (WXUI.addChild ctx.registry ctx.widgets this c).1
    widgets := (WXUI.addChild ctx.registry ctx.widgets this c).2 }

/-! ## Section 7: the event handlers of the concrete widgets

Every handler gets the context, the address `this` of the receiver and the
fields `s` the receiver has when the handler is entered.  The boolean result
of `onEvent` is not used by `processEvent` and is left out. -/

/-- `UIButton::onEvent`. -/
def buttonOnEvent (ctx : UIContext) (this : Nat) (s : Fields) (e : UIEvent) : Option UIContext :=
  if !s.enabled then some ctx
  else if e.type = EventType.MouseEnter then
    some { ctx with widgets := setState ctx.widgets this WidgetState.Hovered }
  else if e.type = EventType.MouseLeave then
    some { ctx with widgets := setState ctx.widgets this WidgetState.Normal }
  else if e.type = EventType.MouseDown ∧ e.mbtn = SDL_BUTTON_LEFT then
    UIContext.setFocus { ctx with widgets := setState ctx.widgets this WidgetState.Pressed } (some this)
  else if e.type = EventType.MouseUp ∧ e.mbtn = SDL_BUTTON_LEFT then
    if s.wstate = WidgetState.Pressed then
      emit { ctx with widgets := setState ctx.widgets this WidgetState.Hovered } this
        { type := EventType.Click, mx := e.mx, my := e.my }
    else some ctx
  else if e.type = EventType.KeyDown ∧ s.focused = true ∧ (e.key = SDLK_RETURN ∨ e.key = SDLK_SPACE) then
    emit ctx this { type := EventType.Click }
  else some ctx

/-- `std::string::erase(pos, len)`: throws when `pos > size()`. -/
def stringErase (t : String) (pos len : Nat) : Option String :=
  if pos > t.length then none else some ⟨t.data.take pos ++ t.data.drop (pos + len)⟩

/-- `std::string::insert(pos, str)`: throws when `pos > size()`. -/
def stringInsert (t : String) (pos : Nat) (ins : String) : Option String :=
  if pos > t.length then none else some ⟨t.data.take pos ++ ins.data ++ t.data.drop pos⟩

/-- Assignment to the data members of a text input. -/
def setTextInput (st : TextInputState) (s : Fields) : Fields :=
  match s.kind with
  | Kind.TextInput _ => { s with kind := Kind.TextInput st }
  | _ => s

/-- `UITextInput::scrollToShowCursor`. -/
def scrollToShowCursor (s : Fields) : Fields :=
  match s.kind with
  | Kind.TextInput st =>
    let innerW := s.rect.w - 8
    let cx2 := (st.cursor : Int) * 8 - st.scrollOff
    let so1 := if cx2 < 0 then (st.cursor : Int) * 8 else st.scrollOff
    let so2 := if cx2 ≥ innerW then (st.cursor : Int) * 8 - innerW + 8 else so1
    let so3 := if so2 < 0 then 0 else so2
    { s with kind := Kind.TextInput { st with scrollOff := so3 } }
  | _ => s

/-- `UITextInput::setText`. -/
def setText (ws : List UIComponent) (this : Nat) (t : String) : List UIComponent :=
  markDirty (updIn this (fun s =>
    match s.kind with
    | Kind.TextInput st => { s with kind := Kind.TextInput { st with text := t, cursor := t.length } }
    | _ => s) ws) this

/-- The cursor placement of the `MouseDown` branch of `UITextInput::onEvent`. -/
def placeCursor (mx : Int) (s : Fields) : Fields :=
  match s.kind with
  | Kind.TextInput st =>
    let rel := mx - s.rect.x - 3 + st.scrollOff
    let cur := (max 0 (min (st.text.length : Int) (Int.tdiv rel 8))).toNat
    { s with kind := Kind.TextInput { st with cursor := cur, selStart := cur, selEnd := cur } }
  | _ => s

/-- Removal of the selection, when there is one (`selStart != selEnd`). -/
def eraseSelection (st : TextInputState) : Option TextInputState :=
  if st.selStart ≠ st.selEnd then
    (stringErase st.text (min st.selStart st.selEnd)
        (max st.selStart st.selEnd - min st.selStart st.selEnd)).map
      (fun t => { st with text := t, cursor := min st.selStart st.selEnd,
                          selStart := min st.selStart st.selEnd, selEnd := min st.selStart st.selEnd })
  else some st

/-- The `switch(e.key)` of the `KeyDown` branch of `UITextInput::onEvent`: the
data members afterwards and whether `ValueChanged` is emitted. -/
def textKeyDown (st : TextInputState) (key : Int) (mod : Nat) : Option (TextInputState × Bool) :=
  if key = SDLK_LEFT then
    let c := if st.cursor > 0 then st.cursor - 1 else st.cursor
    some ({ st with cursor := c, selStart := c, selEnd := c }, false)
  else if key = SDLK_RIGHT then
    let c := if st.cursor < st.text.length then st.cursor + 1 else st.cursor
    some ({ st with cursor := c, selStart := c, selEnd := c }, false)
  else if key = SDLK_HOME then
    some ({ st with cursor := 0, selStart := 0, selEnd := 0 }, false)
  else if key = SDLK_END then
    some ({ st with cursor := st.text.length, selStart := st.text.length, selEnd := st.text.length }, false)
  else if key = SDLK_BACKSPACE then
    if st.selStart ≠ st.selEnd then (eraseSelection st).map (fun st1 => (st1, true))
    else if st.cursor > 0 then
      (stringErase st.text (st.cursor - 1) 1).map
        (fun t =>
          let c := st.cursor - 1
          ({ st with text := t, cursor := c, selStart := c, selEnd := c }, true))
    else some (st, true)
  else if key = SDLK_DELETE then
    if st.cursor < st.text.length then
      (stringErase st.text st.cursor 1).map (fun t => ({ st with text := t }, true))
    else some (st, false)
  else if key = SDLK_a then
    if mod &&& KMOD_CTRL ≠ 0 then
      some ({ st with selStart := 0, selEnd := st.text.length, cursor := st.text.length }, false)
    else some (st, false)
  else some (st, false)

/-- The text an input holds, for the `svalue` of `ValueChanged`. -/
def textOf (ws : List UIComponent) (this : Nat) : String :=
  match (fieldsAt ws this).map (fun s => s.kind) with
  | some (Kind.TextInput st) => st.text
  | _ => ""

/-- `UITextInput::onEvent`. -/
def textInputOnEvent (ctx : UIContext) (this : Nat) (s : Fields) (st : TextInputState)
    (e : UIEvent) : Option UIContext :=
  if !s.enabled then some ctx
  else if e.type = EventType.MouseDown ∧ e.mbtn = SDL_BUTTON_LEFT then
    match UIContext.setFocus ctx (some this) with
    | none => none
    | some ctx1 =>
      some { ctx1 with widgets := markDirty (updIn this (placeCursor e.mx) ctx1.widgets) this }
  else if e.type = EventType.MouseEnter then
    some { ctx with widgets := setState ctx.widgets this WidgetState.Hovered }
  else if e.type = EventType.MouseLeave then
    some { ctx with widgets := setState ctx.widgets this WidgetState.Normal }
  else if e.type = EventType.TextInput ∧ s.focused = true ∧ e.text.isSome = true then
    match eraseSelection st with
    | none => none
    | some st1 =>
      match (if st1.text.length < st1.maxLen then
          match stringInsert st1.text st1.cursor (e.text.getD "") with
          | none => none
          | some t =>
            emit { ctx with widgets := updIn this (setTextInput
                { st1 with text := t, cursor := st1.cursor + (e.text.getD "").length,
                           selStart := st1.cursor + (e.text.getD "").length,
                           selEnd := st1.cursor + (e.text.getD "").length }) ctx.widgets }
              this { type := EventType.ValueChanged, svalue := t }
        else some { ctx with widgets := updIn this (setTextInput st1) ctx.widgets }) with
      | none => none
      | some ctx1 =>
        some { ctx1 with widgets := markDirty (updIn this scrollToShowCursor ctx1.widgets) this }
  else if e.type = EventType.KeyDown ∧ s.focused = true then
    match textKeyDown st e.key e.mod with
    | none => none
    | some (st1, changed) =>
      match (if changed then
          emit { ctx with widgets := updIn this (setTextInput st1) ctx.widgets } this
            { type := EventType.ValueChanged, svalue := st1.text }
        else some { ctx with widgets := updIn this (setTextInput st1) ctx.widgets }) with
      | none => none
      | some ctx1 =>
        some { ctx1 with widgets := markDirty (updIn this scrollToShowCursor ctx1.widgets) this }
  else some ctx

/-- `checked = !checked` in a checkbox. -/
def toggleChecked (s : Fields) : Fields :=
  match s.kind with
  | Kind.Checkbox c => { s with kind := Kind.Checkbox (!c) }
  | _ => s

/-- `UICheckbox::onEvent`. -/
def checkboxOnEvent (ctx : UIContext) (this : Nat) (s : Fields) (checked : Bool)
    (e : UIEvent) : Option UIContext :=
  if !s.enabled then some ctx
  else if e.type = EventType.MouseEnter then
    some { ctx with widgets := setState ctx.widgets this WidgetState.Hovered }
  else if e.type = EventType.MouseLeave then
    some { ctx with widgets := setState ctx.widgets this WidgetState.Normal }
  else if e.type = EventType.MouseDown ∧ e.mbtn = SDL_BUTTON_LEFT then
    UIContext.setFocus ctx (some this)
  else if (e.type = EventType.MouseUp ∧ e.mbtn = SDL_BUTTON_LEFT)
      ∨ (e.type = EventType.KeyDown ∧ s.focused = true ∧ e.key = SDLK_SPACE) then
    emit { ctx with widgets := markDirty (updIn this toggleChecked ctx.widgets) this } this
      { type := EventType.CheckChanged, ivalue := if !checked then 1 else 0 }
  else some ctx

/-- The test of `deactivateGroup`: a radio button of the group other than
`this`. -/
def isGroupPeer (group : String) (this : Nat) (c : UIComponent) : Bool :=
  match c.self.kind with
  | Kind.RadioButton g _ => decide (g = group) && decide (c.self.ptr ≠ this)
  | _ => false

/-- `checked = v` in a radio button. -/
def setRadio (v : Bool) (s : Fields) : Fields :=
  match s.kind with
  | Kind.RadioButton g _ => { s with kind := Kind.RadioButton g v }
  | _ => s

/-- The lambda `deactivateGroup` (and the equal loop over `ctx.widgets`): every
peer in `container` is unchecked and marked dirty. -/
def deactivateGroup (ws : List UIComponent) (group : String) (this : Nat)
    (container : List UIComponent) : List UIComponent :=
  ((container.filter (isGroupPeer group this)).map (fun c => c.self.ptr)).foldl
    (fun acc p => markDirty (updIn p (setRadio false) acc) p) ws

/-- `UIRadioButton::activateInGroup`. -/
def activateInGroup (ctx : UIContext) (this : Nat) (s : Fields) (group : String) : Option UIContext :=
  match (match s.parent with
      | some q => (getNodeIn q ctx.widgets).map (fun pn => deactivateGroup ctx.widgets group this pn.children)
      | none => some (deactivateGroup ctx.widgets group this ctx.widgets)) with
  | none => none
  | some ws1 =>
    emit { ctx with widgets := markDirty (updIn this (setRadio true) ws1) this } this
      { type := EventType.CheckChanged, ivalue := 1 }

/-- `UIRadioButton::onEvent`. -/
def radioOnEvent (ctx : UIContext) (this : Nat) (s : Fields) (group : String)
    (e : UIEvent) : Option UIContext :=
  if !s.enabled then some ctx
  else if e.type = EventType.MouseEnter then
    some { ctx with widgets := setState ctx.widgets this WidgetState.Hovered }
  else if e.type = EventType.MouseLeave then
    some { ctx with widgets := setState ctx.widgets this WidgetState.Normal }
  else if e.type = EventType.MouseDown ∧ e.mbtn = SDL_BUTTON_LEFT then
    UIContext.setFocus ctx (some this)
  else if (e.type = EventType.MouseUp ∧ e.mbtn = SDL_BUTTON_LEFT)
      ∨ (e.type = EventType.KeyDown ∧ s.focused = true ∧ e.key = SDLK_SPACE) then
    activateInGroup ctx this s group
  else some ctx

/-- The loop of the `MouseMove` branch of `UIMenuDropdown::onEvent`: the index
of the item whose row contains the local height `ly`, or -1. -/
def hoverIndex (ly : Int) : List MenuItem → Int → Int → Int
  | [], _, _ => -1
  | it :: rest, y, i =>
    if it.separator then hoverIndex ly rest (y + 8) (i + 1)
    else if ly ≥ y ∧ ly < y + 16 then i
    else hoverIndex ly rest (y + 16) (i + 1)

/-- Assignment `hoveredIdx = i` in a dropdown. -/
def setHoveredIdx (i : Int) (s : Fields) : Fields :=
  match s.kind with
  | Kind.MenuDropdown items _ => { s with kind := Kind.MenuDropdown items i }
  | _ => s

/-- `UIMenuDropdown::onEvent`. -/
def dropdownOnEvent (ctx : UIContext) (this : Nat) (s : Fields) (items : List MenuItem)
    (hoveredIdx : Int) (e : UIEvent) : Option UIContext :=
  if e.type = EventType.MouseMove then
    let i := hoverIndex (e.my - s.rect.y - 2) items 0 0
    some { ctx with widgets := markDirty (updIn this (setHoveredIdx i) ctx.widgets) this }
  else if e.type = EventType.MouseDown ∧ e.mbtn = SDL_BUTTON_LEFT then
    if hoveredIdx ≥ 0 then
      match items[hoveredIdx.toNat]? with
      | none => none
      | some it =>
        if !it.disabled then
          emit ctx this { type := EventType.MenuItemClicked, svalue := it.id, ivalue := hoveredIdx }
        else some ctx
    else some ctx
  else some ctx

/-- `UIMenuDropdown::calcHeight`. -/
def calcHeight (its : List MenuItem) : Int :=
  its.foldl (fun h it => h + (if it.separator then 8 else 16)) 4

/-- The loop of `UIMenuBar::onEvent` that locates the clicked title: the index
of the first menu whose range `[x, x+tw)` contains `lx`, its offset `x` and
the menu. -/
def menuAt (lx : Int) : List Menu → Int → Int → Option (Int × Int × Menu)
  | [], _, _ => none
  | m :: rest, x, i =>
    if lx ≥ x ∧ lx < x + ((m.title.length : Int) * 8 + 12) then some (i, x, m)
    else menuAt lx rest (x + ((m.title.length : Int) * 8 + 12) + 4) (i + 1)

/-- The statement `if(dropdown){ctx.remove(dropdown->id);dropdown=nullptr;}` of
`UIMenuBar::onEvent`; it is a fault when the menu bar does not survive the
removal. -/
def closeDropdown (ctx : UIContext) (this : Nat) (dropdown : Option Nat) : Option UIContext :=
  match dropdown with
  | none => some ctx
  | some d =>
    match fieldsAt ctx.widgets d with
    | none => none
    | some df =>
      let ctx1 := (UIContext.remove ctx df.id).2
      match fieldsAt ctx1.widgets this with
      | none => none
      | some _ => some { ctx1 with widgets := updIn this (setDropdown none) ctx1.widgets }

/-- The dropdown `UIMenuBar::onEvent` constructs for the menu with the given
items at the offset `x`: id, rectangle, layer 200 and the close wiring. -/
def newDropdown (p : Nat) (mb : Fields) (x : Int) (items : List MenuItem) : UIComponent :=
  UIComponent.node
    { ptr := p
      id := mb.id ++ "_dd"
      rect := ⟨mb.rect.x + x - 2, mb.rect.y + mb.rect.h,
        items.foldl (fun m it => max m ((it.text.length : Int) * 8 + 16)) 120, calcHeight items⟩
      layer := 200
      cbs := [(EventType.MenuItemClicked, CB.menuClose mb.ptr)]
      kind := Kind.MenuDropdown items (-1) } []

/-- `UIMenuBar::onEvent`. -/
def menuBarOnEvent (ctx : UIContext) (this : Nat) (s : Fields) (menus : List Menu)
    (openIdx : Int) (dropdown : Option Nat) (e : UIEvent) : Option UIContext :=
  if e.type = EventType.MouseDown ∧ e.mbtn = SDL_BUTTON_LEFT then
    match menuAt (e.mx - s.rect.x) menus 2 0 with
    | some (i, x, m) =>
      if openIdx = i then
        match closeDropdown { ctx with widgets := updIn this (setOpenIdx (-1)) ctx.widgets } this dropdown with
        | none => none
        | some ctx1 => some { ctx1 with widgets := markDirty ctx1.widgets this }
      else
        match closeDropdown ctx this dropdown with
        | none => none
        | some ctx1 =>
          let ctx2 := { ctx1 with widgets := updIn this (setOpenIdx i) ctx1.widgets }
          let dd := newDropdown (freshPtr ctx2) s x m.items
          let ctx3 := UIContext.add ctx2 dd
          some { ctx3 with widgets := markDirty (updIn this (setDropdown (some dd.self.ptr)) ctx3.widgets) this }
    | none =>
      if openIdx ≥ 0 then
        match closeDropdown { ctx with widgets := updIn this (setOpenIdx (-1)) ctx.widgets } this dropdown with
        | none => none
        | some ctx1 => some { ctx1 with widgets := markDirty ctx1.widgets this }
      else some ctx
  else some ctx

/-- The virtual call `w->onEvent(e, ctx)`, resolved on the dynamic type. -/
def onEvent (ctx : UIContext) (this : Nat) (s : Fields) (e : UIEvent) : Option UIContext :=
  match s.kind with
  | Kind.Base => some ctx
  | Kind.Button => buttonOnEvent ctx this s e
  | Kind.TextInput st => textInputOnEvent ctx this s st e
  | Kind.Checkbox c => checkboxOnEvent ctx this s c e
  | Kind.RadioButton g _ => radioOnEvent ctx this s g e
  | Kind.MenuDropdown items h => dropdownOnEvent ctx this s items h e
  | Kind.MenuBar menus i d => menuBarOnEvent ctx this s menus i d e

/-! ## Section 8: UIContext::processEvent -/

/-- The lambda `dispatch` of `processEvent`: nothing for a null or disabled
target, otherwise the handler is invoked (and the invocation recorded). -/
def dispatch (ctx : UIContext) (w : Option Nat) (e : UIEvent) : Option UIContext :=
  match w with
  | none => some ctx
  | some p =>
    match fieldsAt ctx.widgets p with
    | none => none
    | some s =>
      if !s.enabled then some ctx
      else onEvent { ctx with trace := ctx.trace ++ [Trace.handler p e] } p s e

/-- The search loop of the Tab navigation: the index of the first entry equal
to `focusedWidget`, or -1. -/
def focusIndex (focused : Option Nat) : List Nat → Int → Int
  | [], _ => -1
  | p :: rest, i => if some p = focused then i else focusIndex focused rest (i + 1)

/-- The index the Tab navigation computes:
`ci=shift?(ci-1+(int)focusable.size()):((ci+1)%(int)focusable.size())`. -/
def tabIndex (focusable : List Nat) (focused : Option Nat) (shift : Bool) : Int :=
  if shift then focusIndex focused focusable 0 - 1 + (focusable.length : Int)
  else Int.tmod (focusIndex focused focusable 0 + 1) (focusable.length : Int)

/-- The Tab navigation block of the `SDL_KEYDOWN` case; `focusable[ci]` outside
the vector is a fault. -/
def tabNavigate (ctx : UIContext) (mod : Nat) : Option UIContext :=
  if collectAll ctx.widgets = [] then some ctx
  else
    let ci := tabIndex (collectAll ctx.widgets) ctx.focusedWidget (decide (mod &&& KMOD_SHIFT ≠ 0))
    if 0 ≤ ci then
      match (collectAll ctx.widgets)[ci.toNat]? with
      | none => none
      | some p => UIContext.setFocus ctx (some p)
    else none

/-- The `SDL_MOUSEMOTION` case. -/
def processMotion (ctx : UIContext) (mx my : Int) : Option UIContext :=
  let hit := UIContext.hitTest ctx mx my
  match (if hit ≠ ctx.hoveredWidget then
      match dispatch ctx ctx.hoveredWidget { type := EventType.MouseLeave, mx := mx, my := my } with
      | none => none
      | some ctx1 =>
        dispatch { ctx1 with hoveredWidget := hit } hit { type := EventType.MouseEnter, mx := mx, my := my }
    else some ctx) with
  | none => none
  | some ctx2 =>
    match ctx2.pressedWidget with
    | some p => dispatch ctx2 (some p) { type := EventType.MouseMove, mx := mx, my := my }
    | none => dispatch ctx2 hit { type := EventType.MouseMove, mx := mx, my := my }

/-- The `SDL_MOUSEBUTTONDOWN` case. -/
def processButtonDown (ctx : UIContext) (mx my button : Int) (clicks : Nat) : Option UIContext :=
  let hit := UIContext.hitTest ctx mx my
  let ctx1 := { ctx with pressedWidget := hit }
  match (match ctx1.openMenu with
      | some m =>
        if hit ≠ some m then
          (emit ctx1 m { type := EventType.Click, svalue := "close" }).map
            (fun c => { c with openMenu := none })
        else some ctx1
      | none => some ctx1) with
  | none => none
  | some ctx2 =>
    match (if clicks ≥ 2 then
        dispatch ctx2 hit { type := EventType.DblClick, mx := mx, my := my, mbtn := button }
      else some ctx2) with
    | none => none
    | some ctx3 => dispatch ctx3 hit { type := EventType.MouseDown, mx := mx, my := my, mbtn := button }

/-- The `SDL_MOUSEBUTTONUP` case. -/
def processButtonUp (ctx : UIContext) (mx my button : Int) : Option UIContext :=
  match dispatch ctx ctx.pressedWidget { type := EventType.MouseUp, mx := mx, my := my, mbtn := button } with
  | none => none
  | some ctx1 => some { ctx1 with pressedWidget := none }

/-- The `SDL_KEYDOWN` case. -/
def processKeyDown (ctx : UIContext) (sym : Int) (mod : Nat) : Option UIContext :=
  match dispatch ctx ctx.focusedWidget { type := EventType.KeyDown, key := sym, mod := mod } with
  | none => none
  | some ctx1 =>
    if sym = SDLK_TAB ∧ ctx1.widgets.isEmpty = false then tabNavigate ctx1 mod else some ctx1

/-- `UIContext::processEvent`. -/
def UIContext.processEvent (ctx0 : UIContext) (ev : SDLEvent) : Option UIContext :=
  let ctx := { ctx0 with needsRedraw := true }
  match ev with
  | SDLEvent.mouseMotion mx my => processMotion ctx mx my
  | SDLEvent.mouseButtonDown mx my button clicks => processButtonDown ctx mx my button clicks
  | SDLEvent.mouseButtonUp mx my button => processButtonUp ctx mx my button
  | SDLEvent.mouseWheel mx my wy =>
    dispatch ctx (UIContext.hitTest ctx mx my)
      { type := EventType.MouseWheel, mx := mx, my := my, wheel := wy }
  | SDLEvent.keyDown sym mod => processKeyDown ctx sym mod
  | SDLEvent.keyUp sym mod =>
    dispatch ctx ctx.focusedWidget { type := EventType.KeyUp, key := sym, mod := mod }
  | SDLEvent.textInput t =>
    dispatch ctx ctx.focusedWidget { type := EventType.TextInput, text := some t }
  | SDLEvent.windowResized w h => some (UIContext.resize ctx w h)
  | SDLEvent.other => some ctx

/-- A sequence of raw events processed one after the other. -/
def processEvents (ctx : UIContext) : List SDLEvent → Option UIContext
  | [] => some ctx
  | ev :: rest =>
    match UIContext.processEvent ctx ev with
    | none => none
    | some ctx1 => processEvents ctx1 rest

/-! ## Observations on the ghost trace and well-formedness checks -/

/-- The handler invocations recorded in a trace, in order. -/
def handlerCalls (tr : List Trace) : List (Nat × UIEvent) :=
  tr.filterMap (fun t =>
    match t with
    | Trace.handler p e => some (p, e)
    | Trace.callback _ _ _ => none)

/-- The `Click` events delivered to application callbacks, in order: the
callback, the emitting component and the event. -/
def clickCalls (tr : List Trace) : List (Nat × Nat × UIEvent) :=
  tr.filterMap (fun t =>
    match t with
    | Trace.handler _ _ => none
    | Trace.callback tag c e => if e.type = EventType.Click then some (tag, c, e) else none)

/-- An application callback (not the library's close wiring). -/
def CB.isUser : CB → Bool
  | CB.user _ => true
  | CB.menuClose _ => false

/-- Every callback registered on the object is an application observer. -/
def Fields.observersOnly (s : Fields) : Bool :=
  s.cbs.all (fun tc => tc.2.isUser)

/-- The trace entries `emit` produces when the callbacks are observers. -/
def callbackEntries (c : Nat) (e : UIEvent) : List CB → List Trace
  | [] => []
  | CB.user tag :: rest => Trace.callback tag c e :: callbackEntries c e rest
  | CB.menuClose _ :: rest => callbackEntries c e rest

/-- Every callback registered in the forest is an application observer. -/
def allObservers (ws : List UIComponent) : Bool :=
  (fieldsIn ws).all Fields.observersOnly

/-- The class of a component, without its data members. -/
def Kind.tag : Kind → Nat
  | Kind.Base => 0
  | Kind.Button => 1
  | Kind.TextInput _ => 2
  | Kind.Checkbox _ => 3
  | Kind.RadioButton _ _ => 4
  | Kind.MenuDropdown _ _ => 5
  | Kind.MenuBar _ _ _ => 6

/-- The members no handler assigns: address, id, geometry, layer, visibility,
enabledness, parent, callbacks and the class of the object. -/
def Fields.sameCore (s t : Fields) : Prop :=
  t.ptr = s.ptr ∧ t.id = s.id ∧ t.rect = s.rect ∧ t.layer = s.layer ∧ t.visible = s.visible
    ∧ t.enabled = s.enabled ∧ t.parent = s.parent ∧ t.cbs = s.cbs ∧ t.kind.tag = s.kind.tag

/-- As `sameCore`, and the focus flag is the same. -/
def Fields.sameFocus (s t : Fields) : Prop :=
  Fields.sameCore s t ∧ t.focused = s.focused

/-- The forest `ws1` has the objects of `ws`, in the same pre-order, with
fields related by `R`. -/
def Frame (R : Fields → Fields → Prop) (ws ws1 : List UIComponent) : Prop :=
  List.Forall₂ R (fieldsIn ws) (fieldsIn ws1)

/-- As `sameCore`, and the interaction state is the same. -/
def Fields.sameState (s t : Fields) : Prop :=
  Fields.sameCore s t ∧ t.wstate = s.wstate

/-- The focus pointer is null or points to an object of the forest. -/
def focusLive (ctx : UIContext) : Bool :=
  match ctx.focusedWidget with
  | none => true
  | some p => (fieldsAt ctx.widgets p).isSome

/-- The parent pointer of the object at `p` is null or points to an object of
the forest. -/
def parentLive (ws : List UIComponent) (p : Nat) : Bool :=
  match (fieldsAt ws p).bind (fun s => s.parent) with
  | none => true
  | some q => (getNodeIn q ws).isSome

/-- What `markDirty` called on `this` in the forest `ws` does to the fields
of an object. -/
def dirtyF (ws : List UIComponent) (this : Nat) (s : Fields) : Fields :=
  match (fieldsAt ws this).bind (fun s => s.parent) with
  | some q => updF q setDirty (updF this setDirty s)
  | none => updF this setDirty s

/-- What the capture property observes of a context: the pressed widget and
the handler invocations so far. -/
def UIContext.cap (ctx : UIContext) : Option Nat × List (Nat × UIEvent) :=
  (ctx.pressedWidget, handlerCalls ctx.trace)

/-- Focus exclusivity of a forest with respect to the focus pointer `fw`: the
addresses are pairwise distinct and an object has `focused == true` exactly
when `fw` points to it. -/
def FocusInv (ws : List UIComponent) (fw : Option Nat) : Prop :=
  (ptrsIn ws).Nodup ∧ ∀ s ∈ fieldsIn ws, (s.focused = true ↔ fw = some s.ptr)

/-- No object of the forest has `focused == true`, and the addresses are
pairwise distinct. -/
def FocusClear (ws : List UIComponent) : Prop :=
  (ptrsIn ws).Nodup ∧ ∀ s ∈ fieldsIn ws, s.focused = false

/-- What a handler may do to a context: it leaves the pressed widget and the
handler record alone, and it keeps focus exclusivity. -/
def Good (ctx ctx1 : UIContext) : Prop :=
  ctx1.cap = ctx.cap
    ∧ (FocusInv ctx.widgets ctx.focusedWidget → FocusInv ctx1.widgets ctx1.focusedWidget)

/-- A component tree as the application hands it to `add` or `addChild`: newly
constructed objects (their addresses are pairwise distinct, none is the address
of an object of the context or the value of `focusedWidget`) that never had
the focus. -/
def freshFor (ctx : UIContext) (c : UIComponent) : Bool :=
  decide (ptrs c).Nodup
    && (ptrs c).all (fun p => decide (p ∉ ptrsIn ctx.widgets) && decide (ctx.focusedWidget ≠ some p))
    && (fieldsOf c).all (fun s => !s.focused)

/-- The states reachable from an empty context by `add`, `addChild`,
`setFocus` and `processEvent`. -/
inductive Reachable : UIContext → Prop where
  | empty : Reachable {}
  | add (ctx : UIContext) (c : UIComponent) :
      Reachable ctx → freshFor ctx c = true → Reachable (UIContext.add ctx c)
  | addChild (ctx : UIContext) (this : Nat) (c : UIComponent) :
      Reachable ctx → freshFor ctx c = true → Reachable (UIContext.addChild ctx this c)
  | setFocus (ctx ctx1 : UIContext) (c : Option Nat) :
      Reachable ctx → UIContext.setFocus ctx c = some ctx1 → Reachable ctx1
  | processEvent (ctx ctx1 : UIContext) (ev : SDLEvent) :
      Reachable ctx → UIContext.processEvent ctx ev = some ctx1 → Reachable ctx1

/-! ## Concrete trees and contexts -/

/-- A chain root (0) → middle (1) → leaf (2), all clean. -/
def exChain : List UIComponent :=
  [.node { ptr := 0, id := "root", dirty := false }
    [.node { ptr := 1, id := "mid", dirty := false, parent := some 0 }
      [.node { ptr := 2, id := "leaf", dirty := false, parent := some 1 } []]]]

/-- A menu bar "mb" with the menu File → New, and a button "ok" elsewhere. -/
def exMenuCtx : UIContext :=
  UIContext.add
    (UIContext.add {}
      (.node { ptr := 1, id := "mb", rect := ⟨0, 0, 200, 20⟩,
               kind := Kind.MenuBar [⟨"File", [{ text := "New", id := "new" }]⟩] (-1) none } []))
    (.node { ptr := 2, id := "ok", rect := ⟨300, 300, 50, 20⟩, kind := Kind.Button } [])

/-- The button "btn" of the end-to-end scenario, with one `Click` callback. -/
def exButton : UIComponent :=
  .node { ptr := 1, id := "btn", rect := ⟨10, 10, 50, 20⟩, kind := Kind.Button,
          cbs := [(EventType.Click, CB.user 7)] } []

/-- A fresh context holding the button "btn". -/
def exButtonCtx : UIContext := UIContext.add {} exButton

/-- Three focusable buttons A (1), B (2), C (3) with focus callbacks. -/
def exTabCtx : UIContext :=
  UIContext.add (UIContext.add (UIContext.add {}
    (.node { ptr := 1, id := "A", rect := ⟨0, 0, 10, 10⟩, kind := Kind.Button,
             cbs := [(EventType.FocusLost, CB.user 10), (EventType.FocusGained, CB.user 11)] } []))
    (.node { ptr := 2, id := "B", rect := ⟨20, 0, 10, 10⟩, kind := Kind.Button,
             cbs := [(EventType.FocusLost, CB.user 20), (EventType.FocusGained, CB.user 21)] } []))
    (.node { ptr := 3, id := "C", rect := ⟨40, 0, 10, 10⟩, kind := Kind.Button,
             cbs := [(EventType.FocusLost, CB.user 30), (EventType.FocusGained, CB.user 31)] } [])

/-- The context of the button "btn" after a left button-down on it. -/
def exPressedCtx : UIContext :=
  match UIContext.processEvent exButtonCtx (SDLEvent.mouseButtonDown 20 15 1 1) with
  | some c => c
  | none => {}

/-- The three buttons with A focused. -/
def exTabCtxA : UIContext :=
  match UIContext.setFocus exTabCtx (some 1) with
  | some c => c
  | none => {}

/-- The three buttons with C focused. -/
def exTabCtxC : UIContext :=
  match UIContext.setFocus exTabCtx (some 3) with
  | some c => c
  | none => {}

/-- The result of an operation that is known not to fault. -/
def okOr (d : UIContext) : Option UIContext → UIContext
  | some c => c
  | none => d

/-! ## Surfaces and the render pass -/

/-- Ghost record of the work of a render pass: clearing the root surface, the
allocation of a retained surface, a call of `onDraw`, a blit of the surface of
`src` onto the surface of `dst` (the root surface when `dst` is `none`) and the
upload of the root surface. -/
inductive Draw where
  | clear
  | alloc (p : Nat) (w h : Int)
  | draw (p : Nat)
  | blit (src : Nat) (dst : Option Nat)
  | present
deriving DecidableEq

/-- The test `!surf||surf->w!=rect.w||surf->h!=rect.h` of `ensureSurf`. -/
def surfStale (s : Fields) : Bool :=
  match s.surf with
  | none => true
  | some (w, h) => decide (w ≠ s.rect.w) || decide (h ≠ s.rect.h)

/-- `UIComponent::ensureSurf`: the fields afterwards and the allocation made,
if any.  The surface is created with `std::max(1,rect.w)` by
`std::max(1,rect.h)`. -/
def ensureSurf (s : Fields) : Fields × List Draw :=
  if surfStale s then
    ({ s with surf := some (max 1 s.rect.w, max 1 s.rect.h), dirty := true },
      [Draw.alloc s.ptr (max 1 s.rect.w) (max 1 s.rect.h)])
  else (s, [])

mutual
/-- `UIComponent::render`: the subtree afterwards and the work done. -/
def render : UIComponent → UIComponent × List Draw
  | .node s ch =>
    if (ensureSurf s).1.dirty then
      (.node { (ensureSurf s).1 with dirty := false } (renderList (some s.ptr) ch).1,
        (ensureSurf s).2 ++ [Draw.draw s.ptr] ++ (renderList (some s.ptr) ch).2)
    else (.node (ensureSurf s).1 ch, (ensureSurf s).2)
/-- The loop `for(auto& ch: children){ if(!ch->visible) continue; ch->render();
SDL_BlitSurface(...); }` shared by `UIComponent::render` and
`UIContext::render`. -/
def renderList (dst : Option Nat) : List UIComponent → List UIComponent × List Draw
  | [] => ([], [])
  | .node s ch :: rest =>
    if !s.visible then (.node s ch :: (renderList dst rest).1, (renderList dst rest).2)
    else
      ((render (.node s ch)).1 :: (renderList dst rest).1,
        (render (.node s ch)).2 ++ [Draw.blit s.ptr dst] ++ (renderList dst rest).2)
end

/-- `UIContext::render`: the context afterwards and the work done (nothing on
the early return). -/
def UIContext.render (ctx : UIContext) : UIContext × List Draw :=
  if !ctx.needsRedraw && !(ctx.widgets.any (fun w => w.self.dirty)) then (ctx, [])
  else
    ({ ctx with widgets := (renderList none ctx.widgets).1, needsRedraw := false },
      [Draw.clear] ++ (renderList none ctx.widgets).2 ++ [Draw.present])

/-- `UIComponent::setRect` on the object at `this`. -/
def setRect (ws : List UIComponent) (this : Nat) (r : Rect) : List UIComponent :=
  match fieldsAt ws this with
  | some s =>
    if r.x ≠ s.rect.x ∨ r.y ≠ s.rect.y ∨ r.w ≠ s.rect.w ∨ r.h ≠ s.rect.h then
      markDirty (updIn this (fun s => { s with rect := r, surf := none }) ws) this
    else ws
  | none => ws

/-! ## Observations on hit-testing and ordering -/

/-- What the loops of `UIContext::hitTest` and `hitTestAll` get from one
entry of the vector: nothing when it is invisible or disabled, the result of
`hitTestAll` otherwise. -/
def hitOf (x y : Int) (c : UIComponent) : Option Nat :=
  if !c.self.visible || !c.self.enabled then none else hitTestAll x y c

/-- A vector of components is in ascending layer order. -/
def layerSorted (l : List UIComponent) : Prop :=
  l.Pairwise (fun a b => a.self.layer ≤ b.self.layer)

mutual
/-- The paths of a subtree: for every object, the fields of its ancestors from
the root of the subtree down, followed by its own fields. -/
def pathsOf : UIComponent → List (List Fields)
  | .node s ch => [s] :: (pathsIn ch).map (fun p => s :: p)
/-- The paths of a list of subtrees. -/
def pathsIn : List UIComponent → List (List Fields)
  | [] => []
  | c :: rest => pathsOf c ++ pathsIn rest
end

/-- A path ends in the object with address `r`; that object contains the
point and every object on the path is visible and enabled. -/
def hitPath (x y : Int) (r : Nat) (p : List Fields) : Prop :=
  (∃ s, p.getLast? = some s ∧ s.ptr = r ∧ s.rect.contains x y = true)
    ∧ ∀ t ∈ p, t.visible = true ∧ t.enabled = true

/-- The fields of a component without its dirty flag. -/
def cleanSelf (c : UIComponent) : Fields := { c.self with dirty := false }

/-- Two top-level nodes that overlap: A on layer 0 and B on layer 1. -/
def exLayerA : UIComponent := .node { ptr := 1, id := "A", rect := ⟨0, 0, 10, 10⟩, layer := 0 } []

/-- The node B on layer 1. -/
def exLayerB : UIComponent := .node { ptr := 2, id := "B", rect := ⟨5, 5, 10, 10⟩, layer := 1 } []

/-- A panel at (0,0,10,10) with a child at (20,20,10,10), outside the panel. -/
def exOverhang : UIContext :=
  UIContext.addChild (UIContext.add {} (.node { ptr := 1, id := "panel", rect := ⟨0, 0, 10, 10⟩ } []))
    1 (.node { ptr := 2, id := "child", rect := ⟨20, 20, 10, 10⟩ } [])

/-- A panel with two overlapping children, the second on top. -/
def exStack : UIComponent :=
  .node { ptr := 1, id := "panel", rect := ⟨0, 0, 100, 100⟩ }
    [.node { ptr := 2, id := "low", rect := ⟨0, 0, 50, 50⟩, parent := some 1 } [],
     .node { ptr := 3, id := "high", rect := ⟨10, 10, 50, 50⟩, parent := some 1 } []]

/-- A context with a visible widget "shown" and an invisible widget "hidden". -/
def exHidden : UIContext :=
  UIContext.add (UIContext.add {} (.node { ptr := 1, id := "shown", rect := ⟨0, 0, 10, 10⟩ } []))
    (.node { ptr := 2, id := "hidden", rect := ⟨20, 0, 10, 10⟩, visible := false } [])

/-- A widget whose rectangle has width 0. -/
def exFlat : Fields := { ptr := 1, id := "flat", rect := ⟨0, 0, 0, 5⟩ }

/-- The children of the panel of `exLayered`, on the layers 0, 1, 1, 2. -/
def exKids : List UIComponent :=
  [.node { ptr := 2, id := "k0", layer := 0, parent := some 1 } [],
   .node { ptr := 3, id := "k1", layer := 1, parent := some 1 } [],
   .node { ptr := 4, id := "k2", layer := 1, parent := some 1 } [],
   .node { ptr := 5, id := "k3", layer := 2, parent := some 1 } []]

/-- The fields of the panel of `exLayered`. -/
def exPanel : Fields := { ptr := 1, id := "panel", rect := ⟨0, 0, 100, 100⟩, dirty := false }

/-- A context whose only widget is a clean panel with the children `exKids`. -/
def exLayered : UIContext := { widgets := [.node exPanel exKids] }

/-- A new child on layer 1. -/
def exNewKid : UIComponent := .node { ptr := 6, id := "new", layer := 1 } []

/-! ## Observations on the registry -/

/-- The id and the address of every object of a forest, in pre-order. -/
def keysIn (ws : List UIComponent) : List (String × Nat) :=
  (fieldsIn ws).map (fun s => (s.id, s.ptr))

/-- The non-empty ids among a list of (id, address) pairs. -/
def idsOf (K : List (String × Nat)) : List String :=
  (K.map (fun kp => kp.1)).filter (fun i => decide (i ≠ ""))

/-- The non-empty ids of the objects of a forest, in pre-order. -/
def idsIn (ws : List UIComponent) : List String := idsOf (keysIn ws)

/-- One step of `registerWidget`: `if(!c->id.empty()) registry[c->id]=c`. -/
def regKey (r : List (String × Nat)) (kp : String × Nat) : List (String × Nat) :=
  if kp.1 ≠ "" then regSet r kp.1 kp.2 else r

/-- One step of `unregisterWidget`: `if(!c->id.empty()) registry.erase(c->id)`. -/
def eraseKey (r : List (String × Nat)) (kp : String × Nat) : List (String × Nat) :=
  if kp.1 ≠ "" then regErase r kp.1 else r

/-- The objects of `c` are new for the forest `ws`: with them the addresses
are pairwise distinct and so are the non-empty ids. -/
def distinctWith (ws : List UIComponent) (c : UIComponent) : Prop :=
  (ptrsIn (ws ++ [c])).Nodup ∧ (idsIn (ws ++ [c])).Nodup

/-- The registry covers the objects with the keys `K`: addresses and non-empty
ids are pairwise distinct and every non-empty id is registered to its
object. -/
def Covers (K : List (String × Nat)) (r : List (String × Nat)) : Prop :=
  (K.map (fun kp => kp.2)).Nodup ∧ (idsOf K).Nodup
    ∧ ∀ kp ∈ K, kp.1 ≠ "" → regFind r kp.1 = some kp.2

/-- The contexts built from the empty one by `add`, by `addChild` on a parent
of the context, by `addChild` on a parent of a tree that is not attached (only
the registry of the context changes) and by `remove`, the arriving objects
being new and their non-empty ids distinct from those of the tree. -/
inductive Built : UIContext → Prop where
  | empty : Built {}
  | add (ctx : UIContext) (c : UIComponent) :
      Built ctx → distinctWith ctx.widgets c → Built (UIContext.add ctx c)
  | addChild (ctx : UIContext) (this : Nat) (c : UIComponent) :
      Built ctx → distinctWith ctx.widgets c → Built (UIContext.addChild ctx this c)
  | addChildDetached (ctx : UIContext) (tree : List UIComponent) (this : Nat) (c : UIComponent) :
      Built ctx → (∀ i ∈ idsIn [c], i ∉ idsIn ctx.widgets) →
      Built { ctx with registry := (WXUI.addChild ctx.registry tree this c).1 }
  | remove (ctx : UIContext) (id : String) :
      Built ctx → Built (UIContext.remove ctx id).2

/-- The context after: a widget "w" is added, the child "c" is given to the
panel "p" while "p" is not attached, "p" is added, "w" is removed. -/
def exBuilt : UIContext :=
  (UIContext.remove
    (UIContext.add
      { UIContext.add {} (.node { ptr := 3, id := "w" } []) with registry := (WXUI.addChild (UIContext.add {} (.node { ptr := 3, id := "w" } [])).registry [.node { ptr := 1, id := "p" } []] 1 (.node { ptr := 2, id := "c" } [])).1 }
      (.node { ptr := 1, id := "p", dirty := true } [.node { ptr := 2, id := "c", parent := some 1 } []]))
    "w").2

/-! ## Further member functions: visibility, enabledness, tree search, menu bar drawing -/

/-- `UIComponent::setVisible` on the object at `this`. -/
def setVisible (ws : List UIComponent) (this : Nat) (v : Bool) : List UIComponent :=
  match fieldsAt ws this with
  | some s =>
    if s.visible ≠ v then markDirty (updIn this (fun s => { s with visible := v }) ws) this
    else ws
  | none => ws

/-- `UIComponent::setEnabled` on the object at `this`:
`enabled=e; setState(e?WidgetState::Normal:WidgetState::Disabled);`. -/
def setEnabled (ws : List UIComponent) (this : Nat) (e : Bool) : List UIComponent :=
  setState (updIn this (fun s => { s with enabled := e }) ws) this
    (if e then WidgetState.Normal else WidgetState.Disabled)

mutual
/-- `UIComponent::findById`: the node itself, then the children in vector
order, each searched in depth. -/
def UIComponent.findById (searchId : String) : UIComponent → Option Nat
  | .node s ch => if s.id = searchId then some s.ptr else findByIdIn searchId ch
/-- The loop of `UIComponent::findById` over the children. -/
def findByIdIn (searchId : String) : List UIComponent → Option Nat
  | [] => none
  | c :: rest =>
    match UIComponent.findById searchId c with
    | some r => some r
    | none => findByIdIn searchId rest
end

/-- The loop of `UIMenuBar::onDraw`: the offset `x` at which menu `i` is
painted (highlight from `x-1`, title at `x+3`); the loop starts with `x=2` and
advances by `tw+4` with `tw = title.size()*8+8`. -/
def menuDrawX : List Menu → Int → Nat → Option Int
  | [], _, _ => none
  | _ :: _, x, 0 => some x
  | m :: rest, x, i + 1 => menuDrawX rest (x + ((m.title.length : Int) * 8 + 8) + 4) i

/-- A menu bar with the menus File and Edit. -/
def exMenus : List Menu :=
  [⟨"File", [{ text := "New", id := "new" }]⟩, ⟨"Edit", [{ text := "Undo", id := "undo" }]⟩]

/-- A clean, enabled button in state `Hovered`. -/
def exHovered : List UIComponent :=
  [.node { ptr := 1, id := "b", kind := Kind.Button, wstate := WidgetState.Hovered, dirty := false } []]

/-- A focused text input holding "ab" with the cursor at the end and
`maxLen == 3`. -/
def exTextCtx : UIContext :=
  okOr {} (UIContext.setFocus
    (UIContext.add {} (.node { ptr := 1, id := "in", rect := ⟨0, 0, 100, 20⟩, kind := Kind.TextInput { text := "ab", cursor := 2, maxLen := 3 } } []))
    (some 1))

/-- The contexts built from the empty one by `add`, by `addChild` on a parent
that is part of the context, and by `remove`, the arriving objects being new
and their non-empty ids distinct from those of the tree. -/
inductive Attached : UIContext → Prop where
  | empty : Attached {}
  | add (ctx : UIContext) (c : UIComponent) :
      Attached ctx → distinctWith ctx.widgets c → Attached (UIContext.add ctx c)
  | addChild (ctx : UIContext) (this : Nat) (c : UIComponent) :
      Attached ctx → this ∈ ptrsIn ctx.widgets → distinctWith ctx.widgets c →
      Attached (UIContext.addChild ctx this c)
  | remove (ctx : UIContext) (id : String) :
      Attached ctx → Attached (UIContext.remove ctx id).2

/-- The registry agrees with the tree: it covers the objects with the keys
`K`, and each of its entries is the non-empty id and the address of one of
them. -/
def Exact (K : List (String × Nat)) (r : List (String × Nat)) : Prop :=
  Covers K r ∧ ∀ kv ∈ r, kv ∈ K ∧ kv.1 ≠ ""

/-- The empty context after the child "c" was given to a panel "p" that is
not attached. -/
def exDetachedReg : UIContext :=
  { ({} : UIContext) with registry := (WXUI.addChild ({} : UIContext).registry [.node { ptr := 1, id := "p" } []] 1 (.node { ptr := 2, id := "c" } [])).1 }

/-- A panel "p" with the child "c" and a widget "w", all attached. -/
def exAttached : UIContext :=
  UIContext.addChild (UIContext.add (UIContext.add {} (.node { ptr := 3, id := "w" } []))
    (.node { ptr := 1, id := "p" } [])) 1 (.node { ptr := 2, id := "c" } [])

/-- The handler invocations a call of the lambda `dispatch` with the target
`w` makes: one when `w` is an enabled object, none when `w` is null or the
object is disabled. -/
def dispatched (ws : List UIComponent) (w : Option Nat) (e : UIEvent) : List (Nat × UIEvent) :=
  match w with
  | none => []
  | some p =>
    match fieldsAt ws p with
    | some s => if s.enabled then [(p, e)] else []
    | none => []

/-- The target pointer is null or points to an object of the forest. -/
def liveIn (ws : List UIComponent) (w : Option Nat) : Bool :=
  match w with
  | none => true
  | some p => (fieldsAt ws p).isSome

/-- The states of a `UITextInput` its own member functions produce: the cursor
is inside the text, and a selection, when there is one, starts at position 0
(only Ctrl+A makes one). -/
def TextInputState.inv (st : TextInputState) : Prop :=
  st.cursor ≤ st.text.length ∧ (st.selStart ≠ st.selEnd → min st.selStart st.selEnd = 0)

/-- A focused text input holding "ab" with the cursor at the end, whose
selection members are 5 and 7. -/
def exBadSel : UIContext :=
  okOr {} (UIContext.setFocus
    (UIContext.add {} (.node { ptr := 1, id := "in", rect := ⟨0, 0, 100, 20⟩, kind := Kind.TextInput { text := "ab", cursor := 2, selStart := 5, selEnd := 7 } } []))
    (some 1))

/-- The children of the panel of `exRadios`: the radio buttons a (group "g",
checked), b (group "g"), c (group "h", checked). -/
def exRadioKids : List UIComponent :=
  [.node { ptr := 2, id := "a", rect := ⟨0, 0, 20, 10⟩, parent := some 1, kind := Kind.RadioButton "g" true } [],
   .node { ptr := 3, id := "b", rect := ⟨0, 10, 20, 10⟩, parent := some 1, kind := Kind.RadioButton "g" false, cbs := [(EventType.CheckChanged, CB.user 9)] } [],
   .node { ptr := 4, id := "c", rect := ⟨0, 20, 20, 10⟩, parent := some 1, kind := Kind.RadioButton "h" true } []]

/-- A panel with the radio buttons of `exRadioKids`, and a checked radio
button d of group "g" outside the panel. -/
def exRadios : UIContext :=
  { widgets := [.node { ptr := 1, id := "panel", rect := ⟨0, 0, 100, 100⟩ } exRadioKids,
                .node { ptr := 5, id := "d", rect := ⟨200, 0, 20, 10⟩, kind := Kind.RadioButton "g" true } []] }

/-- The fields of the radio button b of `exRadios`. -/
def exRadioB : Fields :=
  { ptr := 3, id := "b", rect := ⟨0, 10, 20, 10⟩, parent := some 1, kind := Kind.RadioButton "g" false, cbs := [(EventType.CheckChanged, CB.user 9)] }

/-- A menu bar "mb" with the menu File → New and a `MenuItemClicked` callback,
after a click on "File" and a move of the pointer onto the item "New". -/
def exOpenMenu : UIContext :=
  okOr {} (processEvents
    (UIContext.add {} (.node { ptr := 1, id := "mb", rect := ⟨0, 0, 200, 20⟩, cbs := [(EventType.MenuItemClicked, CB.user 5)], kind := Kind.MenuBar [⟨"File", [{ text := "New", id := "new" }]⟩] (-1) none } []))
    [SDLEvent.mouseButtonDown 5 5 1 1, SDLEvent.mouseButtonUp 5 5 1, SDLEvent.mouseMotion 5 25])

/-- The button "btn" under a panel "cover" on layer 1 whose rectangle contains
that of the button. -/
def exCovered : UIContext :=
  UIContext.add exButtonCtx (.node { ptr := 2, id := "cover", rect := ⟨0, 0, 100, 100⟩, layer := 1 } [])

/-- The fields of button A of the three buttons while it has the focus. -/
def exFieldsA : Fields :=
  { ptr := 1, id := "A", rect := ⟨0, 0, 10, 10⟩, kind := Kind.Button, focused := true,
    cbs := [(EventType.FocusLost, CB.user 10), (EventType.FocusGained, CB.user 11)] }

/-- The fields of button B of the three buttons. -/
def exFieldsB : Fields :=
  { ptr := 2, id := "B", rect := ⟨20, 0, 10, 10⟩, kind := Kind.Button,
    cbs := [(EventType.FocusLost, CB.user 20), (EventType.FocusGained, CB.user 21)] }

/-- The button "btn" pressed at (20,15), after the pointer went to (200,200)
and then to (5,5). -/
def exDraggedCtx : UIContext :=
  okOr {} (processEvents exPressedCtx [SDLEvent.mouseMotion 200 200, SDLEvent.mouseMotion 5 5])

/-- The fields of the object at `p`, or `d` when there is none. -/
def fieldsOr (d : Fields) (ws : List UIComponent) (p : Nat) : Fields :=
  match fieldsAt ws p with
  | some s => s
  | none => d

/-! ## Properties: the forest as a list of fields -/

@[simp] theorem updF_ptr (p : Nat) (f : Fields → Fields) (s : Fields) : (updF p f s).ptr = s.ptr := by
  unfold updF; split <;> rfl

mutual
theorem fieldsOf_updNode (p : Nat) (f : Fields → Fields) :
    ∀ t : UIComponent, fieldsOf (updNode p f t) = (fieldsOf t).map (updF p f)
  | .node s ch => by
    simp only [updNode, fieldsOf, List.map_cons, fieldsIn_updIn p f ch]
theorem fieldsIn_updIn (p : Nat) (f : Fields → Fields) :
    ∀ ws : List UIComponent, fieldsIn (updIn p f ws) = (fieldsIn ws).map (updF p f)
  | [] => by simp [updIn, fieldsIn]
  | c :: rest => by
    simp only [updIn, fieldsIn, List.map_append, fieldsOf_updNode p f c, fieldsIn_updIn p f rest]
end

mutual
theorem getNode_self (p : Nat) :
    ∀ t : UIComponent, (getNode p t).map UIComponent.self
      = (fieldsOf t).find? (fun s => decide (s.ptr = p))
  | .node s ch => by
    simp only [getNode, fieldsOf, List.find?_cons]
    by_cases h : s.ptr = p
    · simp [h, UIComponent.self]
    · simp only [h, if_false, decide_False]
      exact getNodeIn_self p ch
theorem getNodeIn_self (p : Nat) :
    ∀ ws : List UIComponent, (getNodeIn p ws).map UIComponent.self
      = (fieldsIn ws).find? (fun s => decide (s.ptr = p))
  | [] => by simp [getNodeIn, fieldsIn]
  | c :: rest => by
    simp only [getNodeIn, fieldsIn, List.find?_append]
    rw [← getNode_self p c, ← getNodeIn_self p rest]
    cases getNode p c <;> simp
end

theorem fieldsAt_eq_find (ws : List UIComponent) (p : Nat) :
    fieldsAt ws p = (fieldsIn ws).find? (fun s => decide (s.ptr = p)) :=
  getNodeIn_self p ws

theorem fieldsAt_ptr {ws : List UIComponent} {p : Nat} {s : Fields}
    (h : fieldsAt ws p = some s) : s.ptr = p := by
  rw [fieldsAt_eq_find] at h
  simpa using List.find?_some h

theorem fieldsAt_mem {ws : List UIComponent} {p : Nat} {s : Fields}
    (h : fieldsAt ws p = some s) : s ∈ fieldsIn ws := by
  rw [fieldsAt_eq_find] at h
  exact List.mem_of_find?_eq_some h

theorem fieldsAt_isSome_of_mem {ws : List UIComponent} {s : Fields}
    (h : s ∈ fieldsIn ws) : (fieldsAt ws s.ptr).isSome = true := by
  rw [fieldsAt_eq_find, List.find?_isSome]
  exact ⟨s, h, by simp⟩

theorem fieldsAt_isSome_iff {ws : List UIComponent} {p : Nat} :
    (fieldsAt ws p).isSome = true ↔ p ∈ ptrsIn ws := by
  rw [fieldsAt_eq_find, List.find?_isSome]
  simp [ptrsIn]

theorem fieldsAt_updIn (p : Nat) (f : Fields → Fields) (ws : List UIComponent) (q : Nat) :
    fieldsAt (updIn p f ws) q = (fieldsAt ws q).map (updF p f) := by
  rw [fieldsAt_eq_find, fieldsAt_eq_find, fieldsIn_updIn, List.find?_map]
  have : ((fun s : Fields => decide (s.ptr = q)) ∘ updF p f) = (fun s => decide (s.ptr = q)) := by
    funext s; simp
  rw [this]

theorem ptrsIn_updIn (p : Nat) (f : Fields → Fields) (ws : List UIComponent) :
    ptrsIn (updIn p f ws) = ptrsIn ws := by
  simp [ptrsIn, fieldsIn_updIn, Function.comp_def]

/-- With pairwise distinct addresses, the object found at the address of a
member of the forest is that member. -/
theorem fieldsAt_of_mem_nodup {ws : List UIComponent} (hnd : (ptrsIn ws).Nodup) {s : Fields}
    (h : s ∈ fieldsIn ws) : fieldsAt ws s.ptr = some s := by
  have hs := fieldsAt_isSome_of_mem h
  obtain ⟨t, ht⟩ := Option.isSome_iff_exists.mp hs
  have htm := fieldsAt_mem ht
  have htp := fieldsAt_ptr ht
  rw [ht]
  congr 1
  exact List.inj_on_of_nodup_map hnd htm h htp

/-! ## Frames: what assignments leave alone -/

theorem Frame.refl {R : Fields → Fields → Prop} (hR : ∀ s, R s s) (ws : List UIComponent) :
    Frame R ws ws :=
  List.forall₂_same.mpr (fun s _ => hR s)

theorem Frame.trans {R : Fields → Fields → Prop} (hR : ∀ a b c, R a b → R b c → R a c)
    {ws ws1 ws2 : List UIComponent} (h1 : Frame R ws ws1) (h2 : Frame R ws1 ws2) : Frame R ws ws2 := by
  unfold Frame at *
  generalize fieldsIn ws = l at h1
  generalize fieldsIn ws1 = l1 at h1 h2
  generalize fieldsIn ws2 = l2 at h2
  induction h1 generalizing l2 with
  | nil => cases h2; exact List.Forall₂.nil
  | cons hab _ ih =>
    cases h2 with
    | cons hbc hrest => exact List.Forall₂.cons (hR _ _ _ hab hbc) (ih _ hrest)

theorem Frame.mono {R S : Fields → Fields → Prop} (hRS : ∀ a b, R a b → S a b)
    {ws ws1 : List UIComponent} (h : Frame R ws ws1) : Frame S ws ws1 :=
  List.Forall₂.imp (fun _ _ => hRS _ _) h

theorem frame_updIn {R : Fields → Fields → Prop} (p : Nat) (f : Fields → Fields)
    (hf : ∀ s, R s (updF p f s)) (ws : List UIComponent) : Frame R ws (updIn p f ws) := by
  unfold Frame
  rw [fieldsIn_updIn]
  generalize fieldsIn ws = l
  induction l with
  | nil => exact List.Forall₂.nil
  | cons a l ih => exact List.Forall₂.cons (hf a) ih

theorem forall2_find {R : Fields → Fields → Prop} (hptr : ∀ a b, R a b → b.ptr = a.ptr) (q : Nat)
    {l l1 : List Fields} (h : List.Forall₂ R l l1) :
    (∀ s, l.find? (fun s => decide (s.ptr = q)) = some s →
      ∃ s1, l1.find? (fun s => decide (s.ptr = q)) = some s1 ∧ R s s1)
    ∧ (l.find? (fun s => decide (s.ptr = q)) = none →
      l1.find? (fun s => decide (s.ptr = q)) = none) := by
  induction h with
  | nil => simp
  | @cons a b l l1 hab _ ih =>
    have hp := hptr a b hab
    by_cases hq : a.ptr = q
    · have hq1 : b.ptr = q := by rw [hp, hq]
      simp only [List.find?_cons, hq, hq1, decide_True]
      constructor
      · intro s hs
        cases hs
        exact ⟨b, rfl, hab⟩
      · intro h; cases h
    · have hq1 : ¬ b.ptr = q := by rw [hp]; exact hq
      simp only [List.find?_cons, hq, hq1, decide_False]
      exact ih

theorem frame_lookup {R : Fields → Fields → Prop} (hptr : ∀ a b, R a b → b.ptr = a.ptr)
    {ws ws1 : List UIComponent} (h : Frame R ws ws1) {q : Nat} {s : Fields}
    (hs : fieldsAt ws q = some s) : ∃ s1, fieldsAt ws1 q = some s1 ∧ R s s1 := by
  rw [fieldsAt_eq_find] at hs
  rw [fieldsAt_eq_find]
  exact (forall2_find hptr q h).1 s hs

theorem frame_lookup_none {R : Fields → Fields → Prop} (hptr : ∀ a b, R a b → b.ptr = a.ptr)
    {ws ws1 : List UIComponent} (h : Frame R ws ws1) {q : Nat}
    (hs : fieldsAt ws q = none) : fieldsAt ws1 q = none := by
  rw [fieldsAt_eq_find] at hs
  rw [fieldsAt_eq_find]
  exact (forall2_find hptr q h).2 hs

theorem Frame.map_eq {R : Fields → Fields → Prop} {α : Type} (π : Fields → α)
    (hπ : ∀ a b, R a b → π b = π a) {ws ws1 : List UIComponent} (h : Frame R ws ws1) :
    (fieldsIn ws1).map π = (fieldsIn ws).map π := by
  unfold Frame at h
  generalize fieldsIn ws = l at h
  generalize fieldsIn ws1 = l1 at h
  induction h with
  | nil => rfl
  | cons hab _ ih => simp [hπ _ _ hab, ih]

theorem Frame.mem_right {R : Fields → Fields → Prop} {ws ws1 : List UIComponent}
    (h : Frame R ws ws1) {s1 : Fields} (hs : s1 ∈ fieldsIn ws1) : ∃ s ∈ fieldsIn ws, R s s1 := by
  unfold Frame at h
  generalize fieldsIn ws = l at h
  generalize fieldsIn ws1 = l1 at h hs
  induction h with
  | nil => cases hs
  | cons hab _ ih =>
    rcases List.mem_cons.mp hs with rfl | hm
    · exact ⟨_, List.mem_cons_self _ _, hab⟩
    · obtain ⟨s, hsm, hr⟩ := ih hm
      exact ⟨s, List.mem_cons_of_mem _ hsm, hr⟩

theorem sameCore_refl (s : Fields) : Fields.sameCore s s := by
  simp [Fields.sameCore]

theorem sameCore_trans (a b c : Fields) (h1 : Fields.sameCore a b) (h2 : Fields.sameCore b c) :
    Fields.sameCore a c := by
  obtain ⟨a1, a2, a3, a4, a5, a6, a7, a8, a9⟩ := h1
  obtain ⟨b1, b2, b3, b4, b5, b6, b7, b8, b9⟩ := h2
  exact ⟨b1.trans a1, b2.trans a2, b3.trans a3, b4.trans a4, b5.trans a5, b6.trans a6,
    b7.trans a7, b8.trans a8, b9.trans a9⟩

theorem sameFocus_refl (s : Fields) : Fields.sameFocus s s :=
  ⟨sameCore_refl s, rfl⟩

theorem sameFocus_trans (a b c : Fields) (h1 : Fields.sameFocus a b) (h2 : Fields.sameFocus b c) :
    Fields.sameFocus a c :=
  ⟨sameCore_trans a b c h1.1 h2.1, h2.2.trans h1.2⟩

theorem sameCore_ptr (a b : Fields) (h : Fields.sameCore a b) : b.ptr = a.ptr := h.1

theorem sameFocus_ptr (a b : Fields) (h : Fields.sameFocus a b) : b.ptr = a.ptr := h.1.1

theorem sameFocus_updF (p : Nat) {f : Fields → Fields} (hf : ∀ s, Fields.sameFocus s (f s))
    (s : Fields) : Fields.sameFocus s (updF p f s) := by
  unfold updF
  split
  · obtain ⟨⟨_, h2, h3, h4, h5, h6, h7, h8, h9⟩, h10⟩ := hf s
    exact ⟨⟨rfl, h2, h3, h4, h5, h6, h7, h8, h9⟩, h10⟩
  · exact sameFocus_refl s

theorem sameCore_updF (p : Nat) {f : Fields → Fields} (hf : ∀ s, Fields.sameCore s (f s))
    (s : Fields) : Fields.sameCore s (updF p f s) := by
  unfold updF
  split
  · obtain ⟨_, h2, h3, h4, h5, h6, h7, h8, h9⟩ := hf s
    exact ⟨rfl, h2, h3, h4, h5, h6, h7, h8, h9⟩
  · exact sameCore_refl s

theorem sameFocus_setDirty (s : Fields) : Fields.sameFocus s (setDirty s) := by
  simp [Fields.sameFocus, Fields.sameCore, setDirty]

theorem sameFocus_wstate (st : WidgetState) (s : Fields) :
    Fields.sameFocus s { s with wstate := st } := by
  simp [Fields.sameFocus, Fields.sameCore]

theorem sameCore_focused (b : Bool) (s : Fields) : Fields.sameCore s { s with focused := b } := by
  simp [Fields.sameCore]

theorem sameFocus_setTextInput (st : TextInputState) (s : Fields) :
    Fields.sameFocus s (setTextInput st s) := by
  unfold setTextInput
  split <;> simp_all [Fields.sameFocus, Fields.sameCore, Kind.tag]

theorem sameFocus_scrollToShowCursor (s : Fields) : Fields.sameFocus s (scrollToShowCursor s) := by
  unfold scrollToShowCursor
  split <;> simp_all [Fields.sameFocus, Fields.sameCore, Kind.tag]

theorem sameFocus_placeCursor (mx : Int) (s : Fields) : Fields.sameFocus s (placeCursor mx s) := by
  unfold placeCursor
  split <;> simp_all [Fields.sameFocus, Fields.sameCore, Kind.tag]

theorem sameFocus_toggleChecked (s : Fields) : Fields.sameFocus s (toggleChecked s) := by
  unfold toggleChecked
  split <;> simp_all [Fields.sameFocus, Fields.sameCore, Kind.tag]

theorem sameFocus_setRadio (v : Bool) (s : Fields) : Fields.sameFocus s (setRadio v s) := by
  unfold setRadio
  split <;> simp_all [Fields.sameFocus, Fields.sameCore, Kind.tag]

theorem sameFocus_setHoveredIdx (i : Int) (s : Fields) : Fields.sameFocus s (setHoveredIdx i s) := by
  unfold setHoveredIdx
  split <;> simp_all [Fields.sameFocus, Fields.sameCore, Kind.tag]

theorem sameFocus_setOpenIdx (i : Int) (s : Fields) : Fields.sameFocus s (setOpenIdx i s) := by
  unfold setOpenIdx
  split <;> simp_all [Fields.sameFocus, Fields.sameCore, Kind.tag]

theorem sameFocus_setDropdown (d : Option Nat) (s : Fields) : Fields.sameFocus s (setDropdown d s) := by
  unfold setDropdown
  split <;> simp_all [Fields.sameFocus, Fields.sameCore, Kind.tag]

/-- An assignment of members other than the focus flag keeps the focus frame. -/
theorem frame_upd (p : Nat) {f : Fields → Fields} (hf : ∀ s, Fields.sameFocus s (f s))
    (ws : List UIComponent) : Frame Fields.sameFocus ws (updIn p f ws) :=
  frame_updIn p f (sameFocus_updF p hf) ws

theorem frame_trans {ws ws1 ws2 : List UIComponent} (h1 : Frame Fields.sameFocus ws ws1)
    (h2 : Frame Fields.sameFocus ws1 ws2) : Frame Fields.sameFocus ws ws2 :=
  Frame.trans sameFocus_trans h1 h2

theorem frame_refl (ws : List UIComponent) : Frame Fields.sameFocus ws ws :=
  Frame.refl sameFocus_refl ws

theorem frame_markDirty (ws : List UIComponent) (this : Nat) :
    Frame Fields.sameFocus ws (markDirty ws this) := by
  unfold markDirty
  split
  · exact frame_trans (frame_upd this sameFocus_setDirty ws) (frame_upd _ sameFocus_setDirty _)
  · exact frame_upd this sameFocus_setDirty ws

theorem frame_setState (ws : List UIComponent) (this : Nat) (st : WidgetState) :
    Frame Fields.sameFocus ws (setState ws this st) := by
  unfold setState
  split
  · split
    · exact frame_trans (frame_upd this (sameFocus_wstate st) ws) (frame_markDirty _ _)
    · exact frame_refl ws
  · exact frame_refl ws

theorem frame_deactivate (l : List Nat) (ws : List UIComponent) :
    Frame Fields.sameFocus ws
      (l.foldl (fun acc p => markDirty (updIn p (setRadio false) acc) p) ws) := by
  induction l generalizing ws with
  | nil => exact frame_refl ws
  | cons p l ih =>
    simp only [List.foldl_cons]
    exact frame_trans (frame_trans (frame_upd p (sameFocus_setRadio false) ws) (frame_markDirty _ _))
      (ih _)

theorem frame_deactivateGroup (ws : List UIComponent) (group : String) (this : Nat)
    (container : List UIComponent) :
    Frame Fields.sameFocus ws (deactivateGroup ws group this container) :=
  frame_deactivate _ ws

/-- A frame that keeps the core keeps the callbacks, hence `allObservers`. -/
theorem allObservers_frame {ws ws1 : List UIComponent} (h : Frame Fields.sameCore ws ws1)
    (ho : allObservers ws = true) : allObservers ws1 = true := by
  unfold allObservers at *
  rw [List.all_eq_true] at *
  intro s1 hs1
  obtain ⟨s, hs, hr⟩ := Frame.mem_right h hs1
  have := ho s hs
  unfold Fields.observersOnly at *
  rw [hr.2.2.2.2.2.2.2.1]
  exact this

theorem ptrsIn_frame {ws ws1 : List UIComponent} (h : Frame Fields.sameCore ws ws1) :
    ptrsIn ws1 = ptrsIn ws :=
  h.map_eq (fun s => s.ptr) (fun _ _ hr => hr.1)

mutual
theorem collect_eq :
    ∀ t : UIComponent, collect t
      = (fieldsOf t).filterMap (fun s => if s.enabled && s.visible then some s.ptr else none)
  | .node s ch => by
    simp only [collect, fieldsOf, List.filterMap_cons, collectAll_eq ch]
    split <;> simp_all
theorem collectAll_eq :
    ∀ ws : List UIComponent, collectAll ws
      = (fieldsIn ws).filterMap (fun s => if s.enabled && s.visible then some s.ptr else none)
  | [] => by simp [collectAll, fieldsIn]
  | c :: rest => by
    simp only [collectAll, fieldsIn, List.filterMap_append, collect_eq c, collectAll_eq rest]
end

theorem collectAll_frame {ws ws1 : List UIComponent} (h : Frame Fields.sameCore ws ws1) :
    collectAll ws1 = collectAll ws := by
  rw [collectAll_eq, collectAll_eq]
  have := h.map_eq (fun s => if s.enabled && s.visible then some s.ptr else none)
    (fun a b hr => by simp only [hr.1, hr.2.2.2.2.1, hr.2.2.2.2.2.1])
  have e : ∀ l : List Fields,
      l.filterMap (fun s => if s.enabled && s.visible then some s.ptr else none)
        = (l.map (fun s => if s.enabled && s.visible then some s.ptr else none)).filterMap id := by
    intro l
    rw [List.filterMap_map]
    rfl
  rw [e, e, this]

theorem collectAll_sublist (ws : List UIComponent) : (collectAll ws).Sublist (ptrsIn ws) := by
  rw [collectAll_eq]
  unfold ptrsIn
  generalize fieldsIn ws = l
  induction l with
  | nil => simp
  | cons a l ih =>
    by_cases hc : (a.enabled && a.visible) = true
    · simp only [List.filterMap_cons, hc, if_true, List.map_cons]
      exact ih.cons₂ _
    · simp only [List.filterMap_cons, hc, if_false, List.map_cons]
      exact ih.cons _

/-! ## Callbacks that are observers -/

theorem handlerCalls_append (a b : List Trace) :
    handlerCalls (a ++ b) = handlerCalls a ++ handlerCalls b := by
  simp [handlerCalls, List.filterMap_append]

theorem clickCalls_append (a b : List Trace) :
    clickCalls (a ++ b) = clickCalls a ++ clickCalls b := by
  simp [clickCalls, List.filterMap_append]

theorem handlerCalls_callbackEntries (c : Nat) (e : UIEvent) (cbs : List CB) :
    handlerCalls (callbackEntries c e cbs) = [] := by
  induction cbs with
  | nil => rfl
  | cons cb rest ih =>
    cases cb with
    | user tag => simpa [callbackEntries, handlerCalls] using ih
    | menuClose mb => simpa [callbackEntries] using ih

theorem runCallbacks_observers (c : Nat) (e : UIEvent) :
    ∀ (cbs : List CB) (ctx : UIContext), cbs.all CB.isUser = true →
      runCallbacks c e cbs ctx = some { ctx with trace := ctx.trace ++ callbackEntries c e cbs }
  | [], ctx, _ => by simp [runCallbacks, callbackEntries]
  | CB.user tag :: rest, ctx, h => by
    have hr : rest.all CB.isUser = true := by
      simp only [List.all_cons, Bool.and_eq_true] at h
      exact h.2
    simp only [runCallbacks, callbackEntries]
    rw [runCallbacks_observers c e rest _ hr]
    simp
  | CB.menuClose mb :: rest, ctx, h => by
    simp [CB.isUser] at h

theorem subscribers_observers {s : Fields} (ho : s.observersOnly = true) (t : EventType) :
    (s.subscribers t).all CB.isUser = true := by
  unfold Fields.observersOnly at ho
  unfold Fields.subscribers
  rw [List.all_eq_true] at *
  intro cb hcb
  obtain ⟨tc, htc, rfl⟩ := List.mem_map.mp hcb
  exact ho tc (List.mem_of_mem_filter htc)

theorem emit_observers {ctx : UIContext} {this : Nat} {s : Fields} (e : UIEvent)
    (hs : fieldsAt ctx.widgets this = some s) (ho : s.observersOnly = true) :
    emit ctx this e
      = some { ctx with trace := ctx.trace ++ callbackEntries this e (s.subscribers e.type) } := by
  unfold emit
  rw [hs]
  exact runCallbacks_observers this e _ ctx (subscribers_observers ho e.type)

theorem observersOnly_of_all {ws : List UIComponent} (ho : allObservers ws = true) {p : Nat}
    {s : Fields} (hs : fieldsAt ws p = some s) : s.observersOnly = true := by
  unfold allObservers at ho
  rw [List.all_eq_true] at ho
  exact ho s (fieldsAt_mem hs)

/-! ## The pressed widget and the handler record are left alone by handlers -/

theorem runObservers_cap (c : Nat) (e : UIEvent) :
    ∀ (cbs : List CB) (ctx ctx1 : UIContext), runObservers c e cbs ctx = some ctx1 →
      ctx1.cap = ctx.cap ∧ ctx1.widgets = ctx.widgets ∧ ctx1.focusedWidget = ctx.focusedWidget
  | [], ctx, ctx1, h => by
    simp only [runObservers, Option.some.injEq] at h
    subst h
    exact ⟨rfl, rfl, rfl⟩
  | CB.user tag :: rest, ctx, ctx1, h => by
    simp only [runObservers] at h
    obtain ⟨h1, h2, h3⟩ := runObservers_cap c e rest _ ctx1 h
    refine ⟨?_, h2, h3⟩
    rw [h1]
    simp [UIContext.cap, handlerCalls_append, handlerCalls]
  | CB.menuClose mb :: rest, ctx, ctx1, h => by
    simp [runObservers] at h

theorem remove_cap (ctx : UIContext) (id : String) : (UIContext.remove ctx id).2.cap = ctx.cap := by
  unfold UIContext.remove
  split <;> rfl

theorem menuCloseCB_cap {mb c : Nat} {ev : UIEvent} {ctx ctx1 : UIContext}
    (h : menuCloseCB mb c ev ctx = some ctx1) : ctx1.cap = ctx.cap := by
  unfold menuCloseCB at h
  split at h
  · cases h
  · split at h
    · cases h
    · rename_i ctx2 hro
      simp only at h
      split at h
      · cases h
      · simp only [Option.some.injEq] at h
        subst h
        rw [remove_cap]
        exact (runObservers_cap _ _ _ _ _ hro).1

theorem runCallbacks_cap (c : Nat) (e : UIEvent) :
    ∀ (cbs : List CB) (ctx ctx1 : UIContext), runCallbacks c e cbs ctx = some ctx1 →
      ctx1.cap = ctx.cap
  | [], ctx, ctx1, h => by
    simp only [runCallbacks, Option.some.injEq] at h
    subst h
    rfl
  | CB.user tag :: rest, ctx, ctx1, h => by
    simp only [runCallbacks] at h
    rw [runCallbacks_cap c e rest _ ctx1 h]
    simp [UIContext.cap, handlerCalls_append, handlerCalls]
  | CB.menuClose mb :: rest, ctx, ctx1, h => by
    simp only [runCallbacks] at h
    split at h
    · cases h
    · rename_i ctx2 hm
      rw [runCallbacks_cap c e rest _ ctx1 h]
      exact menuCloseCB_cap hm

theorem emit_cap {ctx ctx1 : UIContext} {this : Nat} {e : UIEvent}
    (h : emit ctx this e = some ctx1) : ctx1.cap = ctx.cap := by
  unfold emit at h
  split at h
  · cases h
  · exact runCallbacks_cap _ _ _ _ _ h

theorem setFocus_cap {ctx ctx1 : UIContext} {c : Option Nat}
    (h : UIContext.setFocus ctx c = some ctx1) : ctx1.cap = ctx.cap := by
  unfold UIContext.setFocus at h
  split at h
  · cases h; rfl
  · split at h
    · cases h
    · rename_i ctx2 hu
      split at h
      · cases h
      · rename_i ctx3 hf
        simp only [Option.some.injEq] at h
        subst h
        have h2 : ctx2.cap = ctx.cap := by
          unfold unfocusOld at hu
          split at hu
          · cases hu; rfl
          · split at hu
            · cases hu
            · exact (emit_cap hu).trans rfl
        have h3 : ctx3.cap = ctx2.cap := by
          unfold focusNew at hf
          split at hf
          · cases hf; rfl
          · split at hf
            · cases hf
            · exact (emit_cap hf).trans rfl
        exact h3.trans h2

theorem closeDropdown_cap {ctx ctx1 : UIContext} {this : Nat} {d : Option Nat}
    (h : closeDropdown ctx this d = some ctx1) : ctx1.cap = ctx.cap := by
  unfold closeDropdown at h
  split at h
  · cases h; rfl
  · split at h
    · cases h
    · simp only at h
      split at h
      · cases h
      · simp only [Option.some.injEq] at h
        subst h
        exact remove_cap _ _

/-! ## Focus exclusivity under the primitive operations -/

theorem fieldsIn_append (a b : List UIComponent) : fieldsIn (a ++ b) = fieldsIn a ++ fieldsIn b := by
  induction a with
  | nil => simp [fieldsIn]
  | cons c rest ih => simp [fieldsIn, ih]

theorem fieldsIn_singleton (c : UIComponent) : fieldsIn [c] = fieldsOf c := by
  simp [fieldsIn]

theorem focusInv_frame {ws ws1 : List UIComponent} {fw : Option Nat}
    (h : FocusInv ws fw) (hf : Frame Fields.sameFocus ws ws1) : FocusInv ws1 fw := by
  refine ⟨?_, ?_⟩
  · rw [ptrsIn_frame (hf.mono (fun _ _ hr => hr.1))]
    exact h.1
  · intro s1 hs1
    obtain ⟨s, hs, hr⟩ := Frame.mem_right hf hs1
    rw [hr.2, hr.1.1]
    exact h.2 s hs

theorem focusClear_frame {ws ws1 : List UIComponent}
    (h : FocusClear ws) (hf : Frame Fields.sameFocus ws ws1) : FocusClear ws1 := by
  refine ⟨?_, ?_⟩
  · rw [ptrsIn_frame (hf.mono (fun _ _ hr => hr.1))]
    exact h.1
  · intro s1 hs1
    obtain ⟨s, hs, hr⟩ := Frame.mem_right hf hs1
    rw [hr.2]
    exact h.2 s hs

theorem removeFirst_split {id : String} :
    ∀ {ws : List UIComponent} {c : UIComponent} {rest : List UIComponent},
      removeFirst id ws = some (c, rest) → ∃ pre post, ws = pre ++ c :: post ∧ rest = pre ++ post
  | [], c, rest, h => by simp [removeFirst] at h
  | d :: ws, c, rest, h => by
    simp only [removeFirst] at h
    split at h
    · simp only [Option.some.injEq, Prod.mk.injEq] at h
      obtain ⟨rfl, rfl⟩ := h
      exact ⟨[], ws, rfl, rfl⟩
    · split at h
      · rename_i d1 r1 hr
        simp only [Option.some.injEq, Prod.mk.injEq] at h
        obtain ⟨rfl, rfl⟩ := h
        obtain ⟨pre, post, h1, h2⟩ := removeFirst_split hr
        exact ⟨d :: pre, post, by simp [h1], by simp [h2]⟩
      · cases h

theorem self_mem_fieldsOf (c : UIComponent) : c.self ∈ fieldsOf c := by
  cases c with
  | node s ch => simp [fieldsOf, UIComponent.self]

theorem focusInv_remove {ws : List UIComponent} {fw : Option Nat} {id : String} {c : UIComponent}
    {rest : List UIComponent} (h : FocusInv ws fw) (hr : removeFirst id ws = some (c, rest)) :
    FocusInv rest (if fw = some c.self.ptr then none else fw) := by
  obtain ⟨pre, post, rfl, rfl⟩ := removeFirst_split hr
  obtain ⟨hnd, hfl⟩ := h
  simp only [ptrsIn, fieldsIn_append, fieldsIn, List.map_append, List.append_assoc] at hnd
  have hsub : (fieldsIn (pre ++ post)).Sublist (fieldsIn (pre ++ c :: post)) := by
    simp only [fieldsIn_append, fieldsIn]
    exact (List.Sublist.refl _).append (List.sublist_append_right _ _)
  refine ⟨?_, ?_⟩
  · simp only [ptrsIn, fieldsIn_append, List.map_append]
    have := hnd
    rw [List.nodup_append] at this ⊢
    obtain ⟨h1, h2, h3⟩ := this
    rw [List.nodup_append] at h2
    refine ⟨h1, h2.2.1, ?_⟩
    intro x hx1 hx2
    exact h3 hx1 (List.mem_append_right _ hx2)
  · intro s hs
    have hs0 := hfl s (hsub.subset hs)
    by_cases hfw : fw = some c.self.ptr
    · simp only [hfw, if_true]
      constructor
      · intro hf
        have := hs0.mp hf
        rw [hfw] at this
        have hpe : c.self.ptr = s.ptr := Option.some.inj this
        exfalso
        have hc : c.self.ptr ∈ (fieldsOf c).map (fun s => s.ptr) :=
          List.mem_map.mpr ⟨_, self_mem_fieldsOf c, rfl⟩
        simp only [fieldsIn_append] at hs
        rw [List.nodup_append] at hnd
        obtain ⟨_, h2, h3⟩ := hnd
        rw [List.nodup_append] at h2
        rcases List.mem_append.mp hs with hp | hp
        · exact h3 (List.mem_map.mpr ⟨s, hp, rfl⟩) (List.mem_append_left _ (hpe ▸ hc))
        · exact h2.2.2 (hpe ▸ hc) (List.mem_map.mpr ⟨s, hp, rfl⟩)
      · intro h; cases h
    · simp only [hfw, if_false]
      exact hs0

theorem focusClear_remove {ws : List UIComponent} {id : String} {c : UIComponent}
    {rest : List UIComponent} (h : FocusClear ws) (hr : removeFirst id ws = some (c, rest)) :
    FocusClear rest := by
  obtain ⟨pre, post, rfl, rfl⟩ := removeFirst_split hr
  have hsub : (fieldsIn (pre ++ post)).Sublist (fieldsIn (pre ++ c :: post)) := by
    simp only [fieldsIn_append, fieldsIn]
    exact (List.Sublist.refl _).append (List.sublist_append_right _ _)
  exact ⟨(hsub.map _).nodup h.1, fun s hs => h.2 s (hsub.subset hs)⟩

theorem remove_pres (P : List UIComponent → Option Nat → Prop)
    (hrm : ∀ ws fw id c rest, P ws fw → removeFirst id ws = some (c, rest) →
      P rest (if fw = some c.self.ptr then none else fw))
    (ctx : UIContext) (id : String) (hP : P ctx.widgets ctx.focusedWidget) :
    P (UIContext.remove ctx id).2.widgets (UIContext.remove ctx id).2.focusedWidget := by
  unfold UIContext.remove
  split
  · exact hP
  · rename_i c rest hr
    exact hrm _ _ _ _ _ hP hr

theorem menuCloseCB_pres (P : List UIComponent → Option Nat → Prop)
    (hfr : ∀ ws ws1 fw, P ws fw → Frame Fields.sameFocus ws ws1 → P ws1 fw)
    (hrm : ∀ ws fw id c rest, P ws fw → removeFirst id ws = some (c, rest) →
      P rest (if fw = some c.self.ptr then none else fw))
    {mb c : Nat} {ev : UIEvent} {ctx ctx1 : UIContext}
    (h : menuCloseCB mb c ev ctx = some ctx1) (hP : P ctx.widgets ctx.focusedWidget) :
    P ctx1.widgets ctx1.focusedWidget := by
  unfold menuCloseCB at h
  split at h
  · cases h
  · split at h
    · cases h
    · rename_i ctx2 hro
      simp only at h
      split at h
      · cases h
      · simp only [Option.some.injEq] at h
        subst h
        obtain ⟨_, hw, hf⟩ := runObservers_cap _ _ _ _ _ hro
        apply remove_pres P hrm
        simp only [hf]
        apply hfr _ _ _ (hw ▸ hP)
        rw [hw]
        exact frame_trans (frame_upd _ (sameFocus_setOpenIdx _) _) (frame_upd _ (sameFocus_setDropdown _) _)

theorem runCallbacks_pres (P : List UIComponent → Option Nat → Prop)
    (hfr : ∀ ws ws1 fw, P ws fw → Frame Fields.sameFocus ws ws1 → P ws1 fw)
    (hrm : ∀ ws fw id c rest, P ws fw → removeFirst id ws = some (c, rest) →
      P rest (if fw = some c.self.ptr then none else fw))
    (c : Nat) (e : UIEvent) :
    ∀ (cbs : List CB) (ctx ctx1 : UIContext), runCallbacks c e cbs ctx = some ctx1 →
      P ctx.widgets ctx.focusedWidget → P ctx1.widgets ctx1.focusedWidget
  | [], ctx, ctx1, h, hP => by
    simp only [runCallbacks, Option.some.injEq] at h
    subst h
    exact hP
  | CB.user tag :: rest, ctx, ctx1, h, hP => by
    simp only [runCallbacks] at h
    exact runCallbacks_pres P hfr hrm c e rest _ ctx1 h hP
  | CB.menuClose mb :: rest, ctx, ctx1, h, hP => by
    simp only [runCallbacks] at h
    split at h
    · cases h
    · rename_i ctx2 hm
      exact runCallbacks_pres P hfr hrm c e rest _ ctx1 h (menuCloseCB_pres P hfr hrm hm hP)

theorem emit_pres (P : List UIComponent → Option Nat → Prop)
    (hfr : ∀ ws ws1 fw, P ws fw → Frame Fields.sameFocus ws ws1 → P ws1 fw)
    (hrm : ∀ ws fw id c rest, P ws fw → removeFirst id ws = some (c, rest) →
      P rest (if fw = some c.self.ptr then none else fw))
    {ctx ctx1 : UIContext} {this : Nat} {e : UIEvent}
    (h : emit ctx this e = some ctx1) (hP : P ctx.widgets ctx.focusedWidget) :
    P ctx1.widgets ctx1.focusedWidget := by
  unfold emit at h
  split at h
  · cases h
  · exact runCallbacks_pres P hfr hrm _ _ _ _ _ h hP

theorem emit_focusInv {ctx ctx1 : UIContext} {this : Nat} {e : UIEvent}
    (h : emit ctx this e = some ctx1) (hP : FocusInv ctx.widgets ctx.focusedWidget) :
    FocusInv ctx1.widgets ctx1.focusedWidget :=
  emit_pres FocusInv (fun _ _ _ h1 h2 => focusInv_frame h1 h2)
    (fun _ _ _ _ _ h1 h2 => focusInv_remove h1 h2) h hP

theorem emit_focusClear {ctx ctx1 : UIContext} {this : Nat} {e : UIEvent}
    (h : emit ctx this e = some ctx1) (hP : FocusClear ctx.widgets) : FocusClear ctx1.widgets :=
  emit_pres (fun ws _ => FocusClear ws) (fun _ _ _ h1 h2 => focusClear_frame h1 h2)
    (fun _ _ _ _ _ h1 h2 => focusClear_remove h1 h2) h hP

theorem focusClear_of_inv_none {ws : List UIComponent} (h : FocusInv ws none) : FocusClear ws :=
  ⟨h.1, fun s hs => by
    have := h.2 s hs
    cases hf : s.focused
    · rfl
    · exact absurd (this.mp hf) (by simp)⟩

theorem focusInv_none_of_clear {ws : List UIComponent} (h : FocusClear ws) : FocusInv ws none :=
  ⟨h.1, fun s hs => by simp [h.2 s hs]⟩

theorem focusClear_unfocus {ws : List UIComponent} {old : Nat} (h : FocusInv ws (some old)) :
    FocusClear (updIn old (fun s => { s with focused := false }) ws) := by
  refine ⟨by rw [ptrsIn_updIn]; exact h.1, ?_⟩
  intro s1 hs1
  rw [fieldsIn_updIn] at hs1
  obtain ⟨s, hs, rfl⟩ := List.mem_map.mp hs1
  unfold updF
  split
  · rfl
  · rename_i hne
    have := h.2 s hs
    cases hf : s.focused
    · rfl
    · exact absurd (Option.some.inj (this.mp hf)).symm hne

theorem focusInv_focus {ws : List UIComponent} {p : Nat} (h : FocusClear ws) :
    FocusInv (updIn p (fun s => { s with focused := true }) ws) (some p) := by
  refine ⟨by rw [ptrsIn_updIn]; exact h.1, ?_⟩
  intro s1 hs1
  rw [fieldsIn_updIn] at hs1
  obtain ⟨s, hs, rfl⟩ := List.mem_map.mp hs1
  unfold updF
  split
  · rename_i he
    simp [he]
  · rename_i hne
    simp only [h.2 s hs]
    constructor
    · intro hf; cases hf
    · intro hf; exact absurd (Option.some.inj hf).symm hne

theorem setFocus_focusInv {ctx ctx1 : UIContext} {c : Option Nat}
    (h : UIContext.setFocus ctx c = some ctx1) (hP : FocusInv ctx.widgets ctx.focusedWidget) :
    FocusInv ctx1.widgets ctx1.focusedWidget := by
  unfold UIContext.setFocus at h
  split at h
  · cases h; exact hP
  · split at h
    · cases h
    · rename_i ctx2 hu
      split at h
      · cases h
      · rename_i ctx3 hf
        simp only [Option.some.injEq] at h
        subst h
        have h2 : FocusClear ctx2.widgets := by
          unfold unfocusOld at hu
          split at hu
          · rename_i hnone
            cases hu
            rw [hnone] at hP
            exact focusClear_of_inv_none hP
          · rename_i old hold
            split at hu
            · cases hu
            · rw [hold] at hP
              have key := emit_focusClear hu (focusClear_frame (focusClear_unfocus hP) (frame_markDirty _ _))
              exact key
        unfold focusNew at hf
        split at hf
        · cases hf
          exact focusInv_none_of_clear h2
        · rename_i p
          split at hf
          · cases hf
          · have key := emit_focusInv hf (focusInv_frame (focusInv_focus h2) (frame_markDirty _ _))
            exact key

/-! ## Handlers are good -/

theorem good_refl (ctx : UIContext) : Good ctx ctx := ⟨rfl, id⟩

theorem good_trans {a b c : UIContext} (h1 : Good a b) (h2 : Good b c) : Good a c :=
  ⟨h2.1.trans h1.1, fun h => h2.2 (h1.2 h)⟩

theorem good_of_frame {ctx ctx1 : UIContext} (hc : ctx1.cap = ctx.cap)
    (hfw : ctx1.focusedWidget = ctx.focusedWidget)
    (hfr : Frame Fields.sameFocus ctx.widgets ctx1.widgets) : Good ctx ctx1 :=
  ⟨hc, fun h => hfw ▸ focusInv_frame h hfr⟩

theorem good_emit {ctx ctx1 : UIContext} {this : Nat} {e : UIEvent}
    (h : emit ctx this e = some ctx1) : Good ctx ctx1 :=
  ⟨emit_cap h, emit_focusInv h⟩

theorem good_setFocus {ctx ctx1 : UIContext} {c : Option Nat}
    (h : UIContext.setFocus ctx c = some ctx1) : Good ctx ctx1 :=
  ⟨setFocus_cap h, setFocus_focusInv h⟩

theorem good_remove (ctx : UIContext) (id : String) : Good ctx (UIContext.remove ctx id).2 :=
  ⟨remove_cap ctx id,
    remove_pres FocusInv (fun _ _ _ _ _ h1 h2 => focusInv_remove h1 h2) ctx id⟩

theorem good_closeDropdown {ctx ctx1 : UIContext} {this : Nat} {d : Option Nat}
    (h : closeDropdown ctx this d = some ctx1) : Good ctx ctx1 := by
  unfold closeDropdown at h
  split at h
  · cases h; exact good_refl _
  · split at h
    · cases h
    · simp only at h
      split at h
      · cases h
      · simp only [Option.some.injEq] at h
        subst h
        exact good_trans (good_remove _ _)
          (good_of_frame rfl rfl (frame_upd _ (sameFocus_setDropdown _) _))

/-! ## Insertion of new components -/

theorem fieldsIn_cons (c : UIComponent) (l : List UIComponent) :
    fieldsIn (c :: l) = fieldsOf c ++ fieldsIn l := by
  simp [fieldsIn]

theorem fieldsIn_perm {l l1 : List UIComponent} (h : l.Perm l1) : (fieldsIn l).Perm (fieldsIn l1) := by
  induction h with
  | nil => exact List.Perm.refl _
  | cons c _ ih =>
    simp only [fieldsIn_cons]
    exact List.Perm.append_left _ ih
  | swap a b l =>
    simp only [fieldsIn_cons, ← List.append_assoc]
    exact List.Perm.append_right _ List.perm_append_comm
  | trans _ _ ih1 ih2 => exact ih1.trans ih2

theorem insertByLayer_perm (c : UIComponent) : ∀ l : List UIComponent, (insertByLayer c l).Perm (c :: l)
  | [] => by simp [insertByLayer]
  | d :: rest => by
    simp only [insertByLayer]
    split
    · exact List.Perm.refl _
    · exact ((insertByLayer_perm c rest).cons d).trans (List.Perm.swap c d rest)

theorem foldl_insert_perm (l : List UIComponent) :
    ∀ acc : List UIComponent, (l.foldl (fun acc c => insertByLayer c acc) acc).Perm (acc ++ l) := by
  induction l with
  | nil => intro acc; simp
  | cons c rest ih =>
    intro acc
    simp only [List.foldl_cons]
    refine (ih _).trans ?_
    refine ((insertByLayer_perm c acc).append_right rest).trans ?_
    simp only [List.cons_append]
    exact List.perm_middle.symm

theorem stableSort_perm (l : List UIComponent) : (stableSort l).Perm l := by
  unfold stableSort
  simpa using foldl_insert_perm l []

/-- Focus exclusivity survives the arrival of objects that are new, pairwise
distinct and without focus, wherever they are put. -/
theorem focusInv_extend {ws ws1 : List UIComponent} {fw : Option Nat} {L : List Fields}
    (hperm : (fieldsIn ws1).Perm (fieldsIn ws ++ L))
    (hL : (L.map (fun s => s.ptr)).Nodup)
    (hnew : ∀ s ∈ L, s.ptr ∉ ptrsIn ws ∧ fw ≠ some s.ptr ∧ s.focused = false)
    (h : FocusInv ws fw) : FocusInv ws1 fw := by
  refine ⟨?_, ?_⟩
  · have hp : (ptrsIn ws1).Perm (ptrsIn ws ++ L.map (fun s => s.ptr)) := by
      unfold ptrsIn
      rw [← List.map_append]
      exact hperm.map _
    rw [hp.nodup_iff, List.nodup_append]
    refine ⟨h.1, hL, ?_⟩
    intro x hx1 hx2
    obtain ⟨s, hs, rfl⟩ := List.mem_map.mp hx2
    exact (hnew s hs).1 hx1
  · intro s hs
    rcases List.mem_append.mp (hperm.subset hs) with h1 | h1
    · exact h.2 s h1
    · obtain ⟨_, h2, h3⟩ := hnew s h1
      simp only [h3]
      constructor
      · intro hf; cases hf
      · intro hf; exact absurd hf h2

theorem freshFor_spec {ctx : UIContext} {c : UIComponent} (h : freshFor ctx c = true) :
    ((fieldsOf c).map (fun s => s.ptr)).Nodup
    ∧ ∀ s ∈ fieldsOf c, s.ptr ∉ ptrsIn ctx.widgets ∧ ctx.focusedWidget ≠ some s.ptr ∧ s.focused = false := by
  unfold freshFor at h
  simp only [Bool.and_eq_true, decide_eq_true_eq, List.all_eq_true, Bool.not_eq_true'] at h
  obtain ⟨⟨h1, h2⟩, h3⟩ := h
  refine ⟨h1, ?_⟩
  intro s hs
  have := h2 s.ptr (List.mem_map.mpr ⟨s, hs, rfl⟩)
  exact ⟨this.1, this.2, h3 s hs⟩

theorem add_focusInv {ctx : UIContext} {c : UIComponent} (hc : freshFor ctx c = true)
    (h : FocusInv ctx.widgets ctx.focusedWidget) :
    FocusInv (UIContext.add ctx c).widgets (UIContext.add ctx c).focusedWidget := by
  obtain ⟨h1, h2⟩ := freshFor_spec hc
  refine focusInv_extend (L := fieldsOf c) ?_ h1 h2 h
  show (fieldsIn (stableSort (ctx.widgets ++ [c]))).Perm _
  refine (fieldsIn_perm (stableSort_perm _)).trans ?_
  rw [fieldsIn_append, fieldsIn_singleton]

theorem fieldsOf_setParent (this : Nat) (c : UIComponent) :
    (fieldsOf (setParent this c)).map (fun s => (s.ptr, s.focused))
      = (fieldsOf c).map (fun s => (s.ptr, s.focused)) := by
  cases c with
  | node s ch => simp [setParent, fieldsOf]

mutual
theorem insertChild_perm (this : Nat) (c : UIComponent) :
    ∀ t : UIComponent, (ptrs t).Nodup →
      (fieldsOf (insertChild this c t)).Perm
        (fieldsOf t ++ (if this ∈ ptrs t then fieldsOf c else []))
  | .node s ch, hnd => by
    simp only [ptrs, fieldsOf, List.map_cons, List.nodup_cons] at hnd
    by_cases hs : s.ptr = this
    · simp only [insertChild, hs, if_true, fieldsOf, ptrs, List.map_cons, List.mem_cons, true_or,
        List.cons_append]
      refine List.Perm.cons s ?_
      refine (fieldsIn_perm (stableSort_perm _)).trans ?_
      rw [fieldsIn_append, fieldsIn_singleton]
    · have hmem : (this ∈ ptrs (UIComponent.node s ch)) ↔ this ∈ ptrsIn ch := by
        simp only [ptrs, fieldsOf, List.map_cons, List.mem_cons, ptrsIn]
        constructor
        · rintro (h | h)
          · exact absurd h.symm hs
          · exact h
        · exact Or.inr
      simp only [insertChild, hs, if_false, fieldsOf, List.cons_append]
      refine List.Perm.cons s ?_
      have ih := insertChildIn_perm this c ch hnd.2
      by_cases hm : this ∈ ptrsIn ch
      · simpa [hm, hmem.mpr hm] using ih
      · simpa [hm, mt hmem.mp hm] using ih
theorem insertChildIn_perm (this : Nat) (c : UIComponent) :
    ∀ ws : List UIComponent, (ptrsIn ws).Nodup →
      (fieldsIn (insertChildIn this c ws)).Perm
        (fieldsIn ws ++ (if this ∈ ptrsIn ws then fieldsOf c else []))
  | [], _ => by simp [insertChildIn, fieldsIn, ptrsIn]
  | d :: rest, hnd => by
    have hnd1 : (ptrs d ++ ptrsIn rest).Nodup := by
      simpa [ptrsIn, ptrs, fieldsIn_cons] using hnd
    rw [List.nodup_append] at hnd1
    obtain ⟨hd, hr, hdisj⟩ := hnd1
    have ih1 := insertChild_perm this c d hd
    have ih2 := insertChildIn_perm this c rest hr
    have hmem : (this ∈ ptrsIn (d :: rest)) ↔ (this ∈ ptrs d ∨ this ∈ ptrsIn rest) := by
      simp [ptrsIn, ptrs, fieldsIn_cons]
    simp only [insertChildIn, fieldsIn_cons]
    by_cases h1 : this ∈ ptrs d
    · have h2 : this ∉ ptrsIn rest := fun h => hdisj h1 h
      simp only [h1, h2, if_true, if_false, List.append_nil] at ih1 ih2
      simp only [hmem.mpr (Or.inl h1), if_true]
      refine (ih1.append ih2).trans ?_
      simp only [List.append_assoc]
      exact List.Perm.append_left _ List.perm_append_comm
    · by_cases h2 : this ∈ ptrsIn rest
      · simp only [h1, h2, if_true, if_false, List.append_nil] at ih1 ih2
        simp only [hmem.mpr (Or.inr h2), if_true]
        refine (ih1.append ih2).trans ?_
        simp only [List.append_assoc]
        exact List.Perm.refl _
      · simp only [h1, h2, if_false, List.append_nil] at ih1 ih2
        have : ¬ this ∈ ptrsIn (d :: rest) := fun h => (hmem.mp h).elim h1 h2
        simp only [this, if_false, List.append_nil]
        exact ih1.append ih2
end

theorem addChild_focusInv {ctx : UIContext} {this : Nat} {c : UIComponent}
    (hc : freshFor ctx c = true) (h : FocusInv ctx.widgets ctx.focusedWidget) :
    FocusInv (UIContext.addChild ctx this c).widgets (UIContext.addChild ctx this c).focusedWidget := by
  obtain ⟨h1, h2⟩ := freshFor_spec hc
  have hsk := fieldsOf_setParent this c
  have hptr : (fieldsOf (setParent this c)).map (fun s => s.ptr) = (fieldsOf c).map (fun s => s.ptr) := by
    have := congrArg (List.map Prod.fst) hsk
    simpa [List.map_map, Function.comp_def] using this
  have hnew : ∀ s ∈ fieldsOf (setParent this c),
      s.ptr ∉ ptrsIn ctx.widgets ∧ ctx.focusedWidget ≠ some s.ptr ∧ s.focused = false := by
    intro s hs
    have hm : (s.ptr, s.focused) ∈ (fieldsOf c).map (fun s => (s.ptr, s.focused)) := by
      rw [← hsk]
      exact List.mem_map.mpr ⟨s, hs, rfl⟩
    obtain ⟨t, ht, he⟩ := List.mem_map.mp hm
    simp only [Prod.mk.injEq] at he
    have := h2 t ht
    rw [he.1, he.2] at this
    exact this
  show FocusInv (markDirty (insertChildIn this (setParent this c) ctx.widgets) this) ctx.focusedWidget
  refine focusInv_frame ?_ (frame_markDirty _ _)
  by_cases hm : this ∈ ptrsIn ctx.widgets
  · refine focusInv_extend (L := fieldsOf (setParent this c)) ?_ (hptr ▸ h1) hnew h
    simpa [hm] using insertChildIn_perm this (setParent this c) ctx.widgets h.1
  · refine focusInv_extend (L := []) ?_ (by simp) (by simp) h
    simpa [hm] using insertChildIn_perm this (setParent this c) ctx.widgets h.1

theorem freshPtr_gt (ctx : UIContext) :
    (∀ p ∈ ptrsIn ctx.widgets, p < freshPtr ctx) ∧ (∀ p, ctx.focusedWidget = some p → p < freshPtr ctx) := by
  have key : ∀ (l : List Nat) (p : Nat), p ∈ l → p < l.foldr (fun p m => max (p + 1) m) 0 := by
    intro l
    induction l with
    | nil => intro p hp; cases hp
    | cons a l ih =>
      intro p hp
      simp only [List.foldr_cons]
      rcases List.mem_cons.mp hp with rfl | h
      · omega
      · have := ih p h
        omega
  constructor
  · intro p hp
    apply key
    simp [hp]
  · intro p hp
    apply key
    simp [hp]

theorem addDropdown_focusInv {ctx : UIContext} (mb : Fields) (x : Int) (items : List MenuItem)
    (h : FocusInv ctx.widgets ctx.focusedWidget) :
    FocusInv (UIContext.add ctx (newDropdown (freshPtr ctx) mb x items)).widgets
      (UIContext.add ctx (newDropdown (freshPtr ctx) mb x items)).focusedWidget := by
  apply add_focusInv _ h
  obtain ⟨h1, h2⟩ := freshPtr_gt ctx
  unfold freshFor
  simp only [newDropdown, ptrs, fieldsOf, fieldsIn, List.map_cons, List.map_nil, List.nodup_cons,
    List.not_mem_nil, not_false_eq_true, List.nodup_nil, and_self, decide_True, List.all_cons,
    List.all_nil, Bool.and_true, Bool.true_and, Bool.not_false, Bool.and_eq_true, decide_eq_true_eq]
  refine ⟨fun hm => ?_, fun hf => ?_⟩
  · exact absurd (h1 _ hm) (lt_irrefl _)
  · exact absurd (h2 _ hf) (lt_irrefl _)

/-! ## Every handler is good -/

theorem good_after {a b c : UIContext} (h2 : Good b c) (h1 : Good a b) : Good a c :=
  good_trans h1 h2

theorem buttonOnEvent_good {ctx ctx1 : UIContext} {this : Nat} {s : Fields} {e : UIEvent}
    (h : buttonOnEvent ctx this s e = some ctx1) : Good ctx ctx1 := by
  unfold buttonOnEvent at h
  split_ifs at h
  all_goals first
    | (cases h; exact good_refl _)
    | (cases h; exact good_of_frame rfl rfl (frame_setState _ _ _))
    | exact good_after (good_setFocus h) (good_of_frame rfl rfl (frame_setState _ _ _))
    | exact good_after (good_emit h) (good_of_frame rfl rfl (frame_setState _ _ _))
    | exact good_emit h

theorem frame_upd_mark (this : Nat) {f : Fields → Fields} (hf : ∀ s, Fields.sameFocus s (f s))
    (ws : List UIComponent) : Frame Fields.sameFocus ws (markDirty (updIn this f ws) this) :=
  frame_trans (frame_upd this hf ws) (frame_markDirty _ _)

theorem textInputOnEvent_good {ctx ctx1 : UIContext} {this : Nat} {s : Fields}
    {st : TextInputState} {e : UIEvent}
    (h : textInputOnEvent ctx this s st e = some ctx1) : Good ctx ctx1 := by
  unfold textInputOnEvent at h
  split_ifs at h
  · cases h; exact good_refl _
  · split at h
    · cases h
    · next c1 hs =>
      cases h
      exact good_trans (good_setFocus hs)
        (good_of_frame rfl rfl (frame_upd_mark _ (sameFocus_placeCursor _) _))
  · cases h; exact good_of_frame rfl rfl (frame_setState _ _ _)
  · cases h; exact good_of_frame rfl rfl (frame_setState _ _ _)
  · split at h
    · cases h
    · next st1 _ =>
      split at h
      · cases h
      · next c1 hm =>
        cases h
        have g1 : Good ctx c1 := by
          split at hm
          · split at hm
            · cases hm
            · exact good_after (good_emit hm)
                (good_of_frame rfl rfl (frame_upd _ (sameFocus_setTextInput _) _))
          · cases hm
            exact good_of_frame rfl rfl (frame_upd _ (sameFocus_setTextInput _) _)
        exact good_trans g1
          (good_of_frame rfl rfl (frame_upd_mark _ sameFocus_scrollToShowCursor _))
  · split at h
    · cases h
    · next st1 changed _ =>
      split at h
      · cases h
      · next c1 hm =>
        cases h
        have g1 : Good ctx c1 := by
          split at hm
          · exact good_after (good_emit hm)
              (good_of_frame rfl rfl (frame_upd _ (sameFocus_setTextInput _) _))
          · cases hm
            exact good_of_frame rfl rfl (frame_upd _ (sameFocus_setTextInput _) _)
        exact good_trans g1
          (good_of_frame rfl rfl (frame_upd_mark _ sameFocus_scrollToShowCursor _))
  · cases h; exact good_refl _

theorem checkboxOnEvent_good {ctx ctx1 : UIContext} {this : Nat} {s : Fields} {c : Bool}
    {e : UIEvent} (h : checkboxOnEvent ctx this s c e = some ctx1) : Good ctx ctx1 := by
  unfold checkboxOnEvent at h
  split_ifs at h
  all_goals first
    | (cases h; exact good_refl _)
    | (cases h; exact good_of_frame rfl rfl (frame_setState _ _ _))
    | exact good_setFocus h
    | exact good_after (good_emit h)
        (good_of_frame rfl rfl (frame_upd_mark _ sameFocus_toggleChecked _))

theorem activateInGroup_good {ctx ctx1 : UIContext} {this : Nat} {s : Fields} {g : String}
    (h : activateInGroup ctx this s g = some ctx1) : Good ctx ctx1 := by
  unfold activateInGroup at h
  split at h
  · cases h
  · next ws1 hw =>
    have hfr : Frame Fields.sameFocus ctx.widgets ws1 := by
      split at hw
      · simp only [Option.map_eq_some'] at hw
        obtain ⟨pn, _, rfl⟩ := hw
        exact frame_deactivateGroup _ _ _ _
      · cases hw
        exact frame_deactivateGroup _ _ _ _
    exact good_after (good_emit h)
      (good_of_frame rfl rfl (frame_trans hfr (frame_upd_mark _ (sameFocus_setRadio _) _)))

theorem radioOnEvent_good {ctx ctx1 : UIContext} {this : Nat} {s : Fields} {g : String}
    {e : UIEvent} (h : radioOnEvent ctx this s g e = some ctx1) : Good ctx ctx1 := by
  unfold radioOnEvent at h
  split_ifs at h
  all_goals first
    | (cases h; exact good_refl _)
    | (cases h; exact good_of_frame rfl rfl (frame_setState _ _ _))
    | exact good_setFocus h
    | exact activateInGroup_good h

theorem dropdownOnEvent_good {ctx ctx1 : UIContext} {this : Nat} {s : Fields}
    {items : List MenuItem} {hi : Int} {e : UIEvent}
    (h : dropdownOnEvent ctx this s items hi e = some ctx1) : Good ctx ctx1 := by
  unfold dropdownOnEvent at h
  split_ifs at h
  · cases h
    exact good_of_frame rfl rfl (frame_upd_mark _ (sameFocus_setHoveredIdx _) _)
  · split at h
    · cases h
    · split_ifs at h
      · exact good_emit h
      · cases h; exact good_refl _
  · cases h; exact good_refl _
  · cases h; exact good_refl _

theorem good_addDropdown (ctx : UIContext) (mb : Fields) (x : Int) (items : List MenuItem) :
    Good ctx (UIContext.add ctx (newDropdown (freshPtr ctx) mb x items)) :=
  ⟨rfl, addDropdown_focusInv mb x items⟩

theorem menuBarOnEvent_good {ctx ctx1 : UIContext} {this : Nat} {s : Fields}
    {menus : List Menu} {oi : Int} {dd : Option Nat} {e : UIEvent}
    (h : menuBarOnEvent ctx this s menus oi dd e = some ctx1) : Good ctx ctx1 := by
  unfold menuBarOnEvent at h
  split at h
  · split at h
    · next i x m _ =>
      split at h
      · split at h
        · cases h
        · next c1 hc =>
          cases h
          exact good_trans
            (good_after (good_closeDropdown hc)
              (good_of_frame rfl rfl (frame_upd _ (sameFocus_setOpenIdx _) _)))
            (good_of_frame rfl rfl (frame_markDirty _ _))
      · split at h
        · cases h
        · next c1 hc =>
          simp only [Option.some.injEq] at h
          subst h
          have g1 : Good ctx c1 := good_closeDropdown hc
          have g2 : Good c1 { c1 with widgets := updIn this (setOpenIdx i) c1.widgets } :=
            good_of_frame rfl rfl (frame_upd _ (sameFocus_setOpenIdx _) _)
          have g3 := good_addDropdown { c1 with widgets := updIn this (setOpenIdx i) c1.widgets }
            s x m.items
          exact good_trans (good_trans (good_trans g1 g2) g3)
            (good_of_frame rfl rfl (frame_upd_mark _ (sameFocus_setDropdown _) _))
    · split at h
      · split at h
        · cases h
        · next c1 hc =>
          cases h
          exact good_trans
            (good_after (good_closeDropdown hc)
              (good_of_frame rfl rfl (frame_upd _ (sameFocus_setOpenIdx _) _)))
            (good_of_frame rfl rfl (frame_markDirty _ _))
      · cases h; exact good_refl _
  · cases h; exact good_refl _

theorem onEvent_good {ctx ctx1 : UIContext} {this : Nat} {s : Fields} {e : UIEvent}
    (h : onEvent ctx this s e = some ctx1) : Good ctx ctx1 := by
  unfold onEvent at h
  split at h
  · cases h; exact good_refl _
  · exact buttonOnEvent_good h
  · exact textInputOnEvent_good h
  · exact checkboxOnEvent_good h
  · exact radioOnEvent_good h
  · exact dropdownOnEvent_good h
  · exact menuBarOnEvent_good h

/-! ## The dispatcher -/

theorem dispatch_good {ctx ctx1 : UIContext} {w : Option Nat} {e : UIEvent}
    (h : dispatch ctx w e = some ctx1) :
    ctx1.pressedWidget = ctx.pressedWidget
    ∧ (FocusInv ctx.widgets ctx.focusedWidget → FocusInv ctx1.widgets ctx1.focusedWidget) := by
  unfold dispatch at h
  split at h
  · cases h; exact ⟨rfl, id⟩
  · split at h
    · cases h
    · split_ifs at h
      · cases h; exact ⟨rfl, id⟩
      · have g := onEvent_good h
        exact ⟨congrArg Prod.fst g.1, g.2⟩

theorem dispatch_calls {ctx ctx1 : UIContext} {p : Nat} {s : Fields} {e : UIEvent}
    (hs : fieldsAt ctx.widgets p = some s) (he : s.enabled = true)
    (h : dispatch ctx (some p) e = some ctx1) :
    handlerCalls ctx1.trace = handlerCalls ctx.trace ++ [(p, e)] := by
  unfold dispatch at h
  simp only [hs, he, Bool.not_true, Bool.false_eq_true, if_false] at h
  have g := onEvent_good h
  have := congrArg Prod.snd g.1
  simpa [UIContext.cap, handlerCalls_append, handlerCalls] using this

theorem frame_foldl_markDirty (l : List Nat) (ws : List UIComponent) :
    Frame Fields.sameFocus ws (l.foldl markDirty ws) := by
  induction l generalizing ws with
  | nil => exact frame_refl ws
  | cons p l ih => exact frame_trans (frame_markDirty ws p) (ih _)

theorem processMotion_good {ctx ctx1 : UIContext} {mx my : Int}
    (h : processMotion ctx mx my = some ctx1) :
    ctx1.pressedWidget = ctx.pressedWidget
    ∧ (FocusInv ctx.widgets ctx.focusedWidget → FocusInv ctx1.widgets ctx1.focusedWidget) := by
  unfold processMotion at h
  simp only at h
  split at h
  · cases h
  · next c2 hm =>
    have g2 : c2.pressedWidget = ctx.pressedWidget
        ∧ (FocusInv ctx.widgets ctx.focusedWidget → FocusInv c2.widgets c2.focusedWidget) := by
      split at hm
      · split at hm
        · cases hm
        · next c1 hl =>
          have a := dispatch_good hl
          have b := dispatch_good hm
          exact ⟨b.1.trans a.1, fun hi => b.2 (a.2 hi)⟩
      · cases hm; exact ⟨rfl, id⟩
    have g3 : ctx1.pressedWidget = c2.pressedWidget
        ∧ (FocusInv c2.widgets c2.focusedWidget → FocusInv ctx1.widgets ctx1.focusedWidget) := by
      split at h
      · exact dispatch_good h
      · exact dispatch_good h
    exact ⟨g3.1.trans g2.1, fun hi => g3.2 (g2.2 hi)⟩

theorem processButtonDown_good {ctx ctx1 : UIContext} {mx my b : Int} {clicks : Nat}
    (h : processButtonDown ctx mx my b clicks = some ctx1) :
    ctx1.pressedWidget = UIContext.hitTest ctx mx my
    ∧ (FocusInv ctx.widgets ctx.focusedWidget → FocusInv ctx1.widgets ctx1.focusedWidget) := by
  unfold processButtonDown at h
  simp only at h
  split at h
  · cases h
  · next c2 hm =>
    have g2 : c2.pressedWidget = UIContext.hitTest ctx mx my
        ∧ (FocusInv ctx.widgets ctx.focusedWidget → FocusInv c2.widgets c2.focusedWidget) := by
      split at hm
      · split_ifs at hm
        · simp only [Option.map_eq_some'] at hm
          obtain ⟨c, hc, rfl⟩ := hm
          have g := good_emit hc
          exact ⟨congrArg Prod.fst g.1, g.2⟩
        · cases hm; exact ⟨rfl, id⟩
      · cases hm; exact ⟨rfl, id⟩
    split at h
    · cases h
    · next c3 hd =>
      have g3 : c3.pressedWidget = c2.pressedWidget
          ∧ (FocusInv c2.widgets c2.focusedWidget → FocusInv c3.widgets c3.focusedWidget) := by
        split_ifs at hd
        · exact dispatch_good hd
        · cases hd; exact ⟨rfl, id⟩
      have g4 := dispatch_good h
      exact ⟨g4.1.trans (g3.1.trans g2.1), fun hi => g4.2 (g3.2 (g2.2 hi))⟩

theorem tabNavigate_focusInv {ctx ctx1 : UIContext} {mod : Nat}
    (h : tabNavigate ctx mod = some ctx1) (hi : FocusInv ctx.widgets ctx.focusedWidget) :
    FocusInv ctx1.widgets ctx1.focusedWidget := by
  unfold tabNavigate at h
  split_ifs at h
  · cases h; exact hi
  · simp only at h
    split_ifs at h
    split at h
    · cases h
    · exact setFocus_focusInv h hi

theorem processEvent_focusInv {ctx ctx1 : UIContext} {ev : SDLEvent}
    (h : UIContext.processEvent ctx ev = some ctx1) (hi : FocusInv ctx.widgets ctx.focusedWidget) :
    FocusInv ctx1.widgets ctx1.focusedWidget := by
  unfold UIContext.processEvent at h
  simp only at h
  split at h
  · exact (processMotion_good h).2 hi
  · exact (processButtonDown_good h).2 hi
  · unfold processButtonUp at h
    split at h
    · cases h
    · next c1 hd =>
      cases h
      exact (dispatch_good hd).2 hi
  · exact (dispatch_good h).2 hi
  · unfold processKeyDown at h
    split at h
    · cases h
    · next c1 hd =>
      have h1 := (dispatch_good hd).2 hi
      split_ifs at h
      · exact tabNavigate_focusInv h h1
      · cases h; exact h1
  · exact (dispatch_good h).2 hi
  · exact (dispatch_good h).2 hi
  · cases h
    exact focusInv_frame hi (frame_foldl_markDirty _ _)
  · cases h; exact hi

theorem reachable_focusInv {ctx : UIContext} (h : Reachable ctx) :
    FocusInv ctx.widgets ctx.focusedWidget := by
  induction h with
  | empty => exact ⟨by simp [ptrsIn, fieldsIn], by simp [fieldsIn]⟩
  | add ctx c _ hc ih => exact add_focusInv hc ih
  | addChild ctx this c _ hc ih => exact addChild_focusInv hc ih
  | setFocus ctx ctx1 c _ hs ih => exact setFocus_focusInv hs ih
  | processEvent ctx ctx1 ev _ hp ih => exact processEvent_focusInv hp ih

theorem focusInv_at_most_one {ws : List UIComponent} {fw : Option Nat} (h : FocusInv ws fw) :
    ((fieldsIn ws).filter (fun s => s.focused)).length ≤ 1 := by
  have hsub : ((fieldsIn ws).filter (fun s => s.focused)).Sublist (fieldsIn ws) :=
    List.filter_sublist _
  have hnd : (((fieldsIn ws).filter (fun s => s.focused)).map (fun s => s.ptr)).Nodup :=
    (hsub.map _).nodup h.1
  have hall : ∀ s ∈ (fieldsIn ws).filter (fun s => s.focused), fw = some s.ptr := by
    intro s hs
    have := List.mem_filter.mp hs
    exact (h.2 s this.1).mp this.2
  generalize (fieldsIn ws).filter (fun s => s.focused) = l at hnd hall
  match l, hnd, hall with
  | [], _, _ => simp
  | [_], _, _ => simp
  | a :: b :: rest, hnd, hall =>
    exfalso
    have ha := hall a (by simp)
    have hb := hall b (by simp)
    have hab : a.ptr = b.ptr := Option.some.inj (ha.symm.trans hb)
    simp only [List.map_cons, List.nodup_cons, List.mem_cons, not_or] at hnd
    exact hnd.1.1 hab

theorem some_okOr (d : UIContext) (o : Option UIContext) (h : o.isSome = true) :
    o = some (okOr d o) := by
  cases o with
  | none => cases h
  | some c => rfl

/-! ## Explicit results when the callbacks are observers -/

theorem subscribers_sameCore {s t : Fields} (h : Fields.sameCore s t) (ty : EventType) :
    t.subscribers ty = s.subscribers ty := by
  unfold Fields.subscribers
  rw [h.2.2.2.2.2.2.2.1]

theorem observersOnly_sameCore {s t : Fields} (h : Fields.sameCore s t)
    (ho : s.observersOnly = true) : t.observersOnly = true := by
  unfold Fields.observersOnly at *
  rw [h.2.2.2.2.2.2.2.1]
  exact ho

theorem emit_framed {ctx : UIContext} {ws1 : List UIComponent} {this : Nat} {s : Fields}
    (e : UIEvent) (hfr : Frame Fields.sameCore ctx.widgets ws1)
    (hs : fieldsAt ctx.widgets this = some s) (ho : s.observersOnly = true) :
    emit { ctx with widgets := ws1 } this e
      = some { ctx with widgets := ws1,
                        trace := ctx.trace ++ callbackEntries this e (s.subscribers e.type) } := by
  obtain ⟨t, ht, hr⟩ := frame_lookup sameCore_ptr hfr hs
  have := @emit_observers { ctx with widgets := ws1 } this t e ht (observersOnly_sameCore hr ho)
  rw [this, subscribers_sameCore hr]

theorem sameState_refl (s : Fields) : Fields.sameState s s := ⟨sameCore_refl s, rfl⟩

theorem sameState_trans (a b c : Fields) (h1 : Fields.sameState a b) (h2 : Fields.sameState b c) :
    Fields.sameState a c :=
  ⟨sameCore_trans a b c h1.1 h2.1, h2.2.trans h1.2⟩

theorem sameState_ptr (a b : Fields) (h : Fields.sameState a b) : b.ptr = a.ptr := h.1.1

theorem sameState_updF (p : Nat) {f : Fields → Fields} (hf : ∀ s, Fields.sameState s (f s))
    (s : Fields) : Fields.sameState s (updF p f s) := by
  unfold updF
  split
  · obtain ⟨⟨_, h2, h3, h4, h5, h6, h7, h8, h9⟩, h10⟩ := hf s
    exact ⟨⟨rfl, h2, h3, h4, h5, h6, h7, h8, h9⟩, h10⟩
  · exact sameState_refl s

theorem sameState_setDirty (s : Fields) : Fields.sameState s (setDirty s) := by
  simp [Fields.sameState, Fields.sameCore, setDirty]

theorem sameState_focused (b : Bool) (s : Fields) : Fields.sameState s { s with focused := b } := by
  simp [Fields.sameState, Fields.sameCore]

theorem stateFrame_markDirty (ws : List UIComponent) (this : Nat) :
    Frame Fields.sameState ws (markDirty ws this) := by
  unfold markDirty
  split
  · exact Frame.trans sameState_trans (frame_updIn this _ (sameState_updF this sameState_setDirty) ws)
      (frame_updIn _ _ (sameState_updF _ sameState_setDirty) _)
  · exact frame_updIn this _ (sameState_updF this sameState_setDirty) ws

theorem stateFrame_focus (ws : List UIComponent) (p : Nat) (b : Bool) :
    Frame Fields.sameState ws (markDirty (updIn p (fun s => { s with focused := b }) ws) p) :=
  Frame.trans sameState_trans (frame_updIn p _ (sameState_updF p (sameState_focused b)) ws)
    (stateFrame_markDirty _ _)

theorem stateFrame_core {ws ws1 : List UIComponent} (h : Frame Fields.sameState ws ws1) :
    Frame Fields.sameCore ws ws1 :=
  h.mono (fun _ _ hr => hr.1)

theorem focusFrame_core {ws ws1 : List UIComponent} (h : Frame Fields.sameFocus ws ws1) :
    Frame Fields.sameCore ws ws1 :=
  h.mono (fun _ _ hr => hr.1)

theorem unfocusOld_exp {ctx : UIContext} {X : Nat} {sX : Fields}
    (hfw : ctx.focusedWidget = some X) (hX : fieldsAt ctx.widgets X = some sX)
    (hoX : sX.observersOnly = true) :
    unfocusOld ctx
      = some { ctx with
          widgets := markDirty (updIn X (fun s => { s with focused := false }) ctx.widgets) X,
          trace := ctx.trace ++ callbackEntries X { type := EventType.FocusLost }
            (sX.subscribers EventType.FocusLost) } := by
  have key := @emit_framed ctx _ X sX { type := EventType.FocusLost }
    (stateFrame_core (stateFrame_focus ctx.widgets X false)) hX hoX
  unfold unfocusOld
  split
  · next h => rw [hfw] at h; cases h
  · next old h =>
    rw [hfw] at h
    cases h
    split
    · next h2 => rw [hX] at h2; cases h2
    · exact key

theorem focusNew_exp {ctx : UIContext} {Y : Nat} {sY : Fields}
    (hY : fieldsAt ctx.widgets Y = some sY) (hoY : sY.observersOnly = true) :
    focusNew ctx (some Y)
      = some { ctx with
          widgets := markDirty (updIn Y (fun s => { s with focused := true }) ctx.widgets) Y,
          trace := ctx.trace ++ callbackEntries Y { type := EventType.FocusGained }
            (sY.subscribers EventType.FocusGained) } := by
  have key := @emit_framed ctx _ Y sY { type := EventType.FocusGained }
    (stateFrame_core (stateFrame_focus ctx.widgets Y true)) hY hoY
  unfold focusNew
  simp only
  split
  · next h2 => rw [hY] at h2; cases h2
  · exact key

theorem clickCalls_callbackEntries_ne (c : Nat) (e : UIEvent) (he : e.type ≠ EventType.Click)
    (cbs : List CB) : clickCalls (callbackEntries c e cbs) = [] := by
  induction cbs with
  | nil => rfl
  | cons cb rest ih =>
    cases cb with
    | user tag =>
      simp only [callbackEntries, clickCalls, List.filterMap_cons, he, if_false]
      exact ih
    | menuClose mb => simpa [callbackEntries] using ih

/-- `setFocus` on a live target, with observers as callbacks and a live focus
pointer, does not fault; it changes focus and dirty flags only. -/
theorem setFocus_obs {ctx : UIContext} {Y : Nat} {sY : Fields}
    (hobs : allObservers ctx.widgets = true) (hlive : focusLive ctx = true)
    (hY : fieldsAt ctx.widgets Y = some sY) :
    ∃ ctx1, UIContext.setFocus ctx (some Y) = some ctx1 ∧ ctx1.focusedWidget = some Y
      ∧ Frame Fields.sameState ctx.widgets ctx1.widgets
      ∧ ctx1.pressedWidget = ctx.pressedWidget ∧ ctx1.openMenu = ctx.openMenu
      ∧ clickCalls ctx1.trace = clickCalls ctx.trace
      ∧ handlerCalls ctx1.trace = handlerCalls ctx.trace := by
  unfold UIContext.setFocus
  by_cases hfw : ctx.focusedWidget = some Y
  · simp only [hfw, if_true]
    exact ⟨ctx, rfl, hfw, Frame.refl sameState_refl _, rfl, rfl, rfl, rfl⟩
  · simp only [hfw, if_false]
    have hu : ∃ c1, unfocusOld ctx = some c1 ∧ Frame Fields.sameState ctx.widgets c1.widgets
        ∧ c1.pressedWidget = ctx.pressedWidget ∧ c1.openMenu = ctx.openMenu
        ∧ clickCalls c1.trace = clickCalls ctx.trace
        ∧ handlerCalls c1.trace = handlerCalls ctx.trace := by
      cases hf : ctx.focusedWidget with
      | none =>
        refine ⟨ctx, ?_, Frame.refl sameState_refl _, rfl, rfl, rfl, rfl⟩
        unfold unfocusOld
        simp [hf]
      | some X =>
        unfold focusLive at hlive
        simp only [hf] at hlive
        obtain ⟨sX, hX⟩ := Option.isSome_iff_exists.mp hlive
        rw [unfocusOld_exp hf hX (observersOnly_of_all hobs hX)]
        refine ⟨_, rfl, stateFrame_focus _ _ _, rfl, rfl, ?_, ?_⟩
        · simp [clickCalls_append, clickCalls_callbackEntries_ne]
        · simp [handlerCalls_append, handlerCalls_callbackEntries]
    obtain ⟨c1, hc1, hfr1, hp1, hm1, hk1, hh1⟩ := hu
    simp only [hc1]
    obtain ⟨tY, htY, hrY⟩ := frame_lookup sameState_ptr hfr1 hY
    have hobs1 := allObservers_frame (stateFrame_core hfr1) hobs
    have hfn := @focusNew_exp { c1 with focusedWidget := some Y } Y tY htY
      (observersOnly_of_all hobs1 htY)
    simp only [hfn]
    refine ⟨_, rfl, rfl, Frame.trans sameState_trans hfr1 (stateFrame_focus _ _ _), hp1, hm1, ?_, ?_⟩
    · simp [clickCalls_append, clickCalls_callbackEntries_ne, hk1]
    · simp [handlerCalls_append, handlerCalls_callbackEntries, hh1]

/-! ## Reading fields after `markDirty` -/

theorem updF_setDirty (p : Nat) (s : Fields) :
    updF p setDirty s = if s.ptr = p then setDirty s else s := by
  unfold updF
  split <;> rfl

theorem dirtyF_eq (ws : List UIComponent) (this : Nat) (s : Fields) :
    dirtyF ws this s = s ∨ dirtyF ws this s = setDirty s := by
  unfold dirtyF
  split
  · simp only [updF_setDirty]
    split_ifs <;> simp [setDirty]
  · simp only [updF_setDirty]
    split_ifs <;> simp

theorem dirtyF_self (ws : List UIComponent) {this : Nat} {s : Fields} (h : s.ptr = this) :
    dirtyF ws this s = setDirty s := by
  unfold dirtyF
  split
  · simp only [updF_setDirty, h, if_true]
    split_ifs <;> simp [setDirty]
  · simp only [updF_setDirty, h, if_true]

theorem dirtyF_focused (ws : List UIComponent) (this : Nat) (s : Fields) :
    (dirtyF ws this s).focused = s.focused := by
  rcases dirtyF_eq ws this s with h | h <;> rw [h] <;> rfl

theorem dirtyF_ptr (ws : List UIComponent) (this : Nat) (s : Fields) :
    (dirtyF ws this s).ptr = s.ptr := by
  rcases dirtyF_eq ws this s with h | h <;> rw [h] <;> rfl

theorem dirtyF_dirty (ws : List UIComponent) (this : Nat) (s : Fields) (h : s.dirty = true) :
    (dirtyF ws this s).dirty = true := by
  rcases dirtyF_eq ws this s with h1 | h1 <;> rw [h1]
  · exact h
  · rfl

theorem fieldsIn_markDirty (ws : List UIComponent) (this : Nat) :
    fieldsIn (markDirty ws this) = (fieldsIn ws).map (dirtyF ws this) := by
  have hfun : dirtyF ws this = fun s => dirtyF ws this s := rfl
  rw [hfun]
  unfold markDirty dirtyF
  cases (fieldsAt ws this).bind (fun s => s.parent) with
  | none => simp only [fieldsIn_updIn]
  | some q =>
    simp only [fieldsIn_updIn, List.map_map]
    rfl

theorem fieldsAt_markDirty (ws : List UIComponent) (this q : Nat) :
    fieldsAt (markDirty ws this) q = (fieldsAt ws q).map (dirtyF ws this) := by
  rw [fieldsAt_eq_find, fieldsAt_eq_find, fieldsIn_markDirty, List.find?_map]
  have : ((fun s : Fields => decide (s.ptr = q)) ∘ dirtyF ws this) = (fun s => decide (s.ptr = q)) := by
    funext s; simp [dirtyF_ptr]
  rw [this]

/-- Reading the object `q` after `c->focused = b; c->markDirty()` on `p`. -/
theorem fieldsAt_focus (ws : List UIComponent) (p q : Nat) (b : Bool) {s : Fields}
    (hs : fieldsAt ws q = some s) :
    ∃ t, fieldsAt (markDirty (updIn p (fun s => { s with focused := b }) ws) p) q = some t
      ∧ (q = p → t.focused = b ∧ t.dirty = true)
      ∧ (q ≠ p → t.focused = s.focused ∧ (s.dirty = true → t.dirty = true)) := by
  have hp := fieldsAt_ptr hs
  rw [fieldsAt_markDirty, fieldsAt_updIn, hs]
  refine ⟨_, rfl, ?_, ?_⟩
  · intro hq
    have h1 : (updF p (fun s => { s with focused := b }) s).ptr = p := by simp [hp, hq]
    rw [dirtyF_self _ h1]
    simp [setDirty, updF, hp, hq]
  · intro hq
    have h1 : updF p (fun s => { s with focused := b }) s = s := by
      unfold updF
      rw [if_neg (by rw [hp]; exact hq)]
    rw [h1]
    exact ⟨dirtyF_focused _ _ _, dirtyF_dirty _ _ _⟩

/-! ## The Tab key -/

theorem textKeyDown_tab (st : TextInputState) (m : Nat) :
    textKeyDown st SDLK_TAB m = some (st, false) := by
  unfold textKeyDown
  simp [SDLK_TAB, SDLK_LEFT, SDLK_RIGHT, SDLK_HOME, SDLK_END, SDLK_BACKSPACE, SDLK_DELETE, SDLK_a]

/-- A `KeyDown` of the Tab key is ignored by every handler, up to a redraw
request of a text input. -/
theorem onEvent_tab (ctx : UIContext) (this : Nat) (s : Fields) (m : Nat) :
    ∃ ctx1, onEvent ctx this s { type := EventType.KeyDown, key := SDLK_TAB, mod := m } = some ctx1
      ∧ ctx1.focusedWidget = ctx.focusedWidget
      ∧ Frame Fields.sameFocus ctx.widgets ctx1.widgets := by
  unfold onEvent
  split
  · exact ⟨ctx, rfl, rfl, frame_refl _⟩
  · refine ⟨ctx, ?_, rfl, frame_refl _⟩
    unfold buttonOnEvent
    simp [SDLK_TAB, SDLK_RETURN, SDLK_SPACE]
  · next st _ =>
    unfold textInputOnEvent
    by_cases he : s.enabled = true
    · by_cases hf : s.focused = true
      · simp only [he, hf, textKeyDown_tab]
        simp only [Bool.not_true, Bool.false_eq_true, if_false, reduceCtorEq, false_and, and_self,
          if_true]
        exact ⟨_, rfl, rfl, frame_trans (frame_upd this (sameFocus_setTextInput st) _)
          (frame_upd_mark this sameFocus_scrollToShowCursor _)⟩
      · refine ⟨ctx, ?_, rfl, frame_refl _⟩
        simp [he, hf]
    · refine ⟨ctx, ?_, rfl, frame_refl _⟩
      simp [he]
  · refine ⟨ctx, ?_, rfl, frame_refl _⟩
    unfold checkboxOnEvent
    simp [SDLK_TAB, SDLK_SPACE]
  · refine ⟨ctx, ?_, rfl, frame_refl _⟩
    unfold radioOnEvent
    simp [SDLK_TAB, SDLK_SPACE]
  · refine ⟨ctx, ?_, rfl, frame_refl _⟩
    unfold dropdownOnEvent
    simp
  · refine ⟨ctx, ?_, rfl, frame_refl _⟩
    unfold menuBarOnEvent
    simp

theorem dispatch_tab_at (ctx : UIContext) (m : Nat) (w : Option Nat)
    (hl : ∀ p, w = some p → (fieldsAt ctx.widgets p).isSome = true) :
    ∃ ctx1, dispatch ctx w { type := EventType.KeyDown, key := SDLK_TAB, mod := m } = some ctx1
      ∧ ctx1.focusedWidget = ctx.focusedWidget
      ∧ Frame Fields.sameFocus ctx.widgets ctx1.widgets := by
  unfold dispatch
  cases w with
  | none => exact ⟨ctx, rfl, rfl, frame_refl _⟩
  | some p =>
    obtain ⟨s, hs⟩ := Option.isSome_iff_exists.mp (hl p rfl)
    simp only [hs]
    split_ifs
    · exact ⟨ctx, rfl, rfl, frame_refl _⟩
    · exact onEvent_tab _ p s m

theorem dispatch_tab (ctx : UIContext) (m : Nat) (hl : focusLive ctx = true) :
    ∃ ctx1, dispatch ctx ctx.focusedWidget { type := EventType.KeyDown, key := SDLK_TAB, mod := m }
        = some ctx1
      ∧ ctx1.focusedWidget = ctx.focusedWidget
      ∧ Frame Fields.sameFocus ctx.widgets ctx1.widgets := by
  apply dispatch_tab_at
  intro p hp
  unfold focusLive at hl
  rw [hp] at hl
  exact hl

theorem focusIndex_none : ∀ (f : List Nat) (k : Int), focusIndex none f k = -1
  | [], _ => rfl
  | p :: rest, k => by
    unfold focusIndex
    simp [focusIndex_none rest]

theorem focusIndex_nodup : ∀ (f : List Nat) (k : Int) (i : Nat), f.Nodup → (hi : i < f.length) →
    focusIndex (some (f.get ⟨i, hi⟩)) f k = k + i
  | [], _, i, _, hi => by simp at hi
  | p :: rest, k, 0, _, _ => by
    unfold focusIndex
    simp
  | p :: rest, k, i + 1, hnd, hi => by
    unfold focusIndex
    have hnd2 := List.nodup_cons.mp hnd
    have hi2 : i < rest.length := by simpa using hi
    have hne : p ≠ rest.get ⟨i, hi2⟩ := fun h => hnd2.1 (h ▸ List.get_mem rest i hi2)
    simp only [List.get_cons_succ, Option.some.injEq]
    rw [if_neg hne, focusIndex_nodup rest (k + 1) i hnd2.2 hi2]
    push_cast
    ring

theorem get_congr {l l1 : List Nat} (h : l = l1) (k : Nat) (hk : k < l.length)
    (hk1 : k < l1.length) : l.get ⟨k, hk⟩ = l1.get ⟨k, hk1⟩ := by
  subst h
  rfl

theorem tabNavigate_step (c1 : UIContext) (m k : Nat)
    (hobs : allObservers c1.widgets = true) (hlive : focusLive c1 = true)
    (hshift : m &&& KMOD_SHIFT = 0) (hk : k < (collectAll c1.widgets).length)
    (hidx : Int.tmod (focusIndex c1.focusedWidget (collectAll c1.widgets) 0 + 1)
        ((collectAll c1.widgets).length : Int) = (k : Int)) :
    ∃ ctx2, tabNavigate c1 m = some ctx2
      ∧ ctx2.focusedWidget = some ((collectAll c1.widgets).get ⟨k, hk⟩)
      ∧ Frame Fields.sameState c1.widgets ctx2.widgets := by
  unfold tabNavigate
  have hne : collectAll c1.widgets ≠ [] := by
    intro h
    rw [h] at hk
    simp at hk
  rw [if_neg hne]
  have hsh : decide (m &&& KMOD_SHIFT ≠ 0) = false := by simp [hshift]
  simp only [hsh, tabIndex, Bool.false_eq_true, if_false, hidx, Int.toNat_ofNat, Nat.cast_nonneg,
    if_true, List.getElem?_eq_getElem hk]
  have hmem : (collectAll c1.widgets).get ⟨k, hk⟩ ∈ ptrsIn c1.widgets :=
    (collectAll_sublist _).subset (List.get_mem _ k hk)
  obtain ⟨sY, hY⟩ := Option.isSome_iff_exists.mp (fieldsAt_isSome_iff.mpr hmem)
  obtain ⟨ctx2, h1, h2, h3, _⟩ := setFocus_obs hobs hlive hY
  exact ⟨ctx2, h1, h2, h3⟩

theorem tab_step (ctx : UIContext) (m k : Nat)
    (hobs : allObservers ctx.widgets = true) (hlive : focusLive ctx = true)
    (hshift : m &&& KMOD_SHIFT = 0) (hk : k < (collectAll ctx.widgets).length)
    (hidx : Int.tmod (focusIndex ctx.focusedWidget (collectAll ctx.widgets) 0 + 1)
        ((collectAll ctx.widgets).length : Int) = (k : Int)) :
    ∃ ctx2, UIContext.processEvent ctx (SDLEvent.keyDown SDLK_TAB m) = some ctx2
      ∧ ctx2.focusedWidget = some ((collectAll ctx.widgets).get ⟨k, hk⟩)
      ∧ collectAll ctx2.widgets = collectAll ctx.widgets := by
  obtain ⟨c1, hd, hf1, hfr1⟩ := dispatch_tab { ctx with needsRedraw := true } m hlive
  have hcore := focusFrame_core hfr1
  have hc : collectAll c1.widgets = collectAll ctx.widgets := collectAll_frame hcore
  have hobs1 : allObservers c1.widgets = true := allObservers_frame hcore hobs
  have hlive1 : focusLive c1 = true := by
    unfold focusLive at hlive ⊢
    rw [hf1]
    split
    · rfl
    · next p hp =>
      have hp2 : ctx.focusedWidget = some p := hp
      rw [hp2] at hlive
      obtain ⟨s, hs⟩ := Option.isSome_iff_exists.mp hlive
      obtain ⟨s1, hs1, _⟩ := frame_lookup sameCore_ptr hcore hs
      rw [hs1]
      rfl
  have hk1 : k < (collectAll c1.widgets).length := by rw [hc]; exact hk
  have hidx1 : Int.tmod (focusIndex c1.focusedWidget (collectAll c1.widgets) 0 + 1)
      ((collectAll c1.widgets).length : Int) = (k : Int) := by
    rw [hc, hf1]
    exact hidx
  obtain ⟨ctx2, h1, h2, h3⟩ := tabNavigate_step c1 m k hobs1 hlive1 hshift hk1 hidx1
  refine ⟨ctx2, ?_, ?_, ?_⟩
  · unfold UIContext.processEvent processKeyDown
    simp only
    rw [hd]
    simp only
    have hne : c1.widgets.isEmpty = false := by
      cases hw : c1.widgets with
      | nil => rw [hw] at hk1; simp [collectAll] at hk1
      | cons a l => rfl
    simp only [hne, and_self, if_true]
    exact h1
  · rw [h2]
    exact congrArg some (get_congr hc k hk1 hk)
  · rw [collectAll_frame (stateFrame_core h3), hc]

/-! ## Pressing and releasing a button -/

theorem kind_button_of_tag {k : Kind} (h : k.tag = 1) : k = Kind.Button := by
  cases k <;> simp [Kind.tag] at h ⊢

theorem dirtyF_wstate (ws : List UIComponent) (this : Nat) (s : Fields) :
    (dirtyF ws this s).wstate = s.wstate := by
  rcases dirtyF_eq ws this s with h | h <;> rw [h] <;> rfl

/-- Reading the object `p` after `setState(st)` on it. -/
theorem setState_lookup {ws : List UIComponent} {p : Nat} {s : Fields} (st : WidgetState)
    (hs : fieldsAt ws p = some s) :
    ∃ t, fieldsAt (setState ws p st) p = some t ∧ t.wstate = st ∧ Fields.sameCore s t := by
  obtain ⟨t, ht, hr⟩ := frame_lookup sameFocus_ptr (frame_setState ws p st) hs
  refine ⟨t, ht, ?_, hr.1⟩
  have hp := fieldsAt_ptr hs
  unfold setState at ht
  rw [hs] at ht
  simp only at ht
  split_ifs at ht with hw
  · rw [fieldsAt_markDirty, fieldsAt_updIn, hs] at ht
    simp only [Option.map_some', Option.some.injEq] at ht
    rw [← ht, dirtyF_wstate]
    simp [updF, hp]
  · rw [hs] at ht
    cases ht
    exact not_not.mp hw

theorem focusLive_frame {c c1 : UIContext} (hfr : Frame Fields.sameCore c.widgets c1.widgets)
    (hf : c1.focusedWidget = c.focusedWidget) (hlive : focusLive c = true) : focusLive c1 = true := by
  unfold focusLive at hlive ⊢
  rw [hf]
  split
  · rfl
  · next p hp =>
    rw [hp] at hlive
    obtain ⟨s, hs⟩ := Option.isSome_iff_exists.mp hlive
    obtain ⟨s1, hs1, _⟩ := frame_lookup sameCore_ptr hfr hs
    rw [hs1]
    rfl

/-- The `MouseDown` branch of `UIButton::onEvent` on an enabled button: the
button becomes `Pressed` and takes the focus; no `Click` is delivered. -/
theorem buttonOnEvent_mouseDown (c : UIContext) (b : Nat) (sb : Fields) (e : UIEvent)
    (he : e.type = EventType.MouseDown) (hm : e.mbtn = SDL_BUTTON_LEFT)
    (hb : fieldsAt c.widgets b = some sb) (hen : sb.enabled = true)
    (hobs : allObservers c.widgets = true) (hlive : focusLive c = true) :
    ∃ c3, buttonOnEvent c b sb e = some c3 ∧ c3.pressedWidget = c.pressedWidget
      ∧ clickCalls c3.trace = clickCalls c.trace
      ∧ ∃ t3, fieldsAt c3.widgets b = some t3 ∧ t3.wstate = WidgetState.Pressed
          ∧ Fields.sameCore sb t3 := by
  obtain ⟨t1, ht1, hw1, hr1⟩ := setState_lookup WidgetState.Pressed hb
  have hfr := focusFrame_core (frame_setState c.widgets b WidgetState.Pressed)
  have hobs1 := allObservers_frame hfr hobs
  have hlive1 : focusLive { c with widgets := setState c.widgets b WidgetState.Pressed } = true :=
    @focusLive_frame c { c with widgets := setState c.widgets b WidgetState.Pressed } hfr rfl hlive
  obtain ⟨c3, h1, _, h3, h4, _, h6, _⟩ :=
    @setFocus_obs { c with widgets := setState c.widgets b WidgetState.Pressed } b t1 hobs1 hlive1 ht1
  obtain ⟨t3, ht3, hr3⟩ := frame_lookup sameState_ptr h3 ht1
  refine ⟨c3, ?_, h4, h6, t3, ht3, hr3.2.trans hw1, sameCore_trans _ _ _ hr1 hr3.1⟩
  unfold buttonOnEvent
  simp only [hen, he, hm, Bool.not_true, Bool.false_eq_true, if_false, reduceCtorEq, and_self,
    if_true]
  exact h1

theorem button_mouseDown (c : UIContext) (b : Nat) (sb : Fields) (e : UIEvent)
    (he : e.type = EventType.MouseDown) (hm : e.mbtn = SDL_BUTTON_LEFT)
    (hb : fieldsAt c.widgets b = some sb) (hk : sb.kind = Kind.Button) (hen : sb.enabled = true)
    (hobs : allObservers c.widgets = true) (hlive : focusLive c = true) :
    ∃ c3, dispatch c (some b) e = some c3 ∧ c3.pressedWidget = c.pressedWidget
      ∧ clickCalls c3.trace = clickCalls c.trace
      ∧ ∃ t3, fieldsAt c3.widgets b = some t3 ∧ t3.wstate = WidgetState.Pressed
          ∧ Fields.sameCore sb t3 := by
  obtain ⟨c3, h1, h2, h3, h4⟩ := buttonOnEvent_mouseDown
    { c with trace := c.trace ++ [Trace.handler b e] } b sb e he hm hb hen hobs hlive
  refine ⟨c3, ?_, h2, ?_, h4⟩
  · unfold dispatch
    simp only [hb, hen, Bool.not_true, Bool.false_eq_true, if_false]
    unfold onEvent
    simp only [hk]
    exact h1
  · rw [h3]
    simp [clickCalls_append, clickCalls]

/-- The `DblClick` handler of an enabled button does nothing. -/
theorem button_dblClick (c : UIContext) (b : Nat) (sb : Fields) (e : UIEvent)
    (he : e.type = EventType.DblClick)
    (hb : fieldsAt c.widgets b = some sb) (hk : sb.kind = Kind.Button) (hen : sb.enabled = true) :
    dispatch c (some b) e = some { c with trace := c.trace ++ [Trace.handler b e] } := by
  unfold dispatch
  simp only [hb, hen, Bool.not_true, Bool.false_eq_true, if_false]
  unfold onEvent
  simp only [hk]
  unfold buttonOnEvent
  simp [hen, he]

/-- The `MouseUp` handler of an enabled button that is `Pressed`: `Click` goes
to the subscribers, with the coordinates of the release. -/
theorem button_mouseUp (c : UIContext) (b : Nat) (sb : Fields) (e : UIEvent)
    (he : e.type = EventType.MouseUp) (hm : e.mbtn = SDL_BUTTON_LEFT)
    (hb : fieldsAt c.widgets b = some sb) (hk : sb.kind = Kind.Button) (hen : sb.enabled = true)
    (hw : sb.wstate = WidgetState.Pressed) (ho : sb.observersOnly = true) :
    ∃ c1, dispatch c (some b) e = some c1
      ∧ c1.trace = c.trace ++ [Trace.handler b e]
          ++ callbackEntries b { type := EventType.Click, mx := e.mx, my := e.my }
              (sb.subscribers EventType.Click) := by
  have key := @emit_framed { c with trace := c.trace ++ [Trace.handler b e] } _ b sb
    { type := EventType.Click, mx := e.mx, my := e.my }
    (focusFrame_core (frame_setState c.widgets b WidgetState.Hovered)) hb ho
  have hd : dispatch c (some b) e
      = emit { c with trace := c.trace ++ [Trace.handler b e], widgets := setState c.widgets b WidgetState.Hovered }
          b { type := EventType.Click, mx := e.mx, my := e.my } := by
    unfold dispatch
    simp only [hb, hen, Bool.not_true, Bool.false_eq_true, if_false]
    unfold onEvent
    simp only [hk]
    unfold buttonOnEvent
    simp only [hen, he, hm, hw, Bool.not_true, Bool.false_eq_true, if_false, reduceCtorEq,
      and_self, if_true, false_and]
  rw [hd]
  exact ⟨_, key, rfl⟩

theorem processButtonDown_eq (c : UIContext) (hit : Option Nat) (mx my button : Int) (clicks : Nat)
    (hh : UIContext.hitTest c mx my = hit) (hom : c.openMenu = none) :
    processButtonDown c mx my button clicks
      = match (if clicks ≥ 2 then
            dispatch { c with pressedWidget := hit } hit
              { type := EventType.DblClick, mx := mx, my := my, mbtn := button }
          else some { c with pressedWidget := hit }) with
        | none => none
        | some ctx3 =>
          dispatch ctx3 hit { type := EventType.MouseDown, mx := mx, my := my, mbtn := button } := by
  subst hh
  unfold processButtonDown
  simp only [hom]

theorem processButtonUp_eq (c : UIContext) (w : Option Nat) (mx my button : Int)
    (hp : c.pressedWidget = w) :
    processButtonUp c mx my button
      = match dispatch c w { type := EventType.MouseUp, mx := mx, my := my, mbtn := button } with
        | none => none
        | some ctx1 => some { ctx1 with pressedWidget := none } := by
  subst hp
  rfl

/-- A left button-down on an enabled button: the call returns, the button is
the pressed widget and is `Pressed`, and no `Click` is delivered. -/
theorem button_down (ctx : UIContext) (b : Nat) (sb : Fields) (dx dy : Int) (clicks : Nat)
    (hb : fieldsAt ctx.widgets b = some sb) (hk : sb.kind = Kind.Button) (hen : sb.enabled = true)
    (hhit : UIContext.hitTest ctx dx dy = some b) (hom : ctx.openMenu = none)
    (hobs : allObservers ctx.widgets = true) (hlive : focusLive ctx = true) :
    ∃ c3, UIContext.processEvent ctx (SDLEvent.mouseButtonDown dx dy SDL_BUTTON_LEFT clicks) = some c3
      ∧ c3.pressedWidget = some b ∧ clickCalls c3.trace = clickCalls ctx.trace
      ∧ ∃ t3, fieldsAt c3.widgets b = some t3 ∧ t3.wstate = WidgetState.Pressed
          ∧ Fields.sameCore sb t3 := by
  unfold UIContext.processEvent
  simp only
  rw [processButtonDown_eq { ctx with needsRedraw := true } (some b) dx dy SDL_BUTTON_LEFT clicks hhit hom]
  by_cases hc : clicks ≥ 2
  · rw [if_pos hc]
    rw [button_dblClick { ctx with needsRedraw := true, pressedWidget := some b } b sb
      { type := EventType.DblClick, mx := dx, my := dy, mbtn := SDL_BUTTON_LEFT } rfl hb hk hen]
    simp only
    obtain ⟨c3, h1, h2, h3, h4⟩ := button_mouseDown
      { ctx with needsRedraw := true, pressedWidget := some b, trace := ctx.trace ++ [Trace.handler b { type := EventType.DblClick, mx := dx, my := dy, mbtn := SDL_BUTTON_LEFT }] }
      b sb { type := EventType.MouseDown, mx := dx, my := dy, mbtn := SDL_BUTTON_LEFT }
      rfl rfl hb hk hen hobs hlive
    refine ⟨c3, h1, h2, ?_, h4⟩
    rw [h3]
    simp [clickCalls_append, clickCalls]
  · rw [if_neg hc]
    simp only
    obtain ⟨c3, h1, h2, h3, h4⟩ := button_mouseDown
      { ctx with needsRedraw := true, pressedWidget := some b }
      b sb { type := EventType.MouseDown, mx := dx, my := dy, mbtn := SDL_BUTTON_LEFT }
      rfl rfl hb hk hen hobs hlive
    exact ⟨c3, h1, h2, h3, h4⟩

/-- A left button-up while an enabled button is the pressed widget and is
`Pressed`: the call returns and `Click` goes to the subscribers, whatever the
point of the release. -/
theorem button_up (ctx : UIContext) (b : Nat) (sb : Fields) (ux uy : Int)
    (hp : ctx.pressedWidget = some b)
    (hb : fieldsAt ctx.widgets b = some sb) (hk : sb.kind = Kind.Button) (hen : sb.enabled = true)
    (hw : sb.wstate = WidgetState.Pressed) (ho : sb.observersOnly = true) :
    ∃ c1, UIContext.processEvent ctx (SDLEvent.mouseButtonUp ux uy SDL_BUTTON_LEFT) = some c1
      ∧ clickCalls c1.trace = clickCalls ctx.trace
          ++ clickCalls (callbackEntries b { type := EventType.Click, mx := ux, my := uy }
              (sb.subscribers EventType.Click)) := by
  obtain ⟨c1, h1, h2⟩ := button_mouseUp { ctx with needsRedraw := true } b sb
    { type := EventType.MouseUp, mx := ux, my := uy, mbtn := SDL_BUTTON_LEFT } rfl rfl hb hk hen hw ho
  refine ⟨{ c1 with pressedWidget := none }, ?_, ?_⟩
  · unfold UIContext.processEvent
    simp only
    rw [processButtonUp_eq { ctx with needsRedraw := true } (some b) ux uy SDL_BUTTON_LEFT hp, h1]
  · simp only [h2]
    simp [clickCalls_append, clickCalls]

/-- Press and release on an enabled button with one `Click` callback: both
calls return and the callback gets exactly one `Click` more. -/
theorem press_release (ctx : UIContext) (b : Nat) (sb : Fields) (tag : Nat) (dx dy : Int)
    (clicks : Nat) (ux uy : Int)
    (hb : fieldsAt ctx.widgets b = some sb) (hk : sb.kind = Kind.Button) (hen : sb.enabled = true)
    (hcb : sb.subscribers EventType.Click = [CB.user tag])
    (hhit : UIContext.hitTest ctx dx dy = some b) (hom : ctx.openMenu = none)
    (hobs : allObservers ctx.widgets = true) (hlive : focusLive ctx = true) :
    ∃ c1 c2, UIContext.processEvent ctx (SDLEvent.mouseButtonDown dx dy SDL_BUTTON_LEFT clicks) = some c1
      ∧ UIContext.processEvent c1 (SDLEvent.mouseButtonUp ux uy SDL_BUTTON_LEFT) = some c2
      ∧ clickCalls c2.trace = clickCalls ctx.trace
          ++ [(tag, b, { type := EventType.Click, mx := ux, my := uy })] := by
  obtain ⟨c1, h1, h2, h3, t3, ht3, hw3, hr3⟩ := button_down ctx b sb dx dy clicks hb hk hen hhit hom hobs hlive
  have hk3 : t3.kind = Kind.Button := kind_button_of_tag (by rw [hr3.2.2.2.2.2.2.2.2, hk]; rfl)
  have hen3 : t3.enabled = true := by rw [hr3.2.2.2.2.2.1]; exact hen
  have hob : sb.observersOnly = true := by
    unfold allObservers at hobs
    exact List.all_eq_true.mp hobs sb (fieldsAt_mem hb)
  obtain ⟨c2, h4, h5⟩ := button_up c1 b t3 ux uy h2 ht3 hk3 hen3 hw3 (observersOnly_sameCore hr3 hob)
  refine ⟨c1, c2, h1, h4, ?_⟩
  rw [h5, h3, subscribers_sameCore hr3, hcb]
  simp [callbackEntries, clickCalls]

/-! ## Mouse capture -/

theorem emit_framed_isSome {ctx : UIContext} {ws1 : List UIComponent} {this : Nat} {s : Fields}
    (e : UIEvent) (hfr : Frame Fields.sameCore ctx.widgets ws1)
    (hs : fieldsAt ctx.widgets this = some s) (ho : s.observersOnly = true) :
    (emit { ctx with widgets := ws1 } this e).isSome = true := by
  rw [emit_framed e hfr hs ho]
  rfl

/-- With observer callbacks and a live parent, the `MouseUp` handler of every
class returns. -/
theorem onEvent_mouseUp_returns (ctx : UIContext) (X : Nat) (sX : Fields) (e : UIEvent)
    (he : e.type = EventType.MouseUp) (hX : fieldsAt ctx.widgets X = some sX)
    (ho : sX.observersOnly = true) (hpar : parentLive ctx.widgets X = true) :
    (onEvent ctx X sX e).isSome = true := by
  unfold onEvent
  split
  · rfl
  · unfold buttonOnEvent
    simp only [he, reduceCtorEq, if_false, false_and, true_and]
    split_ifs <;> first
      | rfl
      | exact emit_framed_isSome _ (focusFrame_core (frame_setState ctx.widgets X WidgetState.Hovered)) hX ho
  · unfold textInputOnEvent
    simp only [he, reduceCtorEq, if_false, false_and]
    split_ifs <;> rfl
  · next c _ =>
    unfold checkboxOnEvent
    simp only [he, reduceCtorEq, if_false, false_and, true_and, or_false]
    split_ifs <;> first
      | rfl
      | exact emit_framed_isSome _ (focusFrame_core (frame_upd_mark X sameFocus_toggleChecked ctx.widgets)) hX ho
  · next g _ _ =>
    unfold radioOnEvent
    simp only [he, reduceCtorEq, if_false, false_and, true_and, or_false]
    split_ifs
    · rfl
    · unfold activateInGroup
      unfold parentLive at hpar
      rw [hX] at hpar
      simp only [Option.some_bind] at hpar
      cases hq : sX.parent with
      | none =>
        simp only
        exact emit_framed_isSome _
          (focusFrame_core (frame_trans (frame_deactivateGroup ctx.widgets g X ctx.widgets)
            (frame_upd_mark X (sameFocus_setRadio true) _))) hX ho
      | some q =>
        rw [hq] at hpar
        simp only at hpar
        obtain ⟨pn, hpn⟩ := Option.isSome_iff_exists.mp hpar
        simp only [hpn, Option.map_some']
        exact emit_framed_isSome _
          (focusFrame_core (frame_trans (frame_deactivateGroup ctx.widgets g X pn.children)
            (frame_upd_mark X (sameFocus_setRadio true) _))) hX ho
    · rfl
  · unfold dropdownOnEvent
    simp [he]
  · unfold menuBarOnEvent
    simp [he]

/-- Motion events never change the pressed widget. -/
theorem motions_pressed : ∀ (moves : List (Int × Int)) (c c1 : UIContext),
    processEvents c (moves.map (fun m => SDLEvent.mouseMotion m.1 m.2)) = some c1 →
    c1.pressedWidget = c.pressedWidget
  | [], c, c1, h => by
    simp only [List.map_nil, processEvents, Option.some.injEq] at h
    rw [← h]
  | m :: rest, c, c1, h => by
    simp only [List.map_cons, processEvents] at h
    split at h
    · cases h
    · next c2 h2 =>
      have h3 : processMotion { c with needsRedraw := true } m.1 m.2 = some c2 := h2
      rw [motions_pressed rest c2 c1 h, (processMotion_good h3).1]

/-- The release after a press on X: `MouseUp` goes to X alone and the pressed
widget is cleared. -/
theorem release_to_pressed (ctx : UIContext) (X : Nat) (sX : Fields) (ux uy ub : Int)
    (hp : ctx.pressedWidget = some X)
    (hX : fieldsAt ctx.widgets X = some sX) (hen : sX.enabled = true)
    (ho : sX.observersOnly = true) (hpar : parentLive ctx.widgets X = true) :
    ∃ ctx3, UIContext.processEvent ctx (SDLEvent.mouseButtonUp ux uy ub) = some ctx3
      ∧ handlerCalls ctx3.trace = handlerCalls ctx.trace
          ++ [(X, { type := EventType.MouseUp, mx := ux, my := uy, mbtn := ub })]
      ∧ ctx3.pressedWidget = none := by
  have hd : ∃ c, dispatch { ctx with needsRedraw := true } (some X)
      { type := EventType.MouseUp, mx := ux, my := uy, mbtn := ub } = some c := by
    unfold dispatch
    simp only [hX, hen, Bool.not_true, Bool.false_eq_true, if_false]
    exact Option.isSome_iff_exists.mp (onEvent_mouseUp_returns _ X sX _ rfl hX ho hpar)
  obtain ⟨c, hc⟩ := hd
  have hcalls := @dispatch_calls { ctx with needsRedraw := true } c X sX _ hX hen hc
  refine ⟨{ c with pressedWidget := none }, ?_, hcalls, rfl⟩
  unfold UIContext.processEvent
  simp only
  rw [processButtonUp_eq { ctx with needsRedraw := true } (some X) ux uy ub hp, hc]

/-! ## The mouse claims -/

/-- C4: capture. When a button-down at p hit-tests to X and any sequence of
motion events follows, the next button-up, with X still attached and enabled
(its callbacks observers, its parent pointer live), returns, invokes the
`MouseUp` handler of X and of no other object, and leaves `pressedWidget`
null. -/
theorem capture_release (ctx ctx1 ctx2 : UIContext) (X : Nat) (sX : Fields) (px py pb : Int)
    (clicks : Nat) (moves : List (Int × Int)) (ux uy ub : Int)
    (hhit : UIContext.hitTest ctx px py = some X)
    (hdown : UIContext.processEvent ctx (SDLEvent.mouseButtonDown px py pb clicks) = some ctx1)
    (hmoves : processEvents ctx1 (moves.map (fun m => SDLEvent.mouseMotion m.1 m.2)) = some ctx2)
    (hX : fieldsAt ctx2.widgets X = some sX) (hen : sX.enabled = true)
    (ho : sX.observersOnly = true) (hpar : parentLive ctx2.widgets X = true) :
    ∃ ctx3, UIContext.processEvent ctx2 (SDLEvent.mouseButtonUp ux uy ub) = some ctx3
      ∧ handlerCalls ctx3.trace = handlerCalls ctx2.trace
          ++ [(X, { type := EventType.MouseUp, mx := ux, my := uy, mbtn := ub })]
      ∧ ctx3.pressedWidget = none := by
  have hd : processButtonDown { ctx with needsRedraw := true } px py pb clicks = some ctx1 := hdown
  have hp : ctx2.pressedWidget = some X := by
    rw [motions_pressed moves ctx1 ctx2 hmoves, (processButtonDown_good hd).1]
    exact hhit
  exact release_to_pressed ctx2 X sX ux uy ub hp hX hen ho hpar

theorem capture_release_witness :
    ∃ ctx3, UIContext.processEvent exDraggedCtx (SDLEvent.mouseButtonUp 200 200 1) = some ctx3
      ∧ handlerCalls ctx3.trace = handlerCalls exDraggedCtx.trace
          ++ [(1, { type := EventType.MouseUp, mx := 200, my := 200, mbtn := 1 })]
      ∧ ctx3.pressedWidget = none :=
  capture_release exButtonCtx (okOr {} (UIContext.processEvent exButtonCtx (SDLEvent.mouseButtonDown 20 15 1 1)))
    exDraggedCtx 1 (fieldsOr exButton.self exDraggedCtx.widgets 1) 20 15 1 1 [(200, 200), (5, 5)] 200 200 1
    (by decide!) (some_okOr {} _ (by decide!)) (some_okOr {} _ (by decide!)) (by decide!) (by decide!)
    (by decide!) (by decide!)

/-- C5 (amended): click. For an enabled button b with the `Click` callback
`tag`, in a context with observer callbacks, a left button-down at a point
whose hit-test target is b (b is the topmost visible, enabled object under the
point) followed by a left button-up at a point inside the rectangle of b: both
calls return and the callback gets exactly one `Click` more, from b. -/
theorem click_on_press_release (ctx : UIContext) (b : Nat) (sb : Fields) (tag : Nat)
    (dx dy : Int) (clicks : Nat) (ux uy : Int)
    (hb : fieldsAt ctx.widgets b = some sb) (hk : sb.kind = Kind.Button) (hen : sb.enabled = true)
    (hcb : sb.subscribers EventType.Click = [CB.user tag])
    (hhit : UIContext.hitTest ctx dx dy = some b) (_hup : sb.rect.contains ux uy = true)
    (hom : ctx.openMenu = none)
    (hobs : allObservers ctx.widgets = true) (hlive : focusLive ctx = true) :
    ∃ ctx2, processEvents ctx [SDLEvent.mouseButtonDown dx dy SDL_BUTTON_LEFT clicks,
        SDLEvent.mouseButtonUp ux uy SDL_BUTTON_LEFT] = some ctx2
      ∧ clickCalls ctx2.trace = clickCalls ctx.trace
          ++ [(tag, b, { type := EventType.Click, mx := ux, my := uy })] := by
  obtain ⟨c1, c2, h1, h2, h3⟩ := press_release ctx b sb tag dx dy clicks ux uy hb hk hen hcb hhit hom hobs hlive
  exact ⟨c2, by simp only [processEvents, h1, h2], h3⟩

theorem click_on_press_release_witness :
    ∃ ctx2, processEvents exButtonCtx [SDLEvent.mouseButtonDown 20 15 1 1,
        SDLEvent.mouseButtonUp 20 15 1] = some ctx2
      ∧ clickCalls ctx2.trace = [(7, 1, { type := EventType.Click, mx := 20, my := 15 })] :=
  click_on_press_release exButtonCtx 1 exButton.self 7 20 15 1 20 15 (by decide!) (by decide)
    (by decide) (by decide) (by decide!) (by decide) (by decide!) (by decide!) (by decide!)

/-- C6, amended: a release outside the rectangle of the pressed button still
delivers `Click`. For an enabled button b with the `Click` callback `tag`, a
left button-down that hit-tests to b followed at once by a left button-up at a
point outside the rectangle of b gives the callback exactly one `Click`, with
the coordinates of the release. -/
theorem click_on_release_outside (ctx : UIContext) (b : Nat) (sb : Fields) (tag : Nat)
    (dx dy : Int) (clicks : Nat) (ux uy : Int)
    (hb : fieldsAt ctx.widgets b = some sb) (hk : sb.kind = Kind.Button) (hen : sb.enabled = true)
    (hcb : sb.subscribers EventType.Click = [CB.user tag])
    (hhit : UIContext.hitTest ctx dx dy = some b) (_hout : sb.rect.contains ux uy = false)
    (hom : ctx.openMenu = none)
    (hobs : allObservers ctx.widgets = true) (hlive : focusLive ctx = true) :
    ∃ ctx2, processEvents ctx [SDLEvent.mouseButtonDown dx dy SDL_BUTTON_LEFT clicks,
        SDLEvent.mouseButtonUp ux uy SDL_BUTTON_LEFT] = some ctx2
      ∧ clickCalls ctx2.trace = clickCalls ctx.trace
          ++ [(tag, b, { type := EventType.Click, mx := ux, my := uy })] := by
  obtain ⟨c1, c2, h1, h2, h3⟩ := press_release ctx b sb tag dx dy clicks ux uy hb hk hen hcb hhit hom hobs hlive
  exact ⟨c2, by simp only [processEvents, h1, h2], h3⟩

theorem click_on_release_outside_witness :
    ∃ ctx2, processEvents exButtonCtx [SDLEvent.mouseButtonDown 20 15 1 1,
        SDLEvent.mouseButtonUp 200 200 1] = some ctx2
      ∧ clickCalls ctx2.trace = [(7, 1, { type := EventType.Click, mx := 200, my := 200 })] :=
  click_on_release_outside exButtonCtx 1 exButton.self 7 20 15 1 200 200 (by decide!) (by decide)
    (by decide) (by decide) (by decide!) (by decide) (by decide!) (by decide!) (by decide!)

/-! ## The focus claims -/

/-- C7: focus exclusivity is an invariant. In every state reachable from the
empty context by `add`, `addChild`, `setFocus` and `processEvent`, at most one
object has `focused == true`, and an object has `focused == true` exactly when
`focusedWidget` points to it. -/
theorem focus_exclusive (ctx : UIContext) (h : Reachable ctx) :
    ((fieldsIn ctx.widgets).filter (fun s => s.focused)).length ≤ 1
    ∧ ∀ s ∈ fieldsIn ctx.widgets, (s.focused = true ↔ ctx.focusedWidget = some s.ptr) :=
  ⟨focusInv_at_most_one (reachable_focusInv h), (reachable_focusInv h).2⟩

theorem focus_exclusive_witness :
    ((fieldsIn (okOr {} (UIContext.processEvent exTabCtxA (SDLEvent.keyDown SDLK_TAB 0))).widgets).filter
        (fun s => s.focused)).length ≤ 1
    ∧ ∀ s ∈ fieldsIn (okOr {} (UIContext.processEvent exTabCtxA (SDLEvent.keyDown SDLK_TAB 0))).widgets,
        (s.focused = true ↔
          (okOr {} (UIContext.processEvent exTabCtxA (SDLEvent.keyDown SDLK_TAB 0))).focusedWidget
            = some s.ptr) :=
  focus_exclusive _
    (Reachable.processEvent exTabCtxA _ (SDLEvent.keyDown SDLK_TAB 0)
      (Reachable.setFocus exTabCtx exTabCtxA (some 1)
        (Reachable.add _ _ (Reachable.add _ _ (Reachable.add _ _ Reachable.empty (by decide!))
          (by decide!)) (by decide!))
        (some_okOr {} _ (by decide!)))
      (some_okOr {} _ (by decide!)))

/-- C8: the focus transfer protocol. With X focused and Y ≠ X, both with
observer callbacks, `setFocus(Y)` returns, appends to the trace the `FocusLost`
calls of X's subscribers and then the `FocusGained` calls of Y's subscribers
(one call per subscriber, in registration order), leaves `X.focused == false`
and `Y.focused == true`, both dirty, and every other object's `focused` flag as
it was; `setFocus` of the object that already has the focus returns the context
unchanged. -/
theorem setFocus_transfer (ctx : UIContext) (X Y : Nat) (sX sY : Fields)
    (hfw : ctx.focusedWidget = some X) (hXY : X ≠ Y)
    (hX : fieldsAt ctx.widgets X = some sX) (hY : fieldsAt ctx.widgets Y = some sY)
    (hoX : sX.observersOnly = true) (hoY : sY.observersOnly = true) :
    (∃ ctx1, UIContext.setFocus ctx (some Y) = some ctx1
      ∧ ctx1.trace = ctx.trace
          ++ callbackEntries X { type := EventType.FocusLost } (sX.subscribers EventType.FocusLost)
          ++ callbackEntries Y { type := EventType.FocusGained } (sY.subscribers EventType.FocusGained)
      ∧ ctx1.focusedWidget = some Y
      ∧ (∃ tX, fieldsAt ctx1.widgets X = some tX ∧ tX.focused = false ∧ tX.dirty = true)
      ∧ (∃ tY, fieldsAt ctx1.widgets Y = some tY ∧ tY.focused = true ∧ tY.dirty = true)
      ∧ (∀ q s, q ≠ X → q ≠ Y → fieldsAt ctx.widgets q = some s →
          ∃ t, fieldsAt ctx1.widgets q = some t ∧ t.focused = s.focused))
    ∧ UIContext.setFocus ctx (some X) = some ctx := by
  have hfr1 := stateFrame_core (stateFrame_focus ctx.widgets X false)
  obtain ⟨tY, htY, hrY⟩ := frame_lookup sameCore_ptr hfr1 hY
  have hu := unfocusOld_exp hfw hX hoX
  refine ⟨?_, ?_⟩
  · unfold UIContext.setFocus
    rw [if_neg (by rw [hfw]; intro h; exact hXY (Option.some.inj h)), hu]
    dsimp only
    rw [focusNew_exp htY (observersOnly_sameCore hrY hoY)]
    dsimp only
    refine ⟨_, rfl, ?_, rfl, ?_, ?_, ?_⟩
    · dsimp only
      rw [subscribers_sameCore hrY]
    · dsimp only
      obtain ⟨t1, h1, h1a, _⟩ := fieldsAt_focus ctx.widgets X X false hX
      obtain ⟨t2, h2, _, h2b⟩ := fieldsAt_focus _ Y X true h1
      refine ⟨t2, h2, ?_, ?_⟩
      · rw [(h2b hXY).1]; exact (h1a rfl).1
      · exact (h2b hXY).2 (h1a rfl).2
    · dsimp only
      obtain ⟨t2, h2, h2a, _⟩ := fieldsAt_focus _ Y Y true htY
      exact ⟨t2, h2, h2a rfl⟩
    · intro q s hqX hqY hs
      dsimp only
      obtain ⟨t1, h1, _, h1b⟩ := fieldsAt_focus ctx.widgets X q false hs
      obtain ⟨t2, h2, _, h2b⟩ := fieldsAt_focus _ Y q true h1
      exact ⟨t2, h2, by rw [(h2b hqY).1, (h1b hqX).1]⟩
  · unfold UIContext.setFocus
    rw [if_pos hfw]

theorem setFocus_transfer_witness :
    (∃ ctx1, UIContext.setFocus exTabCtxA (some 2) = some ctx1
      ∧ ctx1.trace = exTabCtxA.trace
          ++ [Trace.callback 10 1 { type := EventType.FocusLost }]
          ++ [Trace.callback 21 2 { type := EventType.FocusGained }]
      ∧ ctx1.focusedWidget = some 2
      ∧ (∃ tX, fieldsAt ctx1.widgets 1 = some tX ∧ tX.focused = false ∧ tX.dirty = true)
      ∧ (∃ tY, fieldsAt ctx1.widgets 2 = some tY ∧ tY.focused = true ∧ tY.dirty = true)
      ∧ (∀ q s, q ≠ 1 → q ≠ 2 → fieldsAt exTabCtxA.widgets q = some s →
          ∃ t, fieldsAt ctx1.widgets q = some t ∧ t.focused = s.focused))
    ∧ UIContext.setFocus exTabCtxA (some 1) = some exTabCtxA :=
  setFocus_transfer exTabCtxA 1 2 exFieldsA exFieldsB (by decide!) (by decide) (by decide!)
    (by decide!) (by decide) (by decide)

/-- C9: Tab without Shift advances the focus circularly. Let f be the enabled
and visible objects in pre-order, n = |f| ≥ 1, in a forest of distinct objects
with observer callbacks. A `KeyDown` of Tab whose modifiers have no Shift bit
returns; when f[i] has the focus, the focus goes to f[(i+1) mod n], and when
nothing has the focus it goes to f[0]; f itself is unchanged. -/
theorem tab_advances_focus (ctx : UIContext) (m : Nat)
    (hnd : (ptrsIn ctx.widgets).Nodup) (hobs : allObservers ctx.widgets = true)
    (hshift : m &&& KMOD_SHIFT = 0) (hn : 0 < (collectAll ctx.widgets).length) :
    (∀ (i : Nat) (hi : i < (collectAll ctx.widgets).length),
        ctx.focusedWidget = some ((collectAll ctx.widgets).get ⟨i, hi⟩) →
        ∃ ctx1, UIContext.processEvent ctx (SDLEvent.keyDown SDLK_TAB m) = some ctx1
          ∧ ctx1.focusedWidget = some ((collectAll ctx.widgets).get
              ⟨(i + 1) % (collectAll ctx.widgets).length, Nat.mod_lt _ hn⟩)
          ∧ collectAll ctx1.widgets = collectAll ctx.widgets)
    ∧ (ctx.focusedWidget = none →
        ∃ ctx1, UIContext.processEvent ctx (SDLEvent.keyDown SDLK_TAB m) = some ctx1
          ∧ ctx1.focusedWidget = some ((collectAll ctx.widgets).get ⟨0, hn⟩)
          ∧ collectAll ctx1.widgets = collectAll ctx.widgets) := by
  have hfnd : (collectAll ctx.widgets).Nodup := (collectAll_sublist _).nodup hnd
  refine ⟨?_, ?_⟩
  · intro i hi hfw
    have hlive : focusLive ctx = true := by
      unfold focusLive
      rw [hfw]
      exact fieldsAt_isSome_iff.mpr ((collectAll_sublist _).subset (List.get_mem _ i hi))
    refine tab_step ctx m _ hobs hlive hshift (Nat.mod_lt _ hn) ?_
    rw [hfw, focusIndex_nodup _ 0 i hfnd hi, Int.tmod_eq_emod (by omega) (by omega)]
    push_cast
    simp
  · intro hfw
    have hlive : focusLive ctx = true := by
      unfold focusLive
      rw [hfw]
    refine tab_step ctx m 0 hobs hlive hshift hn ?_
    rw [hfw, focusIndex_none]
    simp

theorem tab_advances_focus_witness :
    ∃ ctx1, UIContext.processEvent exTabCtxC (SDLEvent.keyDown SDLK_TAB 0) = some ctx1
      ∧ ctx1.focusedWidget = some 1 ∧ collectAll ctx1.widgets = [1, 2, 3] := by
  obtain ⟨c, h1, h2, h3⟩ :=
    (tab_advances_focus exTabCtxC 0 (by decide!) (by decide!) (by decide) (by decide!)).1 2
      (by decide!) (by decide!)
  exact ⟨c, h1, h2.trans (by decide!), h3.trans (by decide!)⟩

/-- C1 (code defect): `markDirty` on a node two levels below the root sets the
flag on the node and on its parent only; the root, an ancestor, stays clean. -/
theorem markDirty_skips_grandparent :
    ancestorsIn 2 exChain = some [0, 1]
    ∧ (fieldsAt (markDirty exChain 2) 2).map (fun s => s.dirty) = some true
    ∧ (fieldsAt (markDirty exChain 2) 1).map (fun s => s.dirty) = some true
    ∧ (fieldsAt (markDirty exChain 2) 0).map (fun s => s.dirty) = some false
    ∧ (fieldsAt exChain 0).map (fun s => s.dirty) = some false := by
  decide!

/-- C2 (code defect): with the dropdown of "mb" open (object 3, top-level), a
button-down that hits no widget, and one that hits the button "ok", both leave
the dropdown in the top-level collection. -/
theorem dropdown_survives_outside_click :
    (processEvents exMenuCtx [SDLEvent.mouseButtonDown 5 5 1 1, SDLEvent.mouseButtonUp 5 5 1]).map
        (fun c => (c.widgets.map (fun w => (w.self.ptr, w.self.id)), UIContext.hitTest c 400 400,
                   UIContext.hitTest c 310 310, UIContext.hitTest c 5 25))
      = some ([(1, "mb"), (2, "ok"), (3, "mb_dd")], none, some 2, some 3)
    ∧ (processEvents exMenuCtx [SDLEvent.mouseButtonDown 5 5 1 1, SDLEvent.mouseButtonUp 5 5 1,
          SDLEvent.mouseButtonDown 400 400 1 1]).map (fun c => c.widgets.map (fun w => w.self.ptr))
      = some [1, 2, 3]
    ∧ (processEvents exMenuCtx [SDLEvent.mouseButtonDown 5 5 1 1, SDLEvent.mouseButtonUp 5 5 1,
          SDLEvent.mouseButtonDown 310 310 1 1]).map (fun c => c.widgets.map (fun w => w.self.ptr))
      = some [1, 2, 3] := by
  decide!

/-- C3 (code defect): selecting the item of the open dropdown (object 3)
removes the dropdown while it is the pressed widget; afterwards `pressedWidget`
still holds its address, and the button-up that follows dereferences it. -/
theorem remove_leaves_pressed_dangling :
    (processEvents exMenuCtx [SDLEvent.mouseButtonDown 5 5 1 1, SDLEvent.mouseButtonUp 5 5 1,
          SDLEvent.mouseMotion 5 25, SDLEvent.mouseButtonDown 5 25 1 1]).map
        (fun c => (ptrsIn c.widgets, c.pressedWidget, c.hoveredWidget, c.focusedWidget))
      = some ([1, 2], some 3, none, none)
    ∧ (processEvents exMenuCtx [SDLEvent.mouseButtonDown 5 5 1 1, SDLEvent.mouseButtonUp 5 5 1,
          SDLEvent.mouseMotion 5 25, SDLEvent.mouseButtonDown 5 25 1 1,
          SDLEvent.mouseButtonUp 5 25 1]).isNone = true
    ∧ (processEvents exMenuCtx [SDLEvent.mouseMotion 310 310, SDLEvent.mouseButtonDown 310 310 1 1]).map
        (fun c => (c.focusedWidget, c.hoveredWidget, c.pressedWidget, (UIContext.remove c "ok").1))
      = some (some 2, some 2, some 2, true)
    ∧ (processEvents exMenuCtx [SDLEvent.mouseMotion 310 310, SDLEvent.mouseButtonDown 310 310 1 1]).map
        (fun c => ((UIContext.remove c "ok").2.focusedWidget, (UIContext.remove c "ok").2.hoveredWidget,
          (UIContext.remove c "ok").2.pressedWidget, ptrsIn (UIContext.remove c "ok").2.widgets))
      = some (none, none, some 2, [1]) := by
  decide!

/-- C6 (counterexample): in the fresh context holding "btn" at (10,10,50,20), a
left button-down at (20,15) followed by a left button-up at (200,200), a point
outside the rectangle, delivers one `Click` to the callback, not zero. -/
theorem click_fires_on_release_outside :
    Rect.contains ⟨10, 10, 50, 20⟩ 200 200 = false
    ∧ (processEvents exButtonCtx [SDLEvent.mouseButtonDown 20 15 1 1,
          SDLEvent.mouseButtonUp 200 200 1]).map (fun c => clickCalls c.trace)
      = some [(7, 1, { type := EventType.Click, mx := 200, my := 200 })] := by
  decide!

/-- C10 (code defect): with the focusable objects [A, B, C] = [1, 2, 3] and B
focused, Shift+Tab computes the index 1 - 1 + 3 = 3, outside [0, 3), and the
access `focusable[3]` is out of bounds; from A the index is 2 (C). -/
theorem shift_tab_index_out_of_range :
    collectAll exTabCtx.widgets = [1, 2, 3]
    ∧ tabIndex [1, 2, 3] (some 2) true = 3
    ∧ ((UIContext.setFocus exTabCtx (some 2)).bind
        (fun c => UIContext.processEvent c (SDLEvent.keyDown SDLK_TAB 1))).isNone = true
    ∧ tabIndex [1, 2, 3] (some 1) true = 2
    ∧ ((UIContext.setFocus exTabCtx (some 1)).bind
        (fun c => UIContext.processEvent c (SDLEvent.keyDown SDLK_TAB 1))).map
          (fun c => c.focusedWidget) = some (some 3) := by
  decide!

/-- C5 (counterexample): a press inside the rectangle of a covered button. The
button "btn" at (10,10,50,20) is enabled and visible and has a Click callback;
a panel on layer 1 covers it, so the hit-test at (20,15) returns the panel. A
left button-down and a left button-up at (20,15), a point inside the rectangle
of the button, both return and the callback gets no Click. -/
theorem click_lost_under_cover :
    (fieldsAt exCovered.widgets 1).map
        (fun s => (s.enabled, s.visible, s.rect.contains 20 15, s.kind, s.subscribers EventType.Click))
        = some (true, true, true, Kind.Button, [CB.user 7])
    ∧ UIContext.hitTest exCovered 20 15 = some 2
    ∧ (processEvents exCovered [SDLEvent.mouseButtonDown 20 15 SDL_BUTTON_LEFT 1,
          SDLEvent.mouseButtonUp 20 15 SDL_BUTTON_LEFT]).map (fun c => clickCalls c.trace)
        = some [] := by
  decide!

/-! ## Hit-testing -/

theorem hitTestList_cons (x y : Int) (c : UIComponent) (rest : List UIComponent) :
    hitTestList x y (c :: rest)
      = match hitTestList x y rest with
        | some r => some r
        | none => hitOf x y c := by
  cases c with
  | node s ch =>
    cases h : hitTestList x y rest with
    | some r => simp only [hitTestList, h]
    | none => simp only [hitTestList, h, hitOf, UIComponent.self]

theorem hitTestList_append (x y : Int) (l1 l2 : List UIComponent) :
    hitTestList x y (l1 ++ l2)
      = match hitTestList x y l2 with
        | some r => some r
        | none => hitTestList x y l1 := by
  induction l1 with
  | nil =>
    simp only [List.nil_append]
    cases hitTestList x y l2 <;> simp [hitTestList]
  | cons c rest ih =>
    simp only [List.cons_append, hitTestList_cons, ih]
    cases hitTestList x y l2 <;> simp

theorem hitTestList_none_iff (x y : Int) (l : List UIComponent) :
    hitTestList x y l = none ↔ ∀ c ∈ l, hitOf x y c = none := by
  induction l with
  | nil => simp [hitTestList]
  | cons c rest ih =>
    rw [hitTestList_cons]
    cases h : hitTestList x y rest with
    | none =>
      simp only [List.mem_cons, forall_eq_or_imp]
      exact ⟨fun hc => ⟨hc, ih.mp h⟩, fun hc => hc.1⟩
    | some r =>
      simp only [List.mem_cons, forall_eq_or_imp, reduceCtorEq, false_iff, not_and]
      intro _ hall
      rw [ih.mpr hall] at h
      cases h

/-- The result of the reverse loop comes from the last entry that yields a
hit. -/
theorem hitTestList_last (x y : Int) (pre post : List UIComponent) (c : UIComponent)
    (hpost : ∀ d ∈ post, hitOf x y d = none) :
    hitTestList x y (pre ++ c :: post)
      = match hitOf x y c with
        | some r => some r
        | none => hitTestList x y pre := by
  rw [hitTestList_append, hitTestList_cons, (hitTestList_none_iff x y post).mpr hpost]

theorem hitTestList_some {x y : Int} {l : List UIComponent} {r : Nat}
    (h : hitTestList x y l = some r) :
    ∃ pre c post, l = pre ++ c :: post ∧ hitOf x y c = some r ∧ ∀ d ∈ post, hitOf x y d = none := by
  induction l with
  | nil => simp [hitTestList] at h
  | cons c rest ih =>
    rw [hitTestList_cons] at h
    cases hr : hitTestList x y rest with
    | none =>
      rw [hr] at h
      exact ⟨[], c, rest, rfl, h, (hitTestList_none_iff x y rest).mp hr⟩
    | some r1 =>
      rw [hr] at h
      cases h
      obtain ⟨pre, d, post, hl, hd, hp⟩ := ih hr
      exact ⟨c :: pre, d, post, by rw [hl]; rfl, hd, hp⟩

theorem hitTestAll_node (x y : Int) (s : Fields) (ch : List UIComponent) :
    hitTestAll x y (.node s ch)
      = match hitTestList x y ch with
        | some r => some r
        | none => if s.hitTest x y then some s.ptr else none := by
  rfl

mutual
/-- A hit is the address of an object of the subtree. -/
theorem hitTestAll_mem (x y : Int) :
    ∀ (c : UIComponent) (r : Nat), hitTestAll x y c = some r → r ∈ ptrs c
  | .node s ch, r, h => by
    rw [hitTestAll_node] at h
    simp only [ptrs, fieldsOf, List.map_cons, List.mem_cons]
    cases hl : hitTestList x y ch with
    | some r1 =>
      rw [hl] at h
      cases h
      exact Or.inr (hitTestList_mem x y ch r hl)
    | none =>
      rw [hl] at h
      split_ifs at h
      cases h
      exact Or.inl rfl
theorem hitTestList_mem (x y : Int) :
    ∀ (l : List UIComponent) (r : Nat), hitTestList x y l = some r → r ∈ ptrsIn l
  | [], r, h => by simp [hitTestList] at h
  | .node s ch :: rest, r, h => by
    simp only [ptrsIn, fieldsIn, List.map_append, List.mem_append]
    simp only [hitTestList] at h
    cases hl : hitTestList x y rest with
    | some r1 =>
      rw [hl] at h
      cases h
      exact Or.inr (hitTestList_mem x y rest r hl)
    | none =>
      rw [hl] at h
      split_ifs at h
      exact Or.inl (hitTestAll_mem x y (.node s ch) r h)
end

theorem hitOf_mem {x y : Int} {c : UIComponent} {r : Nat} (h : hitOf x y c = some r) :
    r ∈ ptrs c := by
  unfold hitOf at h
  split_ifs at h
  exact hitTestAll_mem x y c r h

mutual
theorem hitTestAll_outside (x y : Int) :
    ∀ c : UIComponent, (∀ s ∈ fieldsOf c, s.rect.contains x y = false) → hitTestAll x y c = none
  | .node s ch, h => by
    rw [hitTestAll_node]
    have hch : ∀ t ∈ fieldsIn ch, t.rect.contains x y = false :=
      fun t ht => h t (by simp [fieldsOf, ht])
    rw [hitTestList_outside x y ch hch]
    have hs : s.rect.contains x y = false := h s (by simp [fieldsOf])
    simp [Fields.hitTest, hs]
theorem hitTestList_outside (x y : Int) :
    ∀ l : List UIComponent, (∀ s ∈ fieldsIn l, s.rect.contains x y = false) → hitTestList x y l = none
  | [], _ => by simp [hitTestList]
  | c :: rest, h => by
    rw [hitTestList_cons]
    have hrest : ∀ t ∈ fieldsIn rest, t.rect.contains x y = false :=
      fun t ht => h t (by simp [fieldsIn, ht])
    have hc : ∀ t ∈ fieldsOf c, t.rect.contains x y = false :=
      fun t ht => h t (by simp [fieldsIn, ht])
    rw [hitTestList_outside x y rest hrest]
    simp only [hitOf]
    split_ifs
    · rfl
    · exact hitTestAll_outside x y c hc
end

theorem hitPath_cons {x y : Int} {r : Nat} {p : List Fields} (s : Fields)
    (hv : s.visible = true) (he : s.enabled = true) (hp : hitPath x y r p) :
    hitPath x y r (s :: p) := by
  obtain ⟨⟨t, ht, htr, htc⟩, hall⟩ := hp
  refine ⟨⟨t, ?_, htr, htc⟩, ?_⟩
  · cases p with
    | nil => simp at ht
    | cons a l => simpa [List.getLast?_cons_cons] using ht
  · intro u hu
    rcases List.mem_cons.mp hu with rfl | hu
    · exact ⟨hv, he⟩
    · exact hall u hu

mutual
/-- A hit of `hitTestAll` on a visible and enabled node has a path of visible
and enabled objects and contains the point. -/
theorem hitTestAll_path (x y : Int) :
    ∀ (c : UIComponent) (r : Nat), c.self.visible = true → c.self.enabled = true →
      hitTestAll x y c = some r → ∃ p ∈ pathsOf c, hitPath x y r p
  | .node s ch, r, hv, he, h => by
    rw [hitTestAll_node] at h
    cases hl : hitTestList x y ch with
    | some r1 =>
      rw [hl] at h
      cases h
      obtain ⟨p, hp, hg⟩ := hitTestList_path x y ch r hl
      refine ⟨s :: p, ?_, hitPath_cons s hv he hg⟩
      simp only [pathsOf, List.mem_cons, List.mem_map]
      exact Or.inr ⟨p, hp, rfl⟩
    | none =>
      rw [hl] at h
      split_ifs at h with hs
      cases h
      refine ⟨[s], by simp [pathsOf], ⟨s, rfl, rfl, ?_⟩, ?_⟩
      · simp only [Fields.hitTest, Bool.and_eq_true] at hs
        exact hs.2
      · intro t ht
        simp only [List.mem_singleton] at ht
        subst ht
        exact ⟨hv, he⟩
theorem hitTestList_path (x y : Int) :
    ∀ (l : List UIComponent) (r : Nat), hitTestList x y l = some r →
      ∃ p ∈ pathsIn l, hitPath x y r p
  | [], r, h => by simp [hitTestList] at h
  | .node s ch :: rest, r, h => by
    simp only [hitTestList] at h
    cases hl : hitTestList x y rest with
    | some r1 =>
      rw [hl] at h
      cases h
      obtain ⟨p, hp, hg⟩ := hitTestList_path x y rest r hl
      exact ⟨p, by simp only [pathsIn, List.mem_append]; exact Or.inr hp, hg⟩
    | none =>
      rw [hl] at h
      split_ifs at h with hs
      simp only [Bool.or_eq_true, Bool.not_eq_true', not_or, Bool.not_eq_false] at hs
      obtain ⟨p, hp, hg⟩ := hitTestAll_path x y (.node s ch) r hs.1 hs.2 h
      exact ⟨p, by simp only [pathsIn, List.mem_append]; exact Or.inl hp, hg⟩
end

mutual
/-- Every object on a path of a subtree is an object of the subtree. -/
theorem pathsOf_mem :
    ∀ (c : UIComponent) (p : List Fields), p ∈ pathsOf c → ∀ t ∈ p, t ∈ fieldsOf c
  | .node s ch, p, hp, t, ht => by
    simp only [pathsOf, List.mem_cons, List.mem_map] at hp
    simp only [fieldsOf, List.mem_cons]
    rcases hp with rfl | ⟨q, hq, rfl⟩
    · exact Or.inl (List.mem_singleton.mp ht)
    · rcases List.mem_cons.mp ht with rfl | ht
      · exact Or.inl rfl
      · exact Or.inr (pathsIn_mem ch q hq t ht)
theorem pathsIn_mem :
    ∀ (l : List UIComponent) (p : List Fields), p ∈ pathsIn l → ∀ t ∈ p, t ∈ fieldsIn l
  | [], p, hp, _, _ => by simp [pathsIn] at hp
  | c :: rest, p, hp, t, ht => by
    simp only [pathsIn, List.mem_append] at hp
    simp only [fieldsIn, List.mem_append]
    rcases hp with hp | hp
    · exact Or.inl (pathsOf_mem c p hp t ht)
    · exact Or.inr (pathsIn_mem rest p hp t ht)
end

/-! ## The stable sort by layer -/

theorem insertByLayer_split (c : UIComponent) :
    ∀ l : List UIComponent, ∃ pre post, l = pre ++ post ∧ insertByLayer c l = pre ++ c :: post
      ∧ (∀ a ∈ pre, a.self.layer ≤ c.self.layer)
      ∧ (layerSorted l → ∀ a ∈ post, c.self.layer < a.self.layer)
  | [] => ⟨[], [], rfl, rfl, by simp, by simp⟩
  | d :: rest => by
    simp only [insertByLayer]
    by_cases h : c.self.layer < d.self.layer
    · rw [if_pos h]
      refine ⟨[], d :: rest, rfl, rfl, by simp, ?_⟩
      intro hs a ha
      rcases List.mem_cons.mp ha with rfl | ha
      · exact h
      · exact lt_of_lt_of_le h ((List.pairwise_cons.mp hs).1 a ha)
    · rw [if_neg h]
      obtain ⟨pre, post, h1, h2, h3, h4⟩ := insertByLayer_split c rest
      refine ⟨d :: pre, post, by rw [h1]; rfl, by rw [h2]; rfl, ?_, ?_⟩
      · intro a ha
        rcases List.mem_cons.mp ha with rfl | ha
        · exact not_lt.mp h
        · exact h3 a ha
      · intro hs
        exact h4 (List.pairwise_cons.mp hs).2

theorem insertByLayer_sorted (c : UIComponent) {l : List UIComponent} (h : layerSorted l) :
    layerSorted (insertByLayer c l) := by
  obtain ⟨pre, post, h1, h2, h3, h4⟩ := insertByLayer_split c l
  rw [h2]
  rw [h1] at h
  unfold layerSorted at *
  rw [List.pairwise_append] at h ⊢
  refine ⟨h.1, ?_, ?_⟩
  · rw [List.pairwise_cons]
    exact ⟨fun a ha => le_of_lt (h4 (by rw [h1]; exact List.pairwise_append.mpr h) a ha), h.2.1⟩
  · intro a ha b hb
    rcases List.mem_cons.mp hb with rfl | hb
    · exact h3 a ha
    · exact h.2.2 a ha b hb

theorem foldl_insert_sorted (l : List UIComponent) :
    ∀ acc : List UIComponent, layerSorted acc →
      layerSorted (l.foldl (fun acc c => insertByLayer c acc) acc) := by
  induction l with
  | nil => intro acc h; exact h
  | cons c rest ih =>
    intro acc h
    exact ih _ (insertByLayer_sorted c h)

theorem stableSort_sorted (l : List UIComponent) : layerSorted (stableSort l) :=
  foldl_insert_sorted l [] List.Pairwise.nil

theorem stableSort_snoc (l : List UIComponent) (c : UIComponent) :
    stableSort (l ++ [c]) = insertByLayer c (stableSort l) := by
  simp [stableSort, List.foldl_append]

theorem insertByLayer_of_le (c : UIComponent) :
    ∀ l : List UIComponent, (∀ d ∈ l, d.self.layer ≤ c.self.layer) → insertByLayer c l = l ++ [c]
  | [], _ => rfl
  | d :: rest, h => by
    simp only [insertByLayer]
    rw [if_neg (not_lt.mpr (h d (List.mem_cons_self _ _))),
      insertByLayer_of_le c rest (fun a ha => h a (List.mem_cons_of_mem _ ha))]
    rfl

/-- A vector that is in layer order is left as it is by the stable sort. -/
theorem stableSort_of_sorted (l : List UIComponent) (h : layerSorted l) : stableSort l = l := by
  induction l using List.reverseRecOn with
  | nil => rfl
  | append_singleton l a ih =>
    unfold layerSorted at h
    rw [List.pairwise_append] at h
    rw [stableSort_snoc, ih h.1]
    exact insertByLayer_of_le a l (fun d hd => h.2.2 d hd a (List.mem_singleton_self a))

theorem exists_last_occurrence {c : UIComponent} :
    ∀ {l : List UIComponent}, c ∈ l → ∃ pre post, l = pre ++ c :: post ∧ c ∉ post
  | [], h => by cases h
  | d :: rest, h => by
    by_cases hr : c ∈ rest
    · obtain ⟨pre, post, h1, h2⟩ := exists_last_occurrence hr
      exact ⟨d :: pre, post, by rw [h1]; rfl, h2⟩
    · rcases List.mem_cons.mp h with rfl | h
      · exact ⟨[], rest, rfl, hr⟩
      · exact absurd h hr

/-! ## Surfaces, `setRect`, `resize` and the render pass -/

theorem updIn_eq_map (p : Nat) (f : Fields → Fields) :
    ∀ ws : List UIComponent, updIn p f ws = ws.map (updNode p f)
  | [] => rfl
  | c :: rest => by simp [updIn, updIn_eq_map p f rest]

theorem updNode_self (p : Nat) (f : Fields → Fields) (c : UIComponent) :
    (updNode p f c).self = updF p f c.self := by
  cases c with
  | node s ch => rfl

/-- The fields of the top-level nodes after `markDirty`. -/
theorem markDirty_top (ws : List UIComponent) (this : Nat) :
    (markDirty ws this).map UIComponent.self = (ws.map UIComponent.self).map (dirtyF ws this) := by
  unfold markDirty dirtyF
  cases (fieldsAt ws this).bind (fun s => s.parent) with
  | none => simp [updIn_eq_map, updNode_self]
  | some q => simp [updIn_eq_map, updNode_self]

theorem dirtyF_visible (ws : List UIComponent) (this : Nat) (s : Fields) :
    (dirtyF ws this s).visible = s.visible := by
  rcases dirtyF_eq ws this s with h | h <;> rw [h] <;> rfl

theorem dirtyF_self_dirty (ws : List UIComponent) {this : Nat} {s : Fields} (h : s.ptr = this) :
    (dirtyF ws this s).dirty = true := by
  rw [dirtyF_self ws h]
  rfl

/-- The loop of `resize`: every top-level node keeps its address and its
visibility, stays dirty when it was, and is dirty when its address is in the
list. -/
theorem foldl_markDirty_top (l : List Nat) :
    ∀ ws : List UIComponent,
      List.Forall₂ (fun s t => t.ptr = s.ptr ∧ t.visible = s.visible
          ∧ ((s.dirty = true ∨ s.ptr ∈ l) → t.dirty = true))
        (ws.map UIComponent.self) ((l.foldl markDirty ws).map UIComponent.self) := by
  induction l with
  | nil =>
    intro ws
    simp only [List.foldl_nil]
    refine List.forall₂_same.mpr (fun s _ => ⟨rfl, rfl, ?_⟩)
    intro h
    rcases h with h | h
    · exact h
    · cases h
  | cons p rest ih =>
    intro ws
    simp only [List.foldl_cons]
    have h1 := ih (markDirty ws p)
    rw [markDirty_top] at h1
    rw [List.forall₂_map_left_iff] at h1
    refine List.Forall₂.imp ?_ h1
    intro s t ⟨hp, hv, hd⟩
    refine ⟨by rw [hp, dirtyF_ptr], by rw [hv, dirtyF_visible], ?_⟩
    intro h
    apply hd
    rcases h with h | h
    · exact Or.inl (dirtyF_dirty _ _ _ h)
    · rcases List.mem_cons.mp h with h | h
      · exact Or.inl (dirtyF_self_dirty ws h)
      · exact Or.inr (by rw [dirtyF_ptr]; exact h)

theorem ensureSurf_dirty (s : Fields) (h : s.dirty = true) : (ensureSurf s).1.dirty = true := by
  unfold ensureSurf
  split_ifs
  · rfl
  · exact h

/-- A visible and dirty entry of the vector is drawn by the loop. -/
theorem renderList_draws (dst : Option Nat) :
    ∀ (l : List UIComponent) (c : UIComponent), c ∈ l → c.self.visible = true →
      c.self.dirty = true → Draw.draw c.self.ptr ∈ (renderList dst l).2
  | [], c, h, _, _ => by cases h
  | .node s ch :: rest, c, h, hv, hd => by
    rcases List.mem_cons.mp h with rfl | h
    · simp only [UIComponent.self] at hv hd
      simp only [renderList, hv, Bool.not_true, Bool.false_eq_true, if_false, render,
        ensureSurf_dirty s hd, if_true, UIComponent.self]
      simp
    · have ih := renderList_draws dst rest c h hv hd
      simp only [renderList]
      split_ifs
      · exact ih
      · simp only [List.mem_append]
        exact Or.inr ih

theorem forall2_mem_right {R : Fields → Fields → Prop} {l1 l2 : List Fields}
    (h : List.Forall₂ R l1 l2) : ∀ t ∈ l2, ∃ s ∈ l1, R s t := by
  induction h with
  | nil => intro t ht; cases ht
  | cons hr _ ih =>
    intro t ht
    rcases List.mem_cons.mp ht with rfl | ht
    · exact ⟨_, List.mem_cons_self _ _, hr⟩
    · obtain ⟨s, hs, hst⟩ := ih t ht
      exact ⟨s, List.mem_cons_of_mem _ hs, hst⟩

theorem forall2_ptr {P : Fields → Fields → Prop} {l1 l2 : List Fields}
    (h : List.Forall₂ (fun s t => t.ptr = s.ptr ∧ P s t) l1 l2) :
    l2.map (fun s => s.ptr) = l1.map (fun s => s.ptr) := by
  induction h with
  | nil => rfl
  | cons hr _ ih => simp [hr.1, ih]

/-- After `resize` every top-level node is dirty; addresses and visibility are
as before. -/
theorem resize_top (ctx : UIContext) (w h : Int) :
    (UIContext.resize ctx w h).widgets.map (fun c => c.self.ptr)
        = ctx.widgets.map (fun c => c.self.ptr)
    ∧ ∀ c ∈ (UIContext.resize ctx w h).widgets, c.self.dirty = true := by
  have key := foldl_markDirty_top (ctx.widgets.map (fun c => c.self.ptr)) ctx.widgets
  refine ⟨?_, ?_⟩
  · show ((ctx.widgets.map (fun c => c.self.ptr)).foldl markDirty ctx.widgets).map
      (fun c => c.self.ptr) = _
    have h1 := forall2_ptr key
    simp only [List.map_map] at h1
    exact h1
  · intro c hc
    have hc1 : c.self ∈ ((ctx.widgets.map (fun c => c.self.ptr)).foldl markDirty ctx.widgets).map
        UIComponent.self := List.mem_map_of_mem _ hc
    obtain ⟨s, hs, _, _, hd⟩ := forall2_mem_right key _ hc1
    apply hd
    right
    obtain ⟨d, hd1, rfl⟩ := List.mem_map.mp hs
    exact List.mem_map_of_mem (fun c => c.self.ptr) hd1

theorem ensureSurf_of_fresh (t : Fields) (h : surfStale t = false) : ensureSurf t = (t, []) := by
  unfold ensureSurf
  rw [h]
  rfl

theorem rect_eq_iff (r q : Rect) : r = q ↔ r.x = q.x ∧ r.y = q.y ∧ r.w = q.w ∧ r.h = q.h := by
  cases r
  cases q
  simp

/-! ## `addChild`: where the child goes -/

mutual
theorem insertChild_of_none (this : Nat) (c : UIComponent) :
    ∀ t : UIComponent, getNode this t = none → insertChild this c t = t
  | .node s ch, h => by
    simp only [getNode] at h
    split_ifs at h with hs
    simp only [insertChild, if_neg hs, insertChildIn_of_none this c ch h]
theorem insertChildIn_of_none (this : Nat) (c : UIComponent) :
    ∀ ws : List UIComponent, getNodeIn this ws = none → insertChildIn this c ws = ws
  | [], _ => rfl
  | d :: rest, h => by
    simp only [getNodeIn] at h
    cases hd : getNode this d with
    | some n => rw [hd] at h; cases h
    | none =>
      rw [hd] at h
      simp only [insertChildIn, insertChild_of_none this c d hd, insertChildIn_of_none this c rest h]
end

mutual
/-- The object at `this` after the structural part of `addChild`. -/
theorem getNode_insertChild (this : Nat) (c : UIComponent) (s : Fields) (ch : List UIComponent) :
    ∀ t : UIComponent, getNode this t = some (.node s ch) →
      getNode this (insertChild this c t) = some (.node s (stableSort (ch ++ [c])))
  | .node s0 ch0, h => by
    simp only [getNode] at h
    by_cases hs : s0.ptr = this
    · rw [if_pos hs] at h
      cases h
      simp only [insertChild, if_pos hs, getNode]
    · rw [if_neg hs] at h
      simp only [insertChild, if_neg hs, getNode]
      exact getNodeIn_insertChildIn this c s ch ch0 h
theorem getNodeIn_insertChildIn (this : Nat) (c : UIComponent) (s : Fields) (ch : List UIComponent) :
    ∀ ws : List UIComponent, getNodeIn this ws = some (.node s ch) →
      getNodeIn this (insertChildIn this c ws) = some (.node s (stableSort (ch ++ [c])))
  | [], h => by simp [getNodeIn] at h
  | d :: rest, h => by
    simp only [getNodeIn] at h
    simp only [insertChildIn, getNodeIn]
    cases hd : getNode this d with
    | some n =>
      rw [hd] at h
      cases h
      rw [getNode_insertChild this c s ch d hd]
    | none =>
      rw [hd] at h
      rw [insertChild_of_none this c d hd, hd]
      exact getNodeIn_insertChildIn this c s ch rest h
end

mutual
theorem getNode_updNode (q p : Nat) (f : Fields → Fields) :
    ∀ t : UIComponent, getNode q (updNode p f t) = (getNode q t).map (updNode p f)
  | .node s ch => by
    simp only [updNode, getNode, updF_ptr]
    split_ifs
    · rfl
    · exact getNodeIn_updIn q p f ch
theorem getNodeIn_updIn (q p : Nat) (f : Fields → Fields) :
    ∀ ws : List UIComponent, getNodeIn q (updIn p f ws) = (getNodeIn q ws).map (updNode p f)
  | [] => rfl
  | d :: rest => by
    simp only [updIn, getNodeIn, getNode_updNode q p f d]
    cases getNode q d with
    | some n => rfl
    | none => exact getNodeIn_updIn q p f rest
end

theorem cleanSelf_updNode (p : Nat) (c : UIComponent) :
    cleanSelf (updNode p setDirty c) = cleanSelf c := by
  cases c with
  | node s ch =>
    simp only [cleanSelf, updNode, UIComponent.self, updF_setDirty]
    split_ifs <;> rfl

theorem cleanSelf_updIn (p : Nat) (ch : List UIComponent) :
    (updIn p setDirty ch).map cleanSelf = ch.map cleanSelf := by
  rw [updIn_eq_map, List.map_map]
  apply List.map_congr_left
  intro c _
  exact cleanSelf_updNode p c

/-- The object at `q` after `markDirty`: its children are the same objects,
up to dirty flags. -/
theorem getNodeIn_markDirty {ws : List UIComponent} {q : Nat} {s : Fields} {ch : List UIComponent}
    (p : Nat) (h : getNodeIn q ws = some (.node s ch)) :
    ∃ s1 ch1, getNodeIn q (markDirty ws p) = some (.node s1 ch1)
      ∧ s1 = dirtyF ws p s ∧ ch1.map cleanSelf = ch.map cleanSelf := by
  unfold markDirty dirtyF
  cases (fieldsAt ws p).bind (fun s => s.parent) with
  | none =>
    simp only [getNodeIn_updIn, h, Option.map_some', updNode]
    exact ⟨_, _, rfl, rfl, cleanSelf_updIn p ch⟩
  | some r =>
    simp only [getNodeIn_updIn, h, Option.map_some', updNode]
    exact ⟨_, _, rfl, rfl, by rw [cleanSelf_updIn, cleanSelf_updIn]⟩

theorem layerSorted_of_clean {l l1 : List UIComponent} (h : l1.map cleanSelf = l.map cleanSelf)
    (hs : layerSorted l) : layerSorted l1 := by
  have e : ∀ m : List UIComponent, m.map (fun c => c.self.layer)
      = (m.map cleanSelf).map (fun s => s.layer) := by
    intro m
    rw [List.map_map]
    rfl
  unfold layerSorted at *
  have h1 : (l.map (fun c => c.self.layer)).Pairwise (· ≤ ·) := List.pairwise_map.mpr hs
  rw [e, ← h, ← e] at h1
  exact List.pairwise_map.mp h1

/-! ## The registry -/

theorem find_filter_ne (k k1 : String) (h : k1 ≠ k) :
    ∀ r : List (String × Nat),
      (r.filter (fun kv => decide (kv.1 ≠ k))).find? (fun kv => decide (kv.1 = k1))
        = r.find? (fun kv => decide (kv.1 = k1))
  | [] => rfl
  | a :: rest => by
    by_cases ha : a.1 = k
    · have e1 : decide (a.1 ≠ k) = false := by simp [ha]
      have e2 : decide (a.1 = k1) = false := by
        simp only [decide_eq_false_iff_not]
        exact fun e => h (e.symm.trans ha)
      simp only [List.filter_cons, e1, Bool.false_eq_true, if_false, List.find?_cons, e2]
      exact find_filter_ne k k1 h rest
    · have e1 : decide (a.1 ≠ k) = true := by simp [ha]
      simp only [List.filter_cons, e1, if_true, List.find?_cons]
      rw [find_filter_ne k k1 h rest]

theorem find_filter_self (k : String) :
    ∀ r : List (String × Nat),
      (r.filter (fun kv => decide (kv.1 ≠ k))).find? (fun kv => decide (kv.1 = k)) = none
  | [] => rfl
  | a :: rest => by
    by_cases ha : a.1 = k
    · have e1 : decide (a.1 ≠ k) = false := by simp [ha]
      simp only [List.filter_cons, e1, Bool.false_eq_true, if_false]
      exact find_filter_self k rest
    · have e1 : decide (a.1 ≠ k) = true := by simp [ha]
      have e2 : decide (a.1 = k) = false := by simp [ha]
      simp only [List.filter_cons, e1, if_true, List.find?_cons, e2]
      exact find_filter_self k rest

theorem regFind_regSet (r : List (String × Nat)) (k : String) (v : Nat) (k1 : String) :
    regFind (regSet r k v) k1 = if k1 = k then some v else regFind r k1 := by
  unfold regFind regSet
  by_cases h : k1 = k
  · subst h
    simp only [List.find?_cons, decide_True, if_true, Option.map_some']
  · have e : decide (k = k1) = false := by
      simp only [decide_eq_false_iff_not]
      exact fun e => h e.symm
    simp only [List.find?_cons, e, if_neg h]
    rw [find_filter_ne k k1 h r]

theorem regFind_regErase (r : List (String × Nat)) (k k1 : String) :
    regFind (regErase r k) k1 = if k1 = k then none else regFind r k1 := by
  unfold regFind regErase
  by_cases h : k1 = k
  · subst h
    rw [find_filter_self, if_pos rfl]
    rfl
  · rw [if_neg h, find_filter_ne k k1 h r]

theorem regFind_regKey_other (r : List (String × Nat)) (kp : String × Nat) (k : String)
    (h : kp.1 ≠ k) : regFind (regKey r kp) k = regFind r k := by
  unfold regKey
  split_ifs
  · rw [regFind_regSet, if_neg (fun e => h e.symm)]
  · rfl

theorem regFind_eraseKey_other (r : List (String × Nat)) (kp : String × Nat) (k : String)
    (h : kp.1 ≠ k) : regFind (eraseKey r kp) k = regFind r k := by
  unfold eraseKey
  split_ifs
  · rw [regFind_regErase, if_neg (fun e => h e.symm)]
  · rfl

theorem regFind_foldl_regKey_other (k : String) :
    ∀ (K : List (String × Nat)) (r : List (String × Nat)), (∀ kp ∈ K, kp.1 ≠ k) →
      regFind (K.foldl regKey r) k = regFind r k
  | [], _, _ => rfl
  | a :: rest, r, h => by
    simp only [List.foldl_cons]
    rw [regFind_foldl_regKey_other k rest _ (fun kp hkp => h kp (List.mem_cons_of_mem _ hkp)),
      regFind_regKey_other r a k (h a (List.mem_cons_self _ _))]

theorem regFind_foldl_eraseKey_other (k : String) :
    ∀ (K : List (String × Nat)) (r : List (String × Nat)), (∀ kp ∈ K, kp.1 ≠ k) →
      regFind (K.foldl eraseKey r) k = regFind r k
  | [], _, _ => rfl
  | a :: rest, r, h => by
    simp only [List.foldl_cons]
    rw [regFind_foldl_eraseKey_other k rest _ (fun kp hkp => h kp (List.mem_cons_of_mem _ hkp)),
      regFind_eraseKey_other r a k (h a (List.mem_cons_self _ _))]

theorem idsOf_append (K1 K2 : List (String × Nat)) : idsOf (K1 ++ K2) = idsOf K1 ++ idsOf K2 := by
  simp [idsOf]

theorem mem_idsOf {K : List (String × Nat)} {kp : String × Nat} (h : kp ∈ K) (hne : kp.1 ≠ "") :
    kp.1 ∈ idsOf K := by
  unfold idsOf
  rw [List.mem_filter]
  exact ⟨List.mem_map_of_mem (fun kp => kp.1) h, by simpa using hne⟩

theorem idsOf_perm {K1 K2 : List (String × Nat)} (h : K1.Perm K2) : (idsOf K1).Perm (idsOf K2) :=
  (h.map _).filter _

/-- After the registration of the keys `K`, pairwise distinct in their
non-empty ids, every such id is registered to its object. -/
theorem regFind_foldl_regKey_mem :
    ∀ (K : List (String × Nat)) (r : List (String × Nat)) (kp : String × Nat), kp ∈ K →
      kp.1 ≠ "" → (idsOf K).Nodup → regFind (K.foldl regKey r) kp.1 = some kp.2
  | [], _, _, h, _, _ => by cases h
  | a :: rest, r, kp, h, hne, hnd => by
    simp only [List.foldl_cons]
    have hsplit : idsOf (a :: rest) = idsOf [a] ++ idsOf rest := idsOf_append [a] rest
    rw [hsplit] at hnd
    rcases List.mem_cons.mp h with rfl | hmem
    · have hin : kp.1 ∈ idsOf [kp] := mem_idsOf (List.mem_singleton_self _) hne
      have hdis : ∀ q ∈ rest, q.1 ≠ kp.1 := by
        intro q hq e
        have hq1 : q.1 ∈ idsOf rest := mem_idsOf hq (by rw [e]; exact hne)
        rw [e] at hq1
        exact (List.nodup_append.mp hnd).2.2 hin hq1
      rw [regFind_foldl_regKey_other kp.1 rest _ hdis]
      unfold regKey
      rw [if_pos hne, regFind_regSet, if_pos rfl]
    · exact regFind_foldl_regKey_mem rest _ kp hmem hne (List.nodup_append.mp hnd).2.1

theorem keysIn_append (a b : List UIComponent) : keysIn (a ++ b) = keysIn a ++ keysIn b := by
  simp [keysIn, fieldsIn_append]

theorem keysIn_cons (c : UIComponent) (l : List UIComponent) :
    keysIn (c :: l) = keysIn [c] ++ keysIn l :=
  keysIn_append [c] l

theorem keysIn_node (s : Fields) (ch : List UIComponent) :
    keysIn [.node s ch] = (s.id, s.ptr) :: keysIn ch := by
  simp [keysIn, fieldsIn, fieldsOf]

mutual
/-- `registerWidget` registers the keys of the subtree in pre-order. -/
theorem registerWidget_eq :
    ∀ (c : UIComponent) (r : List (String × Nat)), registerWidget r c = (keysIn [c]).foldl regKey r
  | .node s ch, r => by
    simp only [registerWidget, keysIn_node, List.foldl_cons]
    rw [registerAll_eq ch]
    rfl
theorem registerAll_eq :
    ∀ (l : List UIComponent) (r : List (String × Nat)), registerAll r l = (keysIn l).foldl regKey r
  | [], r => rfl
  | c :: rest, r => by
    simp only [registerAll]
    rw [registerAll_eq rest, registerWidget_eq c, keysIn_cons c rest, List.foldl_append]
end

mutual
/-- `unregisterWidget` erases the keys of the subtree in pre-order. -/
theorem unregisterWidget_eq :
    ∀ (c : UIComponent) (r : List (String × Nat)),
      unregisterWidget r c = (keysIn [c]).foldl eraseKey r
  | .node s ch, r => by
    simp only [unregisterWidget, keysIn_node, List.foldl_cons]
    rw [unregisterAll_eq ch]
    rfl
theorem unregisterAll_eq :
    ∀ (l : List UIComponent) (r : List (String × Nat)),
      unregisterAll r l = (keysIn l).foldl eraseKey r
  | [], r => rfl
  | c :: rest, r => by
    simp only [unregisterAll]
    rw [unregisterAll_eq rest, unregisterWidget_eq c, keysIn_cons c rest, List.foldl_append]
end

theorem covers_perm {K K1 : List (String × Nat)} {r : List (String × Nat)} (h : K.Perm K1)
    (hc : Covers K r) : Covers K1 r :=
  ⟨((h.map _).nodup_iff).mp hc.1, ((idsOf_perm h).nodup_iff).mp hc.2.1,
    fun kp hkp hne => hc.2.2 kp (h.mem_iff.mpr hkp) hne⟩

/-- Registration of new keys extends the coverage. -/
theorem covers_extend {K Kc : List (String × Nat)} {r : List (String × Nat)}
    (hc : Covers K r) (hp : ((K ++ Kc).map (fun kp => kp.2)).Nodup)
    (hi : (idsOf (K ++ Kc)).Nodup) : Covers (K ++ Kc) (Kc.foldl regKey r) := by
  refine ⟨hp, hi, ?_⟩
  rw [idsOf_append] at hi
  intro kp hkp hne
  rcases List.mem_append.mp hkp with hk | hk
  · have hin := mem_idsOf hk hne
    rw [regFind_foldl_regKey_other kp.1 Kc r]
    · exact hc.2.2 kp hk hne
    · intro q hq e
      have hq1 : q.1 ∈ idsOf Kc := mem_idsOf hq (by rw [e]; exact hne)
      rw [e] at hq1
      exact (List.nodup_append.mp hi).2.2 hin hq1
  · exact regFind_foldl_regKey_mem Kc r kp hk hne (List.nodup_append.mp hi).2.1

/-- Registration of keys whose ids are not ids of the tree leaves the coverage
of the tree as it is. -/
theorem covers_register_only {K Kc : List (String × Nat)} {r : List (String × Nat)}
    (hc : Covers K r) (hd : ∀ i ∈ idsOf Kc, i ∉ idsOf K) : Covers K (Kc.foldl regKey r) := by
  refine ⟨hc.1, hc.2.1, ?_⟩
  intro kp hkp hne
  rw [regFind_foldl_regKey_other kp.1 Kc r]
  · exact hc.2.2 kp hkp hne
  · intro q hq e
    have hq1 : q.1 ∈ idsOf Kc := mem_idsOf hq (by rw [e]; exact hne)
    rw [e] at hq1
    exact hd _ hq1 (mem_idsOf hkp hne)

/-- Erasing the keys of a removed part keeps the coverage of the rest. -/
theorem covers_remove {K1 Kc K2 : List (String × Nat)} {r : List (String × Nat)}
    (hc : Covers (K1 ++ Kc ++ K2) r) : Covers (K1 ++ K2) (Kc.foldl eraseKey r) := by
  have hperm : (K1 ++ Kc ++ K2).Perm (Kc ++ (K1 ++ K2)) := by
    rw [List.append_assoc]
    exact List.perm_append_comm_assoc K1 Kc K2
  have hc1 := covers_perm hperm hc
  obtain ⟨h1, h2, h3⟩ := hc1
  rw [List.map_append] at h1
  rw [idsOf_append] at h2
  refine ⟨(List.nodup_append.mp h1).2.1, (List.nodup_append.mp h2).2.1, ?_⟩
  intro kp hkp hne
  rw [regFind_foldl_eraseKey_other kp.1 Kc r]
  · exact h3 kp (List.mem_append_right _ hkp) hne
  · intro q hq e
    have hq1 : q.1 ∈ idsOf Kc := mem_idsOf hq (by rw [e]; exact hne)
    rw [e] at hq1
    exact (List.nodup_append.mp h2).2.2 hq1 (mem_idsOf hkp hne)

theorem keysIn_perm {l l1 : List UIComponent} (h : l.Perm l1) : (keysIn l).Perm (keysIn l1) :=
  (fieldsIn_perm h).map _

theorem keysIn_setParent (this : Nat) (c : UIComponent) :
    keysIn [setParent this c] = keysIn [c] := by
  cases c with
  | node s ch => simp [setParent, keysIn_node]

theorem dirtyF_id (ws : List UIComponent) (this : Nat) (s : Fields) :
    (dirtyF ws this s).id = s.id := by
  rcases dirtyF_eq ws this s with h | h <;> rw [h] <;> rfl

theorem keysIn_markDirty (ws : List UIComponent) (this : Nat) :
    keysIn (markDirty ws this) = keysIn ws := by
  unfold keysIn
  rw [fieldsIn_markDirty, List.map_map]
  apply List.map_congr_left
  intro s _
  simp [dirtyF_id, dirtyF_ptr]

theorem ptrsIn_keys (ws : List UIComponent) : ptrsIn ws = (keysIn ws).map (fun kp => kp.2) := by
  simp [ptrsIn, keysIn]

theorem keysIn_insertChildIn (this : Nat) (c : UIComponent) (ws : List UIComponent)
    (hnd : (ptrsIn ws).Nodup) :
    (keysIn (insertChildIn this c ws)).Perm
      (keysIn ws ++ (if this ∈ ptrsIn ws then keysIn [c] else [])) := by
  have h := (insertChildIn_perm this c ws hnd).map (fun s => (s.id, s.ptr))
  rw [List.map_append] at h
  unfold keysIn
  split_ifs at h ⊢
  · rw [fieldsIn_singleton]
    exact h
  · exact h

theorem distinctWith_keys {ws : List UIComponent} {c : UIComponent} (h : distinctWith ws c) :
    ((keysIn ws ++ keysIn [c]).map (fun kp => kp.2)).Nodup
      ∧ (idsOf (keysIn ws ++ keysIn [c])).Nodup := by
  obtain ⟨h1, h2⟩ := h
  rw [ptrsIn_keys, keysIn_append] at h1
  unfold idsIn at h2
  rw [keysIn_append] at h2
  exact ⟨h1, h2⟩

theorem covers_add {ctx : UIContext} {c : UIComponent}
    (hc : Covers (keysIn ctx.widgets) ctx.registry) (hd : distinctWith ctx.widgets c) :
    Covers (keysIn (UIContext.add ctx c).widgets) (UIContext.add ctx c).registry := by
  obtain ⟨h1, h2⟩ := distinctWith_keys hd
  have hperm : (keysIn (stableSort (ctx.widgets ++ [c]))).Perm (keysIn ctx.widgets ++ keysIn [c]) := by
    rw [← keysIn_append]
    exact keysIn_perm (stableSort_perm _)
  have hreg : (UIContext.add ctx c).registry = (keysIn [c]).foldl regKey ctx.registry :=
    registerWidget_eq c ctx.registry
  rw [hreg]
  exact covers_perm hperm.symm (covers_extend hc h1 h2)

theorem covers_addChild {ctx : UIContext} {this : Nat} {c : UIComponent}
    (hc : Covers (keysIn ctx.widgets) ctx.registry) (hd : distinctWith ctx.widgets c) :
    Covers (keysIn (UIContext.addChild ctx this c).widgets) (UIContext.addChild ctx this c).registry := by
  obtain ⟨h1, h2⟩ := distinctWith_keys hd
  have hnd : (ptrsIn ctx.widgets).Nodup := by
    rw [ptrsIn_keys]
    exact hc.1
  have hreg : (UIContext.addChild ctx this c).registry = (keysIn [c]).foldl regKey ctx.registry := by
    show registerWidget ctx.registry (setParent this c) = _
    rw [registerWidget_eq, keysIn_setParent]
  have hw : (UIContext.addChild ctx this c).widgets
      = markDirty (insertChildIn this (setParent this c) ctx.widgets) this := rfl
  have hperm := keysIn_insertChildIn this (setParent this c) ctx.widgets hnd
  rw [keysIn_setParent] at hperm
  rw [hreg, hw, keysIn_markDirty]
  by_cases hin : this ∈ ptrsIn ctx.widgets
  · rw [if_pos hin] at hperm
    exact covers_perm hperm.symm (covers_extend hc h1 h2)
  · rw [if_neg hin, List.append_nil] at hperm
    refine covers_perm hperm.symm (covers_register_only hc ?_)
    intro i hi hk
    rw [idsOf_append] at h2
    exact (List.nodup_append.mp h2).2.2 hk hi

theorem covers_remove_id {ctx : UIContext} (id : String)
    (hc : Covers (keysIn ctx.widgets) ctx.registry) :
    Covers (keysIn (UIContext.remove ctx id).2.widgets) (UIContext.remove ctx id).2.registry := by
  unfold UIContext.remove
  split
  · exact hc
  · next c rest hr =>
    obtain ⟨pre, post, hws, hrest⟩ := removeFirst_split hr
    simp only
    rw [hrest, unregisterWidget_eq, keysIn_append]
    apply covers_remove
    rw [hws, keysIn_append, keysIn_cons c post, ← List.append_assoc] at hc
    exact hc

/-- The registry of a context that was built covers its tree. -/
theorem built_covers {ctx : UIContext} (h : Built ctx) :
    Covers (keysIn ctx.widgets) ctx.registry := by
  induction h with
  | empty =>
    refine ⟨?_, ?_, ?_⟩
    · show ([] : List Nat).Nodup
      exact List.nodup_nil
    · show ([] : List String).Nodup
      exact List.nodup_nil
    · intro kp hkp
      cases hkp
  | add ctx c _ hd ih => exact covers_add ih hd
  | addChild ctx this c _ hd ih => exact covers_addChild ih hd
  | addChildDetached ctx tree this c _ hd ih =>
    have hreg : (WXUI.addChild ctx.registry tree this c).1 = (keysIn [c]).foldl regKey ctx.registry := by
      show registerWidget ctx.registry (setParent this c) = _
      rw [registerWidget_eq, keysIn_setParent]
    show Covers (keysIn ctx.widgets) (WXUI.addChild ctx.registry tree this c).1
    rw [hreg]
    exact covers_register_only ih hd
  | remove ctx id _ ih => exact covers_remove_id id ih

/-! ## The hit-test claims -/

/-- C11: hit-test layering. Let A and B be visible, enabled, childless nodes
whose rectangles contain the point, A on a lower layer than B (0 and 1), added
in either order to a context in which nothing else is hit at the point: the
hit-test returns B. In general `add` leaves the top-level vector in layer
order, and on a vector in layer order the hit-test returns the hit of a
top-level node whose layer is maximal among the top-level nodes that yield a
hit. -/
theorem hitTest_layering (ctx : UIContext) (sA sB : Fields) (x y : Int)
    (hlayer : sA.layer < sB.layer)
    (hvA : sA.visible = true) (heA : sA.enabled = true)
    (hvB : sB.visible = true) (heB : sB.enabled = true)
    (hcA : sA.rect.contains x y = true) (hcB : sB.rect.contains x y = true)
    (hnone : UIContext.hitTest ctx x y = none) :
    UIContext.hitTest (UIContext.add (UIContext.add ctx (.node sA [])) (.node sB [])) x y = some sB.ptr
    ∧ UIContext.hitTest (UIContext.add (UIContext.add ctx (.node sB [])) (.node sA [])) x y = some sB.ptr
    ∧ (∀ (c : UIContext) (w : UIComponent), layerSorted (UIContext.add c w).widgets)
    ∧ (∀ (c : UIContext) (r : Nat), layerSorted c.widgets → UIContext.hitTest c x y = some r →
        ∃ w ∈ c.widgets, hitOf x y w = some r
          ∧ ∀ v ∈ c.widgets, (hitOf x y v).isSome = true → v.self.layer ≤ w.self.layer) := by
  have hws := (hitTestList_none_iff x y ctx.widgets).mp hnone
  have hitA : hitOf x y (.node sA []) = some sA.ptr := by
    simp [hitOf, UIComponent.self, hitTestAll, hitTestList, Fields.hitTest, hvA, heA, hcA]
  have hitB : hitOf x y (.node sB []) = some sB.ptr := by
    simp [hitOf, UIComponent.self, hitTestAll, hitTestList, Fields.hitTest, hvB, heB, hcB]
  have key : ∀ L : List UIComponent, layerSorted L →
      (∀ d, d ∈ L ↔ d ∈ ctx.widgets ∨ d = .node sA [] ∨ d = .node sB []) →
      hitTestList x y L = some sB.ptr := by
    intro L hs hmem
    obtain ⟨pre, post, hL, hnot⟩ := exists_last_occurrence ((hmem _).mpr (Or.inr (Or.inr rfl)))
    have hpost : ∀ d ∈ post, hitOf x y d = none := by
      intro d hd
      have hdL : d ∈ L := by rw [hL]; simp [hd]
      rcases (hmem d).mp hdL with h | h | h
      · exact hws d h
      · subst h
        rw [hL] at hs
        have := (List.pairwise_cons.mp (List.pairwise_append.mp hs).2.1).1 _ hd
        exact absurd (lt_of_lt_of_le hlayer this) (lt_irrefl _)
      · subst h
        exact absurd hd hnot
    rw [hL, hitTestList_last x y pre post _ hpost, hitB]
  refine ⟨?_, ?_, ?_, ?_⟩
  · apply key _ (stableSort_sorted _)
    intro d
    show d ∈ stableSort (stableSort (ctx.widgets ++ [.node sA []]) ++ [.node sB []]) ↔ _
    rw [(stableSort_perm _).mem_iff, List.mem_append, (stableSort_perm _).mem_iff, List.mem_append]
    simp only [List.mem_singleton]
    tauto
  · apply key _ (stableSort_sorted _)
    intro d
    show d ∈ stableSort (stableSort (ctx.widgets ++ [.node sB []]) ++ [.node sA []]) ↔ _
    rw [(stableSort_perm _).mem_iff, List.mem_append, (stableSort_perm _).mem_iff, List.mem_append]
    simp only [List.mem_singleton]
    tauto
  · intro c w
    exact stableSort_sorted _
  · intro c r hs h
    obtain ⟨pre, w, post, hL, hw, hpost⟩ := hitTestList_some h
    refine ⟨w, by rw [hL]; simp, hw, ?_⟩
    intro v hv hsome
    rw [hL] at hv hs
    rcases List.mem_append.mp hv with hv | hv
    · exact (List.pairwise_append.mp hs).2.2 v hv w (List.mem_cons_self _ _)
    · rcases List.mem_cons.mp hv with rfl | hv
      · exact le_refl _
      · rw [hpost v hv] at hsome
        cases hsome

theorem hitTest_layering_witness :
    UIContext.hitTest (UIContext.add (UIContext.add {} exLayerA) exLayerB) 7 7 = some 2
    ∧ UIContext.hitTest (UIContext.add (UIContext.add {} exLayerB) exLayerA) 7 7 = some 2 :=
  ⟨(hitTest_layering {} exLayerA.self exLayerB.self 7 7 (by decide) (by decide) (by decide)
      (by decide) (by decide) (by decide) (by decide) (by decide)).1,
   (hitTest_layering {} exLayerA.self exLayerB.self 7 7 (by decide) (by decide) (by decide)
      (by decide) (by decide) (by decide) (by decide) (by decide)).2.1⟩

/-- C12 (counterexample): the panel at (0,0,10,10) is the only top-level node
and does not contain (25,25), yet the hit-test at (25,25) returns its child at
(20,20,10,10): children are searched without a test of the rectangle of the
parent. -/
theorem hitTest_child_outside_parent :
    exOverhang.widgets.map (fun c => (c.self.ptr, c.self.rect.contains 25 25)) = [(1, false)]
    ∧ UIContext.hitTest exOverhang 25 25 = some 2 := by
  decide!

/-- C12, amended: when the point lies outside the rectangle of every object of
the tree, top-level or nested, the hit-test returns none. -/
theorem hitTest_outside_all (ctx : UIContext) (x y : Int)
    (h : ∀ s ∈ fieldsIn ctx.widgets, s.rect.contains x y = false) :
    UIContext.hitTest ctx x y = none :=
  hitTestList_outside x y ctx.widgets h

theorem hitTest_outside_all_witness : UIContext.hitTest exOverhang 50 50 = none :=
  hitTest_outside_all exOverhang 50 50 (by decide!)

/-- C13: a node returned by the hit-test is interactive. When the hit-test
returns r there is a path from a top-level node down to an object with address
r on which every object is visible and enabled, and the rectangle of that
object contains the point (x ≤ px < x+w and y ≤ py < y+h); in a forest of
distinct objects every object with address r is visible, enabled and contains
the point. -/
theorem hitTest_result_interactive (ctx : UIContext) (x y : Int) (r : Nat)
    (h : UIContext.hitTest ctx x y = some r) :
    (∃ p ∈ pathsIn ctx.widgets, ∃ s, p.getLast? = some s ∧ s.ptr = r
      ∧ s.visible = true ∧ s.enabled = true
      ∧ (s.rect.x ≤ x ∧ x < s.rect.x + s.rect.w ∧ s.rect.y ≤ y ∧ y < s.rect.y + s.rect.h)
      ∧ ∀ t ∈ p, t.visible = true ∧ t.enabled = true)
    ∧ ((ptrsIn ctx.widgets).Nodup → ∀ s ∈ fieldsIn ctx.widgets, s.ptr = r →
        s.visible = true ∧ s.enabled = true ∧ s.rect.contains x y = true) := by
  obtain ⟨p, hp, ⟨s, hlast, hsr, hc⟩, hall⟩ := hitTestList_path x y ctx.widgets r h
  have hsp : s ∈ p := List.mem_of_getLast?_eq_some hlast
  have hbox : s.rect.x ≤ x ∧ x < s.rect.x + s.rect.w ∧ s.rect.y ≤ y ∧ y < s.rect.y + s.rect.h := by
    simp only [Rect.contains, Bool.and_eq_true, decide_eq_true_eq, ge_iff_le] at hc
    exact ⟨hc.1.1.1, hc.1.2, hc.1.1.2, hc.2⟩
  refine ⟨⟨p, hp, s, hlast, hsr, (hall s hsp).1, (hall s hsp).2, hbox, hall⟩, ?_⟩
  intro hnd t ht htr
  have hs : s ∈ fieldsIn ctx.widgets := pathsIn_mem ctx.widgets p hp s hsp
  have : t = s := List.inj_on_of_nodup_map hnd ht hs (htr.trans hsr.symm)
  subst this
  exact ⟨(hall t hsp).1, (hall t hsp).2, hc⟩

theorem hitTest_result_interactive_witness :
    ∃ p ∈ pathsIn exOverhang.widgets, ∃ s, p.getLast? = some s ∧ s.ptr = 2
      ∧ s.visible = true ∧ s.enabled = true
      ∧ (s.rect.x ≤ 25 ∧ 25 < s.rect.x + s.rect.w ∧ s.rect.y ≤ 25 ∧ 25 < s.rect.y + s.rect.h)
      ∧ ∀ t ∈ p, t.visible = true ∧ t.enabled = true :=
  (hitTest_result_interactive exOverhang 25 25 2 (by decide!)).1

/-- C14: children before the node itself. For a node P with children `ch`:
when some entry of `ch` yields a hit, `hitTestAll` on P returns the hit of the
last entry that yields one, and that is not P (objects being distinct); when
no entry yields a hit it returns P exactly if `P.hitTest` holds; so P itself
is returned only if no child yields a hit and its own `hitTest` holds. -/
theorem hitTestAll_children_first (x y : Int) (s : Fields) (ch : List UIComponent) :
    (∀ pre c post r, ch = pre ++ c :: post → hitOf x y c = some r →
        (∀ d ∈ post, hitOf x y d = none) →
        hitTestAll x y (.node s ch) = some r ∧ ((ptrs (.node s ch)).Nodup → r ≠ s.ptr))
    ∧ ((∀ c ∈ ch, hitOf x y c = none) →
        hitTestAll x y (.node s ch) = if s.hitTest x y then some s.ptr else none)
    ∧ ((ptrs (.node s ch)).Nodup → hitTestAll x y (.node s ch) = some s.ptr →
        (∀ c ∈ ch, hitOf x y c = none) ∧ s.hitTest x y = true) := by
  have hself : (ptrs (.node s ch)).Nodup → ∀ r, hitTestList x y ch = some r → r ≠ s.ptr := by
    intro hnd r hr heq
    have hmem := hitTestList_mem x y ch r hr
    simp only [ptrs, fieldsOf, List.map_cons, List.nodup_cons] at hnd
    rw [heq] at hmem
    exact hnd.1 hmem
  refine ⟨?_, ?_, ?_⟩
  · intro pre c post r hch hc hpost
    have hl : hitTestList x y ch = some r := by
      rw [hch, hitTestList_last x y pre post c hpost, hc]
    refine ⟨by rw [hitTestAll_node, hl], fun hnd => hself hnd r hl⟩
  · intro hnone
    rw [hitTestAll_node, (hitTestList_none_iff x y ch).mpr hnone]
  · intro hnd h
    rw [hitTestAll_node] at h
    cases hl : hitTestList x y ch with
    | some r =>
      rw [hl] at h
      cases h
      exact absurd rfl (hself hnd _ hl)
    | none =>
      rw [hl] at h
      refine ⟨(hitTestList_none_iff x y ch).mp hl, ?_⟩
      by_contra hs
      rw [if_neg hs] at h
      cases h

theorem hitTestAll_children_first_witness :
    hitTestAll 20 20 exStack = some 3 ∧ ((ptrs exStack).Nodup → (3 : Nat) ≠ 1) :=
  (hitTestAll_children_first 20 20 { ptr := 1, id := "panel", rect := ⟨0, 0, 100, 100⟩ }
    [.node { ptr := 2, id := "low", rect := ⟨0, 0, 50, 50⟩, parent := some 1 } [],
     .node { ptr := 3, id := "high", rect := ⟨10, 10, 50, 50⟩, parent := some 1 } []]).1
    [.node { ptr := 2, id := "low", rect := ⟨0, 0, 50, 50⟩, parent := some 1 } []]
    (.node { ptr := 3, id := "high", rect := ⟨10, 10, 50, 50⟩, parent := some 1 } []) [] 3 rfl
    (by decide!) (by simp)

/-! ## The render claims -/

/-- C15 (code defect): with a visible widget (1) and an invisible widget (2)
at top level, the first `render` clears `needsRedraw` and the dirty flag of 1
but skips 2, whose dirty flag stays set; the second `render`, with no change in
between, therefore does not return early: it clears the root surface, blits
widget 1 and uploads again. -/
theorem render_twice_redraws_with_hidden :
    (UIContext.render exHidden).1.needsRedraw = false
    ∧ (fieldsIn (UIContext.render exHidden).1.widgets).map (fun s => (s.ptr, s.visible, s.dirty))
        = [(1, true, false), (2, false, true)]
    ∧ (UIContext.render (UIContext.render exHidden).1).2
        = [Draw.clear, Draw.blit 1 none, Draw.present] := by
  decide!

/-- C16: resize forces a full repaint. After `resize(w,h)` the top-level nodes
are the same objects, every one of them is dirty whatever its flag was,
`needsRedraw` is set, and the next `render` calls `onDraw` of every visible
top-level node. -/
theorem resize_forces_repaint (ctx : UIContext) (w h : Int) :
    (UIContext.resize ctx w h).widgets.map (fun c => c.self.ptr)
        = ctx.widgets.map (fun c => c.self.ptr)
    ∧ (∀ c ∈ (UIContext.resize ctx w h).widgets, c.self.dirty = true)
    ∧ (UIContext.resize ctx w h).needsRedraw = true
    ∧ ∀ c ∈ (UIContext.resize ctx w h).widgets, c.self.visible = true →
        Draw.draw c.self.ptr ∈ (UIContext.render (UIContext.resize ctx w h)).2 := by
  obtain ⟨h1, h2⟩ := resize_top ctx w h
  refine ⟨h1, h2, rfl, ?_⟩
  intro c hc hv
  have hd := renderList_draws none _ c hc hv (h2 c hc)
  have hn : (UIContext.resize ctx w h).needsRedraw = true := rfl
  unfold UIContext.render
  simp only [hn, Bool.not_true, Bool.false_and, Bool.false_eq_true, if_false, List.mem_append,
    List.mem_cons, List.mem_singleton]
  exact Or.inl (Or.inr hd)

/-- C17: `setRect`. With the rectangle the object has, in all four fields,
`setRect` changes nothing at all; with a rectangle that differs in some field
the object has the new rectangle, no retained surface, and is dirty. -/
theorem setRect_spec (ws : List UIComponent) (p : Nat) (s : Fields) (r : Rect)
    (hs : fieldsAt ws p = some s) :
    (r = s.rect → setRect ws p r = ws)
    ∧ (r ≠ s.rect → ∃ t, fieldsAt (setRect ws p r) p = some t
        ∧ t.rect = r ∧ t.surf = none ∧ t.dirty = true) := by
  have hp := fieldsAt_ptr hs
  refine ⟨?_, ?_⟩
  · intro h
    unfold setRect
    simp [hs, h]
  · intro h
    have hne : r.x ≠ s.rect.x ∨ r.y ≠ s.rect.y ∨ r.w ≠ s.rect.w ∨ r.h ≠ s.rect.h := by
      by_contra hc
      simp only [not_or, not_not] at hc
      exact h ((rect_eq_iff r s.rect).mpr ⟨hc.1, hc.2.1, hc.2.2.1, hc.2.2.2⟩)
    unfold setRect
    simp only [hs, hne, if_true]
    rw [fieldsAt_markDirty, fieldsAt_updIn, hs]
    refine ⟨_, rfl, ?_, ?_, ?_⟩
    · rcases dirtyF_eq (updIn p (fun s => { s with rect := r, surf := none }) ws) p
        (updF p (fun s => { s with rect := r, surf := none }) s) with e | e <;> rw [e] <;>
        simp [updF, hp, setDirty]
    · rcases dirtyF_eq (updIn p (fun s => { s with rect := r, surf := none }) ws) p
        (updF p (fun s => { s with rect := r, surf := none }) s) with e | e <;> rw [e] <;>
        simp [updF, hp, setDirty]
    · exact dirtyF_self_dirty _ (by simp [hp])

theorem setRect_spec_witness :
    (setRect exTabCtx.widgets 1 ⟨0, 0, 10, 10⟩ = exTabCtx.widgets)
    ∧ ∃ t, fieldsAt (setRect exTabCtx.widgets 1 ⟨0, 0, 10, 11⟩) 1 = some t
        ∧ t.rect = ⟨0, 0, 10, 11⟩ ∧ t.surf = none ∧ t.dirty = true :=
  ⟨(setRect_spec exTabCtx.widgets 1 (fieldsOr exFieldsB exTabCtx.widgets 1) ⟨0, 0, 10, 10⟩
      (by decide!)).1 (by decide!),
   (setRect_spec exTabCtx.widgets 1 (fieldsOr exFieldsB exTabCtx.widgets 1) ⟨0, 0, 10, 11⟩
      (by decide!)).2 (by decide!)⟩

/-- C18 (counterexample): for the rectangle (0,0,0,5) the surface `ensureSurf`
allocates is 1 wide, not 0 wide as the rectangle, and a second `ensureSurf` on
the clean object, with the same rectangle, allocates again and sets the dirty
flag. -/
theorem ensureSurf_degenerate_reallocates :
    (ensureSurf exFlat).1.rect.w = 0
    ∧ (ensureSurf exFlat).1.surf = some (1, 5)
    ∧ (ensureSurf { (ensureSurf exFlat).1 with dirty := false }).1.dirty = true
    ∧ (ensureSurf { (ensureSurf exFlat).1 with dirty := false }).2 = [Draw.alloc 1 1 5] := by
  decide

/-- C18, amended: for a rectangle of width and height at least 1, the surface
after `ensureSurf` (and after `render`) has the width and the height of the
rectangle, and a second `ensureSurf` with the same rectangle allocates nothing
and leaves the dirty flag alone. -/
theorem ensureSurf_matches_rect (s : Fields) (hw : 1 ≤ s.rect.w) (hh : 1 ≤ s.rect.h) :
    (ensureSurf s).1.surf = some (s.rect.w, s.rect.h)
    ∧ (ensureSurf s).1.rect = s.rect
    ∧ (∀ d : Bool, ensureSurf { (ensureSurf s).1 with dirty := d }
        = ({ (ensureSurf s).1 with dirty := d }, []))
    ∧ ∀ ch : List UIComponent, (render (.node s ch)).1.self.surf = some (s.rect.w, s.rect.h) := by
  have h1 : (ensureSurf s).1.surf = some (s.rect.w, s.rect.h) := by
    unfold ensureSurf
    split_ifs with hst
    · simp [max_eq_right hw, max_eq_right hh]
    · unfold surfStale at hst
      split at hst
      · simp at hst
      · next a b heq =>
        simp only [Bool.or_eq_true, decide_eq_true_eq, not_or, not_not] at hst
        rw [heq, hst.1, hst.2]
  have h2 : (ensureSurf s).1.rect = s.rect := by
    unfold ensureSurf
    split_ifs <;> rfl
  refine ⟨h1, h2, ?_, ?_⟩
  · intro d
    have hns : surfStale { (ensureSurf s).1 with dirty := d } = false := by
      unfold surfStale
      simp only [h1, h2]
      simp
    exact ensureSurf_of_fresh _ hns
  · intro ch
    simp only [render]
    split_ifs <;> exact h1

theorem ensureSurf_matches_rect_witness :
    (ensureSurf exFieldsB).1.surf = some (10, 10)
    ∧ (ensureSurf { (ensureSurf exFieldsB).1 with dirty := false }).2 = [] :=
  ⟨(ensureSurf_matches_rect exFieldsB (by decide) (by decide)).1,
   congrArg Prod.snd ((ensureSurf_matches_rect exFieldsB (by decide) (by decide)).2.2.1 false)⟩

/-! ## The tree claims -/

/-- C19: `addChild` keeps the layer order and is stable. When the children
`ch` of the node are in layer order, the children after `addChild` are, up to
dirty flags, `pre`, the new child, `post`, where `ch = pre ++ post`, every
child in `pre` has a layer not above that of the new child and every child in
`post` a layer above it; they are in layer order, the new child has the node
as its parent and the node is dirty. -/
theorem addChild_sorted_stable (ctx : UIContext) (this : Nat) (c : UIComponent) (s : Fields)
    (ch : List UIComponent) (hn : getNodeIn this ctx.widgets = some (.node s ch))
    (hs : layerSorted ch) :
    ∃ s1 ch1 pre post,
      getNodeIn this (UIContext.addChild ctx this c).widgets = some (.node s1 ch1)
      ∧ s1.dirty = true
      ∧ ch = pre ++ post
      ∧ ch1.map cleanSelf = (pre ++ setParent this c :: post).map cleanSelf
      ∧ (∀ a ∈ pre, a.self.layer ≤ c.self.layer)
      ∧ (∀ a ∈ post, c.self.layer < a.self.layer)
      ∧ layerSorted ch1
      ∧ (setParent this c).self.parent = some this := by
  have hlayer : (setParent this c).self.layer = c.self.layer := by
    cases c with
    | node s0 ch0 => rfl
  have hparent : (setParent this c).self.parent = some this := by
    cases c with
    | node s0 ch0 => rfl
  have h1 := getNodeIn_insertChildIn this (setParent this c) s ch ctx.widgets hn
  rw [stableSort_snoc, stableSort_of_sorted ch hs] at h1
  obtain ⟨pre, post, e1, e2, e3, e4⟩ := insertByLayer_split (setParent this c) ch
  rw [e2] at h1
  obtain ⟨s1, ch1, g1, g2, g3⟩ := getNodeIn_markDirty this h1
  have hsp : s.ptr = this := by
    have : fieldsAt ctx.widgets this = some s := by
      unfold fieldsAt
      rw [hn]
      rfl
    exact fieldsAt_ptr this
  have hsorted : layerSorted (pre ++ setParent this c :: post) := by
    rw [← e2]
    exact insertByLayer_sorted _ hs
  refine ⟨s1, ch1, pre, post, g1, ?_, e1, g3, ?_, ?_, layerSorted_of_clean g3 hsorted, hparent⟩
  · rw [g2]
    exact dirtyF_self_dirty _ hsp
  · intro a ha
    rw [← hlayer]
    exact e3 a ha
  · intro a ha
    rw [← hlayer]
    exact e4 hs a ha

theorem addChild_sorted_stable_witness :
    ∃ s1 ch1 pre post,
      getNodeIn 1 (UIContext.addChild exLayered 1 exNewKid).widgets = some (.node s1 ch1)
      ∧ s1.dirty = true
      ∧ exKids = pre ++ post
      ∧ ch1.map cleanSelf = (pre ++ setParent 1 exNewKid :: post).map cleanSelf
      ∧ (∀ a ∈ pre, a.self.layer ≤ exNewKid.self.layer)
      ∧ (∀ a ∈ post, exNewKid.self.layer < a.self.layer)
      ∧ layerSorted ch1
      ∧ (setParent 1 exNewKid).self.parent = some 1 :=
  addChild_sorted_stable exLayered 1 exNewKid exPanel exKids rfl (by
    unfold layerSorted exKids
    simp [UIComponent.self])

/-- C20: the registry covers the whole tree. In every context built by `add`,
`addChild` (on a parent of the context, or on a parent that is attached only
later) and `remove`, where the arriving objects are new and the non-empty ids
pairwise distinct, `findById(N.id)` returns N for every object N of the tree,
at any depth, whose id is not empty. -/
theorem registry_covers_tree (ctx : UIContext) (h : Built ctx) :
    ∀ s ∈ fieldsIn ctx.widgets, s.id ≠ "" → UIContext.findById ctx s.id = some s.ptr := by
  intro s hs hne
  have hk : (s.id, s.ptr) ∈ keysIn ctx.widgets :=
    List.mem_map_of_mem (fun s => (s.id, s.ptr)) hs
  exact (built_covers h).2.2 (s.id, s.ptr) hk hne

theorem registry_covers_tree_witness : UIContext.findById exBuilt "c" = some 2 :=
  registry_covers_tree exBuilt
    (Built.remove _ "w"
      (Built.add _ _
        (Built.addChildDetached _ [.node { ptr := 1, id := "p" } []] 1 (.node { ptr := 2, id := "c" } [])
          (Built.add _ _ Built.empty (by unfold distinctWith; decide!))
          (by decide!))
        (by unfold distinctWith; decide!)))
    { ptr := 2, id := "c", parent := some 1 } (by decide!) (by decide)

/-! ## Tree search, visibility and enabledness -/

mutual
theorem findById_eq (id : String) :
    ∀ c : UIComponent, UIComponent.findById id c
      = ((fieldsOf c).find? (fun s => decide (s.id = id))).map (fun s => s.ptr)
  | .node s ch => by
    simp only [UIComponent.findById, fieldsOf, List.find?_cons]
    by_cases h : s.id = id
    · simp [h]
    · simp only [h, if_false, decide_False]
      exact findByIdIn_eq id ch
theorem findByIdIn_eq (id : String) :
    ∀ l : List UIComponent, findByIdIn id l
      = ((fieldsIn l).find? (fun s => decide (s.id = id))).map (fun s => s.ptr)
  | [] => rfl
  | c :: rest => by
    simp only [findByIdIn, fieldsIn, List.find?_append, findById_eq id c, findByIdIn_eq id rest]
    cases (fieldsOf c).find? (fun s => decide (s.id = id)) <;> rfl
end

theorem dirtyF_enabled (ws : List UIComponent) (this : Nat) (s : Fields) :
    (dirtyF ws this s).enabled = s.enabled := by
  rcases dirtyF_eq ws this s with h | h <;> rw [h] <;> rfl

/-- Reading the object `p` after `setState(st)` on it: only the interaction
state and the dirty flag can differ. -/
theorem setState_fields {ws : List UIComponent} {p : Nat} {s : Fields} (st : WidgetState)
    (hs : fieldsAt ws p = some s) :
    ∃ t, fieldsAt (setState ws p st) p = some t ∧ t.wstate = st
      ∧ t.enabled = s.enabled ∧ t.visible = s.visible
      ∧ (s.wstate ≠ st → t.dirty = true) ∧ (s.wstate = st → t = s) := by
  have hp := fieldsAt_ptr hs
  unfold setState
  rw [hs]
  simp only
  by_cases hw : s.wstate = st
  · rw [if_neg (not_not.mpr hw)]
    exact ⟨s, hs, hw, rfl, rfl, fun h => absurd hw h, fun _ => rfl⟩
  · rw [if_pos hw, fieldsAt_markDirty, fieldsAt_updIn, hs]
    refine ⟨_, rfl, ?_, ?_, ?_, ?_, fun h => absurd h hw⟩
    · rw [dirtyF_wstate]
      simp [updF, hp]
    · rw [dirtyF_enabled]
      simp [updF, hp]
    · rw [dirtyF_visible]
      simp [updF, hp]
    · intro _
      exact dirtyF_self_dirty _ (by simp [hp])

/-! ## The registry has no stale entries -/

theorem mem_regKey {r : List (String × Nat)} {kp kv : String × Nat} (h : kv ∈ regKey r kp) :
    kv ∈ r ∨ (kv = kp ∧ kp.1 ≠ "") := by
  unfold regKey at h
  split_ifs at h with hne
  · unfold regSet at h
    rcases List.mem_cons.mp h with h | h
    · exact Or.inr ⟨h, hne⟩
    · exact Or.inl (List.mem_filter.mp h).1
  · exact Or.inl h

theorem mem_eraseKey {r : List (String × Nat)} {kp kv : String × Nat} (h : kv ∈ eraseKey r kp) :
    kv ∈ r ∧ (kp.1 ≠ "" → kv.1 ≠ kp.1) := by
  unfold eraseKey at h
  split_ifs at h with hne
  · unfold regErase at h
    have := List.mem_filter.mp h
    exact ⟨this.1, fun _ => by simpa using this.2⟩
  · exact ⟨h, fun e => absurd e hne⟩

theorem mem_foldl_regKey {kv : String × Nat} :
    ∀ (K r : List (String × Nat)), kv ∈ K.foldl regKey r → kv ∈ r ∨ (kv ∈ K ∧ kv.1 ≠ "")
  | [], _, h => Or.inl h
  | a :: rest, r, h => by
    simp only [List.foldl_cons] at h
    rcases mem_foldl_regKey rest _ h with h1 | h1
    · rcases mem_regKey h1 with h2 | h2
      · exact Or.inl h2
      · exact Or.inr ⟨by rw [h2.1]; exact List.mem_cons_self _ _, by rw [h2.1]; exact h2.2⟩
    · exact Or.inr ⟨List.mem_cons_of_mem _ h1.1, h1.2⟩

theorem mem_foldl_eraseKey {kv : String × Nat} :
    ∀ (K r : List (String × Nat)), kv ∈ K.foldl eraseKey r →
      kv ∈ r ∧ ∀ kp ∈ K, kp.1 ≠ "" → kv.1 ≠ kp.1
  | [], _, h => ⟨h, fun _ hkp => by cases hkp⟩
  | a :: rest, r, h => by
    simp only [List.foldl_cons] at h
    obtain ⟨h1, h2⟩ := mem_foldl_eraseKey rest _ h
    obtain ⟨h3, h4⟩ := mem_eraseKey h1
    refine ⟨h3, ?_⟩
    intro kp hkp hne
    rcases List.mem_cons.mp hkp with rfl | hkp
    · exact h4 hne
    · exact h2 kp hkp hne

theorem regFind_some_mem {r : List (String × Nat)} {k : String} {v : Nat}
    (h : regFind r k = some v) : (k, v) ∈ r := by
  unfold regFind at h
  obtain ⟨kv, hkv, hv⟩ := Option.map_eq_some'.mp h
  have h1 := List.find?_some hkv
  have h2 := List.mem_of_find?_eq_some hkv
  simp only [decide_eq_true_eq] at h1
  have : kv = (k, v) := by
    cases kv
    simp only [Prod.mk.injEq]
    exact ⟨h1, hv⟩
  rw [← this]
  exact h2

/-- After `unregisterWidget` no key of the subtree is registered. -/
theorem regFind_foldl_eraseKey_mem {K : List (String × Nat)} {kp : String × Nat}
    (r : List (String × Nat)) (hkp : kp ∈ K) (hne : kp.1 ≠ "") :
    regFind (K.foldl eraseKey r) kp.1 = none := by
  cases h : regFind (K.foldl eraseKey r) kp.1 with
  | none => rfl
  | some v =>
    have hm := regFind_some_mem h
    exact absurd rfl ((mem_foldl_eraseKey K r hm).2 kp hkp hne)

theorem exact_perm {K K1 r : List (String × Nat)} (h : K.Perm K1) (he : Exact K r) : Exact K1 r :=
  ⟨covers_perm h he.1, fun kv hkv => ⟨h.mem_iff.mp (he.2 kv hkv).1, (he.2 kv hkv).2⟩⟩

theorem exact_extend {K Kc r : List (String × Nat)} (he : Exact K r)
    (hp : ((K ++ Kc).map (fun kp => kp.2)).Nodup) (hi : (idsOf (K ++ Kc)).Nodup) :
    Exact (K ++ Kc) (Kc.foldl regKey r) := by
  refine ⟨covers_extend he.1 hp hi, ?_⟩
  intro kv hkv
  rcases mem_foldl_regKey Kc r hkv with h | h
  · exact ⟨List.mem_append_left _ (he.2 kv h).1, (he.2 kv h).2⟩
  · exact ⟨List.mem_append_right _ h.1, h.2⟩

theorem exact_remove {K1 Kc K2 r : List (String × Nat)} (he : Exact (K1 ++ Kc ++ K2) r) :
    Exact (K1 ++ K2) (Kc.foldl eraseKey r) := by
  refine ⟨covers_remove he.1, ?_⟩
  intro kv hkv
  obtain ⟨h1, h2⟩ := mem_foldl_eraseKey Kc r hkv
  obtain ⟨h3, h4⟩ := he.2 kv h1
  refine ⟨?_, h4⟩
  rcases List.mem_append.mp h3 with h | h
  · rcases List.mem_append.mp h with h | h
    · exact List.mem_append_left _ h
    · exact absurd rfl (h2 kv h h4)
  · exact List.mem_append_right _ h

/-- The registry of a context built from attached parts agrees with its
tree. -/
theorem attached_exact {ctx : UIContext} (h : Attached ctx) :
    Exact (keysIn ctx.widgets) ctx.registry := by
  induction h with
  | empty =>
    refine ⟨⟨?_, ?_, ?_⟩, ?_⟩
    · show ([] : List Nat).Nodup
      exact List.nodup_nil
    · show ([] : List String).Nodup
      exact List.nodup_nil
    · intro kp hkp
      cases hkp
    · intro kv hkv
      cases hkv
  | add ctx c _ hd ih =>
    obtain ⟨h1, h2⟩ := distinctWith_keys hd
    have hperm : (keysIn (stableSort (ctx.widgets ++ [c]))).Perm (keysIn ctx.widgets ++ keysIn [c]) := by
      rw [← keysIn_append]
      exact keysIn_perm (stableSort_perm _)
    have hreg : (UIContext.add ctx c).registry = (keysIn [c]).foldl regKey ctx.registry :=
      registerWidget_eq c ctx.registry
    rw [hreg]
    exact exact_perm hperm.symm (exact_extend ih h1 h2)
  | addChild ctx this c _ hin hd ih =>
    obtain ⟨h1, h2⟩ := distinctWith_keys hd
    have hnd : (ptrsIn ctx.widgets).Nodup := by
      rw [ptrsIn_keys]
      exact ih.1.1
    have hreg : (UIContext.addChild ctx this c).registry = (keysIn [c]).foldl regKey ctx.registry := by
      show registerWidget ctx.registry (setParent this c) = _
      rw [registerWidget_eq, keysIn_setParent]
    have hw : (UIContext.addChild ctx this c).widgets
        = markDirty (insertChildIn this (setParent this c) ctx.widgets) this := rfl
    have hperm := keysIn_insertChildIn this (setParent this c) ctx.widgets hnd
    rw [keysIn_setParent, if_pos hin] at hperm
    rw [hreg, hw, keysIn_markDirty]
    exact exact_perm hperm.symm (exact_extend ih h1 h2)
  | remove ctx id _ ih =>
    unfold UIContext.remove
    split
    · exact ih
    · next c rest hr =>
      obtain ⟨pre, post, hws, hrest⟩ := removeFirst_split hr
      simp only
      rw [hrest, unregisterWidget_eq, keysIn_append]
      apply exact_remove
      rw [hws, keysIn_append, keysIn_cons c post, ← List.append_assoc] at ih
      exact ih

/-! ## Pointer motion -/

/-- The handlers of `MouseLeave`, `MouseEnter` and `MouseMove` return; they
assign interaction state, hover index and dirty flags only. -/
theorem onEvent_pointer (ctx : UIContext) (p : Nat) (s : Fields) (e : UIEvent)
    (he : e.type = EventType.MouseLeave ∨ e.type = EventType.MouseEnter
      ∨ e.type = EventType.MouseMove) :
    ∃ ws1, onEvent ctx p s e = some { ctx with widgets := ws1 }
      ∧ Frame Fields.sameFocus ctx.widgets ws1 := by
  have keep : ∃ ws1, some ctx = some { ctx with widgets := ws1 }
      ∧ Frame Fields.sameFocus ctx.widgets ws1 := ⟨ctx.widgets, rfl, frame_refl _⟩
  have st : ∀ w, ∃ ws1, some { ctx with widgets := setState ctx.widgets p w }
      = some { ctx with widgets := ws1 } ∧ Frame Fields.sameFocus ctx.widgets ws1 :=
    fun w => ⟨_, rfl, frame_setState _ _ _⟩
  unfold onEvent
  split
  · exact keep
  · unfold buttonOnEvent
    rcases he with he | he | he <;> simp only [he, reduceCtorEq, if_false, false_and, if_true] <;>
      split_ifs <;> first | exact keep | exact st _
  · unfold textInputOnEvent
    rcases he with he | he | he <;> simp only [he, reduceCtorEq, if_false, false_and, if_true] <;>
      split_ifs <;> first | exact keep | exact st _
  · unfold checkboxOnEvent
    rcases he with he | he | he <;>
      simp only [he, reduceCtorEq, if_false, false_and, if_true, or_self] <;>
      split_ifs <;> first | exact keep | exact st _
  · unfold radioOnEvent
    rcases he with he | he | he <;>
      simp only [he, reduceCtorEq, if_false, false_and, if_true, or_self] <;>
      split_ifs <;> first | exact keep | exact st _
  · unfold dropdownOnEvent
    rcases he with he | he | he <;> simp only [he, reduceCtorEq, if_false, false_and, if_true] <;>
      first
        | exact keep
        | exact ⟨_, rfl, frame_upd_mark p (sameFocus_setHoveredIdx _) _⟩
  · unfold menuBarOnEvent
    rcases he with he | he | he <;> simp only [he, reduceCtorEq, if_false, false_and] <;>
      exact keep

theorem dispatched_frame {ws ws1 : List UIComponent} (h : Frame Fields.sameCore ws ws1)
    (w : Option Nat) (e : UIEvent) : dispatched ws1 w e = dispatched ws w e := by
  cases w with
  | none => rfl
  | some p =>
    unfold dispatched
    simp only
    cases hs : fieldsAt ws p with
    | none => rw [frame_lookup_none sameCore_ptr h hs]
    | some s =>
      obtain ⟨t, ht, hr⟩ := frame_lookup sameCore_ptr h hs
      rw [ht]
      simp only [hr.2.2.2.2.2.1]

theorem liveIn_frame {ws ws1 : List UIComponent} (h : Frame Fields.sameCore ws ws1)
    (w : Option Nat) : liveIn ws1 w = liveIn ws w := by
  cases w with
  | none => rfl
  | some p =>
    unfold liveIn
    simp only
    cases hs : fieldsAt ws p with
    | none => rw [frame_lookup_none sameCore_ptr h hs]
    | some s =>
      obtain ⟨t, ht, _⟩ := frame_lookup sameCore_ptr h hs
      rw [ht]
      rfl

/-- The lambda `dispatch` on a pointer event and a target that is null or
live: it returns, and records the handler invocation if there is one. -/
theorem dispatch_pointer (ctx : UIContext) (w : Option Nat) (e : UIEvent)
    (he : e.type = EventType.MouseLeave ∨ e.type = EventType.MouseEnter
      ∨ e.type = EventType.MouseMove)
    (hl : liveIn ctx.widgets w = true) :
    ∃ ws1 tr, dispatch ctx w e = some { ctx with widgets := ws1, trace := tr }
      ∧ handlerCalls tr = handlerCalls ctx.trace ++ dispatched ctx.widgets w e
      ∧ Frame Fields.sameFocus ctx.widgets ws1 := by
  cases w with
  | none => exact ⟨ctx.widgets, ctx.trace, rfl, by simp [dispatched], frame_refl _⟩
  | some p =>
    unfold liveIn at hl
    simp only at hl
    obtain ⟨s, hs⟩ := Option.isSome_iff_exists.mp hl
    unfold dispatch dispatched
    simp only [hs]
    by_cases hen : s.enabled = true
    · simp only [hen, Bool.not_true, Bool.false_eq_true, if_false, if_true]
      obtain ⟨ws1, h1, hf⟩ := onEvent_pointer { ctx with trace := ctx.trace ++ [Trace.handler p e] } p s e he
      exact ⟨ws1, ctx.trace ++ [Trace.handler p e], h1, by simp [handlerCalls_append, handlerCalls], hf⟩
    · simp only [hen, Bool.not_eq_true] at hen ⊢
      simp only [hen, Bool.not_false, if_true, Bool.false_eq_true, if_false]
      exact ⟨ctx.widgets, ctx.trace, rfl, by simp, frame_refl _⟩

/-- The hit-test returns a live object. -/
theorem hitTest_live (ctx : UIContext) (x y : Int) :
    liveIn ctx.widgets (UIContext.hitTest ctx x y) = true := by
  cases h : UIContext.hitTest ctx x y with
  | none => rfl
  | some r => exact fieldsAt_isSome_iff.mpr (hitTestList_mem x y ctx.widgets r h)

/-- In a forest of distinct objects the hit-test returns an enabled object, so
`dispatch` to it invokes its handler. -/
theorem dispatched_hit (ctx : UIContext) (x y : Int) (hnd : (ptrsIn ctx.widgets).Nodup)
    (e : UIEvent) (r : Nat) (h : UIContext.hitTest ctx x y = some r) :
    dispatched ctx.widgets (some r) e = [(r, e)] := by
  obtain ⟨p, hp, ⟨s, hlast, hsr, _⟩, hall⟩ := hitTestList_path x y ctx.widgets r h
  have hsp : s ∈ p := List.mem_of_getLast?_eq_some hlast
  have hs : s ∈ fieldsIn ctx.widgets := pathsIn_mem ctx.widgets p hp s hsp
  have hat := fieldsAt_of_mem_nodup hnd hs
  rw [hsr] at hat
  unfold dispatched
  simp only [hat, (hall s hsp).2, if_true]

/-- The second half of the `SDL_MOUSEMOTION` case: one `dispatch` of
`MouseMove`, to the pressed widget if there is one and to `hit` otherwise. -/
theorem move_stage (c : UIContext) (hit pw : Option Nat) (e : UIEvent)
    (he : e.type = EventType.MouseMove)
    (hh : liveIn c.widgets hit = true) (hp : liveIn c.widgets pw = true) :
    ∃ ws1 tr, (match pw with
        | some p => dispatch c (some p) e
        | none => dispatch c hit e) = some { c with widgets := ws1, trace := tr }
      ∧ handlerCalls tr = handlerCalls c.trace
          ++ dispatched c.widgets (Option.orElse pw (fun _ => hit)) e
      ∧ Frame Fields.sameFocus c.widgets ws1 := by
  cases pw with
  | none => exact dispatch_pointer c hit e (Or.inr (Or.inr he)) hh
  | some p => exact dispatch_pointer c (some p) e (Or.inr (Or.inr he)) hp

/-- The `SDL_MOUSEMOTION` case, with hovered and pressed widget null or live:
it returns; `MouseLeave` and `MouseEnter` are dispatched when the hit differs
from the hovered widget, then `MouseMove`; the hovered widget is the hit. -/
theorem processMotion_spec (ctx : UIContext) (mx my : Int)
    (hh : liveIn ctx.widgets ctx.hoveredWidget = true)
    (hp : liveIn ctx.widgets ctx.pressedWidget = true) :
    ∃ ctx1, processMotion ctx mx my = some ctx1
      ∧ ctx1.hoveredWidget = UIContext.hitTest ctx mx my
      ∧ ctx1.pressedWidget = ctx.pressedWidget
      ∧ handlerCalls ctx1.trace = handlerCalls ctx.trace
          ++ (if UIContext.hitTest ctx mx my = ctx.hoveredWidget then []
              else dispatched ctx.widgets ctx.hoveredWidget
                    { type := EventType.MouseLeave, mx := mx, my := my }
                ++ dispatched ctx.widgets (UIContext.hitTest ctx mx my)
                    { type := EventType.MouseEnter, mx := mx, my := my })
          ++ dispatched ctx.widgets (Option.orElse ctx.pressedWidget (fun _ => UIContext.hitTest ctx mx my))
              { type := EventType.MouseMove, mx := mx, my := my }
      ∧ Frame Fields.sameFocus ctx.widgets ctx1.widgets := by
  have hhit := hitTest_live ctx mx my
  have stage1 : ∃ ws2 tr2, (if UIContext.hitTest ctx mx my ≠ ctx.hoveredWidget then
        match dispatch ctx ctx.hoveredWidget { type := EventType.MouseLeave, mx := mx, my := my } with
        | none => none
        | some ctx1 =>
          dispatch { ctx1 with hoveredWidget := UIContext.hitTest ctx mx my } (UIContext.hitTest ctx mx my)
            { type := EventType.MouseEnter, mx := mx, my := my }
      else some ctx)
        = some { ctx with widgets := ws2, trace := tr2, hoveredWidget := UIContext.hitTest ctx mx my }
      ∧ handlerCalls tr2 = handlerCalls ctx.trace
          ++ (if UIContext.hitTest ctx mx my = ctx.hoveredWidget then []
              else dispatched ctx.widgets ctx.hoveredWidget
                    { type := EventType.MouseLeave, mx := mx, my := my }
                ++ dispatched ctx.widgets (UIContext.hitTest ctx mx my)
                    { type := EventType.MouseEnter, mx := mx, my := my })
      ∧ Frame Fields.sameFocus ctx.widgets ws2 := by
    by_cases heq : UIContext.hitTest ctx mx my = ctx.hoveredWidget
    · rw [if_neg (not_not.mpr heq), if_pos heq]
      refine ⟨ctx.widgets, ctx.trace, ?_, by simp, frame_refl _⟩
      rw [heq]
    · rw [if_pos heq, if_neg heq]
      obtain ⟨wa, ta, ha, hca, hfa⟩ := dispatch_pointer ctx ctx.hoveredWidget
        { type := EventType.MouseLeave, mx := mx, my := my } (Or.inl rfl) hh
      rw [ha]
      simp only
      have hl2 : liveIn wa (UIContext.hitTest ctx mx my) = true := by
        rw [liveIn_frame (focusFrame_core hfa)]
        exact hhit
      obtain ⟨wb, tb, hb, hcb, hfb⟩ := dispatch_pointer
        { ctx with widgets := wa, trace := ta, hoveredWidget := UIContext.hitTest ctx mx my }
        (UIContext.hitTest ctx mx my)
        { type := EventType.MouseEnter, mx := mx, my := my } (Or.inr (Or.inl rfl)) hl2
      refine ⟨wb, tb, hb, ?_, frame_trans hfa hfb⟩
      rw [hcb]
      simp only
      rw [hca, dispatched_frame (focusFrame_core hfa), List.append_assoc]
  obtain ⟨ws2, tr2, h2, hc2, hf2⟩ := stage1
  have hl_hit : liveIn ws2 (UIContext.hitTest ctx mx my) = true := by
    rw [liveIn_frame (focusFrame_core hf2)]
    exact hhit
  have hl_p : liveIn ws2 ctx.pressedWidget = true := by
    rw [liveIn_frame (focusFrame_core hf2)]
    exact hp
  obtain ⟨ws3, tr3, h3, hc3, hf3⟩ := move_stage
    { ctx with widgets := ws2, trace := tr2, hoveredWidget := UIContext.hitTest ctx mx my }
    (UIContext.hitTest ctx mx my) ctx.pressedWidget
    { type := EventType.MouseMove, mx := mx, my := my } rfl hl_hit hl_p
  refine ⟨{ ctx with widgets := ws3, trace := tr3, hoveredWidget := UIContext.hitTest ctx mx my },
    ?_, rfl, rfl, ?_, frame_trans hf2 hf3⟩
  · unfold processMotion
    simp only
    split
    · next hnone =>
      have e := hnone.symm.trans h2
      cases e
    · next c2 hsome =>
      have e := hsome.symm.trans h2
      cases e
      exact h3
  · show handlerCalls tr3 = _
    rw [hc3]
    simp only
    rw [hc2, dispatched_frame (focusFrame_core hf2)]

/-! ## The registry holds no empty key -/

theorem regFind_none_of_noKey {r : List (String × Nat)} {k : String}
    (h : ∀ kv ∈ r, kv.1 ≠ k) : regFind r k = none := by
  cases hf : regFind r k with
  | none => rfl
  | some v => exact absurd rfl (h (k, v) (regFind_some_mem hf))

theorem noEmpty_register {r : List (String × Nat)} (c : UIComponent)
    (h : ∀ kv ∈ r, kv.1 ≠ "") : ∀ kv ∈ registerWidget r c, kv.1 ≠ "" := by
  intro kv hkv
  rw [registerWidget_eq] at hkv
  rcases mem_foldl_regKey _ _ hkv with h1 | h1
  · exact h kv h1
  · exact h1.2

theorem noEmpty_unregister {r : List (String × Nat)} (c : UIComponent)
    (h : ∀ kv ∈ r, kv.1 ≠ "") : ∀ kv ∈ unregisterWidget r c, kv.1 ≠ "" := by
  intro kv hkv
  rw [unregisterWidget_eq] at hkv
  exact h kv (mem_foldl_eraseKey _ _ hkv).1

/-- No registration stores the empty id. -/
theorem built_noEmpty {ctx : UIContext} (h : Built ctx) : ∀ kv ∈ ctx.registry, kv.1 ≠ "" := by
  induction h with
  | empty =>
    intro kv hkv
    cases hkv
  | add ctx c _ _ ih => exact noEmpty_register c ih
  | addChild ctx this c _ _ ih => exact noEmpty_register (setParent this c) ih
  | addChildDetached ctx tree this c _ _ ih => exact noEmpty_register (setParent this c) ih
  | remove ctx id _ ih =>
    unfold UIContext.remove
    split
    · exact ih
    · exact noEmpty_unregister _ ih

/-- After `unregisterWidget` on `c`, no id of the subtree of `c` is found in a
registry without the empty key. -/
theorem regFind_unregister {r : List (String × Nat)} (c : UIComponent)
    (h : ∀ kv ∈ r, kv.1 ≠ "") {s : Fields} (hs : s ∈ fieldsOf c) :
    regFind (unregisterWidget r c) s.id = none := by
  by_cases hne : s.id = ""
  · rw [hne]
    exact regFind_none_of_noKey (noEmpty_unregister c h)
  · rw [unregisterWidget_eq]
    have hk : (s.id, s.ptr) ∈ keysIn [c] := by
      unfold keysIn
      rw [fieldsIn_singleton]
      exact List.mem_map_of_mem (fun s => (s.id, s.ptr)) hs
    exact @regFind_foldl_eraseKey_mem _ (s.id, s.ptr) r hk hne

/-- In a context built from attached parts every registry entry is the id and
the address of an object of the tree. -/
theorem attached_entry {ctx : UIContext} (h : Attached ctx) {k : String} {v : Nat}
    (hf : UIContext.findById ctx k = some v) :
    ∃ s ∈ fieldsIn ctx.widgets, s.id = k ∧ s.ptr = v := by
  have hm := ((attached_exact h).2 (k, v) (regFind_some_mem hf)).1
  unfold keysIn at hm
  obtain ⟨s, hs, he⟩ := List.mem_map.mp hm
  simp only [Prod.mk.injEq] at he
  exact ⟨s, hs, he.1, he.2⟩

theorem dispatched_mem {ws : List UIComponent} {w : Option Nat} {e : UIEvent} {c : Nat × UIEvent}
    (h : c ∈ dispatched ws w e) : c.2 = e ∧ w = some c.1 := by
  unfold dispatched at h
  split at h
  · cases h
  · split at h
    · split_ifs at h
      · rw [List.mem_singleton] at h
        rw [h]
        exact ⟨rfl, rfl⟩
      · cases h
    · cases h

theorem dispatched_enabled {ws : List UIComponent} {p : Nat} {s : Fields} (e : UIEvent)
    (hs : fieldsAt ws p = some s) (hen : s.enabled = true) :
    dispatched ws (some p) e = [(p, e)] := by
  unfold dispatched
  simp only [hs, hen, if_true]

/-! ## Reading the class data of an object after an assignment -/

theorem dirtyF_kind (ws : List UIComponent) (this : Nat) (s : Fields) :
    (dirtyF ws this s).kind = s.kind := by
  rcases dirtyF_eq ws this s with h | h <;> rw [h] <;> rfl

theorem dirtyF_rect (ws : List UIComponent) (this : Nat) (s : Fields) :
    (dirtyF ws this s).rect = s.rect := by
  rcases dirtyF_eq ws this s with h | h <;> rw [h] <;> rfl

theorem updF_kind_self (p : Nat) (f : Fields → Fields) {s : Fields} (h : s.ptr = p) :
    (updF p f s).kind = (f s).kind := by
  unfold updF
  rw [if_pos h]

theorem updF_other (p : Nat) (f : Fields → Fields) {s : Fields} (h : s.ptr ≠ p) :
    updF p f s = s := by
  unfold updF
  rw [if_neg h]

/-- Reading `p` after an assignment `f` to `p` followed by `markDirty`. -/
theorem lookup_upd_mark {ws : List UIComponent} {p : Nat} {s : Fields} (f : Fields → Fields)
    (hs : fieldsAt ws p = some s) :
    ∃ t, fieldsAt (markDirty (updIn p f ws) p) p = some t ∧ t.kind = (f s).kind := by
  rw [fieldsAt_markDirty, fieldsAt_updIn, hs]
  exact ⟨_, rfl, by rw [dirtyF_kind, updF_kind_self p f (fieldsAt_ptr hs)]⟩

/-- Reading `p` after an assignment `f` to `p`. -/
theorem lookup_upd {ws : List UIComponent} {p : Nat} {s : Fields} (f : Fields → Fields)
    (hs : fieldsAt ws p = some s) :
    ∃ t, fieldsAt (updIn p f ws) p = some t ∧ t.kind = (f s).kind := by
  rw [fieldsAt_updIn, hs]
  exact ⟨_, rfl, updF_kind_self p f (fieldsAt_ptr hs)⟩

/-- Reading an object after `setState` on `p`: the class data are the same. -/
theorem lookup_setState {ws : List UIComponent} {p q : Nat} {s : Fields} (w : WidgetState)
    (hs : fieldsAt ws q = some s) :
    ∃ t, fieldsAt (setState ws p w) q = some t ∧ t.kind = s.kind := by
  unfold setState
  split
  · split_ifs
    · rw [fieldsAt_markDirty, fieldsAt_updIn, hs]
      refine ⟨_, rfl, ?_⟩
      rw [dirtyF_kind]
      unfold updF
      split_ifs <;> rfl
    · exact ⟨s, hs, rfl⟩
  · exact ⟨s, hs, rfl⟩

/-! ## The text input keeps its cursor inside the text -/

theorem str_length (t : String) : t.length = t.data.length := by
  cases t
  rfl

theorem stringErase_ok (t : String) (pos len : Nat) (h : pos ≤ t.length) :
    ∃ t1, stringErase t pos len = some t1 ∧ t1.length = pos + (t.length - (pos + len)) := by
  unfold stringErase
  rw [if_neg (Nat.not_lt.mpr h)]
  refine ⟨_, rfl, ?_⟩
  rw [str_length] at h
  simp only [str_length, List.length_append, List.length_take, List.length_drop]
  omega

theorem stringInsert_ok {t : String} {pos : Nat} (ins : String) (h : pos ≤ t.length) :
    ∃ t1, stringInsert t pos ins = some t1 ∧ t1.length = t.length + ins.length := by
  unfold stringInsert
  rw [if_neg (Nat.not_lt.mpr h)]
  refine ⟨_, rfl, ?_⟩
  rw [str_length] at h
  simp only [str_length, List.length_append, List.length_take, List.length_drop]
  omega

theorem inv_of_collapsed {st : TextInputState} (hc : st.cursor ≤ st.text.length)
    (hsel : st.selStart = st.selEnd) : st.inv :=
  ⟨hc, fun h => absurd hsel h⟩

theorem inv_scrollOff {st : TextInputState} (h : st.inv) (x : Int) :
    TextInputState.inv { st with scrollOff := x } := h

/-- The removal of the selection: it returns, the cursor stays inside the text
and no selection is left. -/
theorem eraseSelection_inv {st : TextInputState} (h : st.inv) :
    ∃ st1, eraseSelection st = some st1 ∧ st1.cursor ≤ st1.text.length
      ∧ st1.selStart = st1.selEnd := by
  unfold eraseSelection
  by_cases hsel : st.selStart = st.selEnd
  · rw [if_neg (not_not.mpr hsel)]
    exact ⟨st, rfl, h.1, hsel⟩
  · rw [if_pos hsel]
    have h0 := h.2 hsel
    obtain ⟨t1, ht1, _⟩ := stringErase_ok st.text (min st.selStart st.selEnd)
      (max st.selStart st.selEnd - min st.selStart st.selEnd) (by rw [h0]; exact Nat.zero_le _)
    rw [ht1]
    refine ⟨_, rfl, ?_, rfl⟩
    show min st.selStart st.selEnd ≤ t1.length
    rw [h0]
    exact Nat.zero_le _

/-- The `switch(e.key)` of the `KeyDown` branch: it returns and the state it
leaves is one of the class again. -/
theorem textKeyDown_inv {st : TextInputState} (h : st.inv) (key : Int) (mod : Nat) :
    ∃ st1 ch, textKeyDown st key mod = some (st1, ch) ∧ st1.inv := by
  unfold textKeyDown
  by_cases h1 : key = SDLK_LEFT
  · rw [if_pos h1]
    refine ⟨_, _, rfl, inv_of_collapsed ?_ rfl⟩
    have := h.1
    show (if st.cursor > 0 then st.cursor - 1 else st.cursor) ≤ st.text.length
    split_ifs <;> omega
  rw [if_neg h1]
  by_cases h2 : key = SDLK_RIGHT
  · rw [if_pos h2]
    refine ⟨_, _, rfl, inv_of_collapsed ?_ rfl⟩
    have := h.1
    show (if st.cursor < st.text.length then st.cursor + 1 else st.cursor) ≤ st.text.length
    split_ifs <;> omega
  rw [if_neg h2]
  by_cases h3 : key = SDLK_HOME
  · rw [if_pos h3]
    exact ⟨_, _, rfl, inv_of_collapsed (Nat.zero_le _) rfl⟩
  rw [if_neg h3]
  by_cases h4 : key = SDLK_END
  · rw [if_pos h4]
    exact ⟨_, _, rfl, inv_of_collapsed (Nat.le_refl _) rfl⟩
  rw [if_neg h4]
  by_cases h5 : key = SDLK_BACKSPACE
  · rw [if_pos h5]
    by_cases hsel : st.selStart ≠ st.selEnd
    · rw [if_pos hsel]
      obtain ⟨st1, hst1, hc, hs⟩ := eraseSelection_inv h
      rw [hst1]
      exact ⟨st1, true, rfl, inv_of_collapsed hc hs⟩
    · rw [if_neg hsel]
      by_cases hpos : st.cursor > 0
      · rw [if_pos hpos]
        have hc := h.1
        obtain ⟨t1, ht1, hl⟩ := stringErase_ok st.text (st.cursor - 1) 1 (by omega)
        rw [ht1]
        refine ⟨_, _, rfl, inv_of_collapsed ?_ rfl⟩
        show st.cursor - 1 ≤ t1.length
        omega
      · rw [if_neg hpos]
        exact ⟨st, true, rfl, h⟩
  rw [if_neg h5]
  by_cases h6 : key = SDLK_DELETE
  · rw [if_pos h6]
    by_cases hlt : st.cursor < st.text.length
    · rw [if_pos hlt]
      obtain ⟨t1, ht1, hl⟩ := stringErase_ok st.text st.cursor 1 h.1
      rw [ht1]
      refine ⟨_, _, rfl, ?_, h.2⟩
      show st.cursor ≤ t1.length
      omega
    · rw [if_neg hlt]
      exact ⟨st, false, rfl, h⟩
  rw [if_neg h6]
  by_cases h7 : key = SDLK_a
  · rw [if_pos h7]
    by_cases hm : mod &&& KMOD_CTRL ≠ 0
    · rw [if_pos hm]
      refine ⟨_, _, rfl, Nat.le_refl _, fun _ => ?_⟩
      exact Nat.min_eq_left (Nat.zero_le _)
    · rw [if_neg hm]
      exact ⟨st, false, rfl, h⟩
  rw [if_neg h7]
  exact ⟨st, false, rfl, h⟩

theorem placeCursor_inv {s : Fields} {st : TextInputState} (mx : Int)
    (hk : s.kind = Kind.TextInput st) :
    ∃ st1, (placeCursor mx s).kind = Kind.TextInput st1 ∧ st1.inv := by
  unfold placeCursor
  simp only [hk]
  refine ⟨_, rfl, inv_of_collapsed ?_ rfl⟩
  show (max 0 (min (st.text.length : Int) (Int.tdiv (mx - s.rect.x - 3 + st.scrollOff) 8))).toNat
    ≤ st.text.length
  omega

theorem scrollToShowCursor_inv {s : Fields} {st : TextInputState}
    (hk : s.kind = Kind.TextInput st) (h : st.inv) :
    ∃ st1, (scrollToShowCursor s).kind = Kind.TextInput st1 ∧ st1.inv := by
  unfold scrollToShowCursor
  simp only [hk]
  exact ⟨_, rfl, inv_scrollOff h _⟩

theorem setTextInput_kind {s : Fields} {st : TextInputState} (st1 : TextInputState)
    (hk : s.kind = Kind.TextInput st) : (setTextInput st1 s).kind = Kind.TextInput st1 := by
  unfold setTextInput
  simp only [hk]

theorem tag_textInput {k : Kind} {st : TextInputState} (h : k.tag = (Kind.TextInput st).tag) :
    ∃ st1, k = Kind.TextInput st1 := by
  cases k <;> first | exact ⟨_, rfl⟩ | cases h

/-- The last statements of the text branches, `scrollToShowCursor();
markDirty();`, on a context whose object `p` is a text input in a state of the
class. -/
theorem text_finish (c : UIContext) (p : Nat) {s : Fields} {st : TextInputState}
    (hs : fieldsAt c.widgets p = some s) (hk : s.kind = Kind.TextInput st) (h : st.inv) :
    ∃ s1 st1, fieldsAt (markDirty (updIn p scrollToShowCursor c.widgets) p) p = some s1
      ∧ s1.kind = Kind.TextInput st1 ∧ st1.inv := by
  obtain ⟨t, ht, htk⟩ := lookup_upd_mark scrollToShowCursor hs
  obtain ⟨st1, hst1, hi⟩ := scrollToShowCursor_inv hk h
  exact ⟨t, st1, ht, htk.trans hst1, hi⟩

/-- The assignment of the new data members, the `ValueChanged` emission when
there is one, and the last statements of the text branches. -/
theorem text_store (ctx : UIContext) (p : Nat) {s : Fields} {st : TextInputState}
    (hs : fieldsAt ctx.widgets p = some s) (hk : s.kind = Kind.TextInput st)
    (ho : s.observersOnly = true) (st2 : TextInputState) (h2 : st2.inv) (changed : Bool)
    (ev : UIEvent) :
    ∃ ctx1 s1 st1,
      (match (if changed then
          emit { ctx with widgets := updIn p (setTextInput st2) ctx.widgets } p ev
        else some { ctx with widgets := updIn p (setTextInput st2) ctx.widgets }) with
      | none => none
      | some c1 => some { c1 with widgets := markDirty (updIn p scrollToShowCursor c1.widgets) p })
        = some ctx1
      ∧ fieldsAt ctx1.widgets p = some s1 ∧ s1.kind = Kind.TextInput st1 ∧ st1.inv := by
  obtain ⟨t, ht, htk⟩ := lookup_upd (setTextInput st2) hs
  have htk2 : t.kind = Kind.TextInput st2 := htk.trans (setTextInput_kind st2 hk)
  have hfr : Frame Fields.sameCore ctx.widgets (updIn p (setTextInput st2) ctx.widgets) :=
    focusFrame_core (frame_upd p (sameFocus_setTextInput st2) ctx.widgets)
  cases changed with
  | true =>
    simp only [if_true]
    rw [emit_framed ev hfr hs ho]
    simp only
    obtain ⟨s1, st1, h1, h1k, h1i⟩ := text_finish
      { ctx with widgets := updIn p (setTextInput st2) ctx.widgets,
                 trace := ctx.trace ++ callbackEntries p ev (s.subscribers ev.type) } p ht htk2 h2
    exact ⟨_, s1, st1, rfl, h1, h1k, h1i⟩
  | false =>
    simp only [Bool.false_eq_true, if_false]
    obtain ⟨s1, st1, h1, h1k, h1i⟩ := text_finish
      { ctx with widgets := updIn p (setTextInput st2) ctx.widgets } p ht htk2 h2
    exact ⟨_, s1, st1, rfl, h1, h1k, h1i⟩

/-- `UITextInput::onEvent` on a text input in a state of the class: for every
event it returns, and the text input is in a state of the class again. -/
theorem textInputOnEvent_inv (ctx : UIContext) (p : Nat) (s : Fields) (st : TextInputState)
    (e : UIEvent) (hs : fieldsAt ctx.widgets p = some s) (hk : s.kind = Kind.TextInput st)
    (hinv : st.inv) (hobs : allObservers ctx.widgets = true) (hlive : focusLive ctx = true) :
    ∃ ctx1 s1 st1, textInputOnEvent ctx p s st e = some ctx1
      ∧ fieldsAt ctx1.widgets p = some s1 ∧ s1.kind = Kind.TextInput st1 ∧ st1.inv := by
  have ho := observersOnly_of_all hobs hs
  unfold textInputOnEvent
  split_ifs with h1 h2 h3 h4 h5 h6
  · exact ⟨ctx, s, st, rfl, hs, hk, hinv⟩
  · obtain ⟨c1, hc1, _, hfr, _⟩ := setFocus_obs hobs hlive hs
    rw [hc1]
    simp only
    obtain ⟨t, ht, hr⟩ := frame_lookup sameState_ptr hfr hs
    have htag : t.kind.tag = (Kind.TextInput st).tag := by
      rw [← hk]
      exact hr.1.2.2.2.2.2.2.2.2
    obtain ⟨stt, hstt⟩ := tag_textInput htag
    obtain ⟨u, hu, huk⟩ := lookup_upd_mark (placeCursor e.mx) ht
    obtain ⟨st1, hst1, hi⟩ := placeCursor_inv e.mx hstt
    exact ⟨_, u, st1, rfl, hu, huk.trans hst1, hi⟩
  · obtain ⟨t, ht, htk⟩ := lookup_setState (p := p) WidgetState.Hovered hs
    exact ⟨_, t, st, rfl, ht, htk.trans hk, hinv⟩
  · obtain ⟨t, ht, htk⟩ := lookup_setState (p := p) WidgetState.Normal hs
    exact ⟨_, t, st, rfl, ht, htk.trans hk, hinv⟩
  · obtain ⟨sta, hsta, hca, hsa⟩ := eraseSelection_inv hinv
    rw [hsta]
    simp only
    by_cases hlen : sta.text.length < sta.maxLen
    · simp only [hlen, if_true]
      obtain ⟨t1, ht1, hl1⟩ := stringInsert_ok (e.text.getD "") hca
      rw [ht1]
      simp only
      have hi2 : TextInputState.inv { sta with text := t1, cursor := sta.cursor + (e.text.getD "").length, selStart := sta.cursor + (e.text.getD "").length, selEnd := sta.cursor + (e.text.getD "").length } := by
        refine inv_of_collapsed ?_ rfl
        show sta.cursor + (e.text.getD "").length ≤ t1.length
        omega
      exact text_store ctx p hs hk ho _ hi2 true _
    · simp only [hlen, if_false]
      exact text_store ctx p hs hk ho sta (inv_of_collapsed hca hsa) false { type := EventType.ValueChanged }
  · obtain ⟨st1, ch, hst1, hi1⟩ := textKeyDown_inv hinv e.key e.mod
    rw [hst1]
    simp only
    exact text_store ctx p hs hk ho st1 hi1 ch _
  · exact ⟨ctx, s, st, rfl, hs, hk, hinv⟩

/-- `UITextInput::setText`: the text is the argument and the cursor is at its
end. -/
theorem setText_lookup {ws : List UIComponent} {p : Nat} {s : Fields} {st : TextInputState}
    (t : String) (hs : fieldsAt ws p = some s) (hk : s.kind = Kind.TextInput st) :
    ∃ s1, fieldsAt (setText ws p t) p = some s1
      ∧ s1.kind = Kind.TextInput { st with text := t, cursor := t.length } := by
  unfold setText
  obtain ⟨u, hu, huk⟩ := lookup_upd_mark (fun s =>
    match s.kind with
    | Kind.TextInput st => { s with kind := Kind.TextInput { st with text := t, cursor := t.length } }
    | _ => s) hs
  refine ⟨u, hu, huk.trans ?_⟩
  simp only [hk]

/-! ## Radio groups -/

theorem setRadio_kind (v : Bool) (s : Fields) :
    (setRadio v s).kind
      = (match s.kind with
        | Kind.RadioButton g _ => Kind.RadioButton g v
        | k => k) := by
  unfold setRadio
  split <;> simp_all

theorem setRadio_kind_congr (v : Bool) {s t : Fields} (h : t.kind = s.kind) :
    (setRadio v t).kind = (setRadio v s).kind := by
  rw [setRadio_kind, setRadio_kind, h]

theorem setRadio_kind_idem (v : Bool) (s : Fields) :
    (setRadio v (setRadio v s)).kind = (setRadio v s).kind := by
  rw [setRadio_kind v (setRadio v s), setRadio_kind v s]
  cases s.kind <;> rfl

theorem setRadio_kind_radio (v : Bool) {s : Fields} {g : String} {b : Bool}
    (h : s.kind = Kind.RadioButton g b) : (setRadio v s).kind = Kind.RadioButton g v := by
  rw [setRadio_kind, h]

theorem isGroupPeer_iff (g : String) (this : Nat) (c : UIComponent) :
    isGroupPeer g this c = true ↔ (∃ b, c.self.kind = Kind.RadioButton g b) ∧ c.self.ptr ≠ this := by
  unfold isGroupPeer
  cases hk : c.self.kind <;> simp

/-- Reading an object after the loop of `deactivateGroup` over the addresses
`L`: it lost its check mark exactly if its address is in `L`. -/
theorem lookup_deactivate :
    ∀ (L : List Nat) (ws : List UIComponent) (q : Nat) (s : Fields), fieldsAt ws q = some s →
      ∃ t, fieldsAt (L.foldl (fun acc p => markDirty (updIn p (setRadio false) acc) p) ws) q = some t
        ∧ t.kind = (if q ∈ L then (setRadio false s).kind else s.kind)
  | [], ws, q, s, hs => ⟨s, hs, by simp⟩
  | p :: rest, ws, q, s, hs => by
    have hq := fieldsAt_ptr hs
    have h1 : fieldsAt (markDirty (updIn p (setRadio false) ws) p) q
        = some (dirtyF (updIn p (setRadio false) ws) p (updF p (setRadio false) s)) := by
      rw [fieldsAt_markDirty, fieldsAt_updIn, hs]
      rfl
    obtain ⟨t, ht, htk⟩ := lookup_deactivate rest _ q _ h1
    refine ⟨t, ht, ?_⟩
    rw [htk]
    by_cases hqp : q = p
    · have hk1 : (dirtyF (updIn p (setRadio false) ws) p (updF p (setRadio false) s)).kind
          = (setRadio false s).kind := by
        rw [dirtyF_kind, updF_kind_self p _ (hq.trans hqp)]
      rw [setRadio_kind_congr false hk1, setRadio_kind_idem, hk1]
      simp [hqp]
    · have hk1 : (dirtyF (updIn p (setRadio false) ws) p (updF p (setRadio false) s)).kind
          = s.kind := by
        rw [dirtyF_kind, updF_other p _ (fun h => hqp (hq.symm.trans h))]
      rw [setRadio_kind_congr false hk1, hk1]
      simp [hqp]

mutual
theorem getNode_fields_sub (p : Nat) :
    ∀ (t n : UIComponent), getNode p t = some n → ∀ s ∈ fieldsOf n, s ∈ fieldsOf t
  | .node s0 ch, n, h, s, hs => by
    simp only [getNode] at h
    split_ifs at h
    · cases h
      exact hs
    · simp only [fieldsOf, List.mem_cons]
      exact Or.inr (getNodeIn_fields_sub p ch n h s hs)
theorem getNodeIn_fields_sub (p : Nat) :
    ∀ (ws : List UIComponent) (n : UIComponent), getNodeIn p ws = some n →
      ∀ s ∈ fieldsOf n, s ∈ fieldsIn ws
  | [], n, h, _, _ => by simp [getNodeIn] at h
  | c :: rest, n, h, s, hs => by
    simp only [getNodeIn] at h
    simp only [fieldsIn, List.mem_append]
    cases hc : getNode p c with
    | some m =>
      rw [hc] at h
      cases h
      exact Or.inl (getNode_fields_sub p c _ hc s hs)
    | none =>
      rw [hc] at h
      exact Or.inr (getNodeIn_fields_sub p rest n h s hs)
end

theorem fieldsOf_sub_of_mem {c : UIComponent} :
    ∀ {l : List UIComponent}, c ∈ l → ∀ s ∈ fieldsOf c, s ∈ fieldsIn l
  | [], h, _, _ => by cases h
  | d :: rest, h, s, hs => by
    simp only [fieldsIn, List.mem_append]
    rcases List.mem_cons.mp h with h | h
    · rw [← h]
      exact Or.inl hs
    · exact Or.inr (fieldsOf_sub_of_mem h s hs)

/-- The fields of a child of a node of the forest are in the forest. -/
theorem child_fields_mem {ws : List UIComponent} {P : Nat} {pn c : UIComponent}
    (hpn : getNodeIn P ws = some pn) (hc : c ∈ pn.children) : c.self ∈ fieldsIn ws := by
  apply getNodeIn_fields_sub P ws pn hpn
  cases pn with
  | node s0 ch =>
    simp only [fieldsOf, List.mem_cons]
    exact Or.inr (fieldsOf_sub_of_mem hc _ (self_mem_fieldsOf c))

/-- `UIRadioButton::activateInGroup` on a radio button with a live parent and
observer callbacks. -/
theorem activateInGroup_spec (ctx : UIContext) (R : Nat) (sR : Fields) (g : String) (b : Bool)
    (P : Nat) (pn : UIComponent)
    (hs : fieldsAt ctx.widgets R = some sR) (hk : sR.kind = Kind.RadioButton g b)
    (hpar : sR.parent = some P) (hpn : getNodeIn P ctx.widgets = some pn)
    (ho : sR.observersOnly = true) :
    ∃ ws1, activateInGroup ctx R sR g
        = some { ctx with widgets := ws1,
                          trace := ctx.trace ++ callbackEntries R { type := EventType.CheckChanged, ivalue := 1 }
                            (sR.subscribers EventType.CheckChanged) }
      ∧ (∃ t, fieldsAt ws1 R = some t ∧ t.kind = Kind.RadioButton g true)
      ∧ (∀ q s, fieldsAt ctx.widgets q = some s → q ≠ R →
          ∃ t, fieldsAt ws1 q = some t
            ∧ t.kind = (if q ∈ (pn.children.filter (isGroupPeer g R)).map (fun c => c.self.ptr)
                then (setRadio false s).kind else s.kind)) := by
  have hfr : Frame Fields.sameCore ctx.widgets
      (markDirty (updIn R (setRadio true) (deactivateGroup ctx.widgets g R pn.children)) R) :=
    focusFrame_core (frame_trans (frame_deactivateGroup ctx.widgets g R pn.children)
      (frame_upd_mark R (sameFocus_setRadio true) _))
  have hact : activateInGroup ctx R sR g
      = emit { ctx with widgets := markDirty (updIn R (setRadio true) (deactivateGroup ctx.widgets g R pn.children)) R } R
          { type := EventType.CheckChanged, ivalue := 1 } := by
    unfold activateInGroup
    simp only [hpar, hpn, Option.map_some']
  rw [hact, emit_framed _ hfr hs ho]
  refine ⟨_, rfl, ?_, ?_⟩
  · obtain ⟨t0, ht0, hk0⟩ := lookup_deactivate
      ((pn.children.filter (isGroupPeer g R)).map (fun c => c.self.ptr)) ctx.widgets R sR hs
    have hnot : R ∉ (pn.children.filter (isGroupPeer g R)).map (fun c => c.self.ptr) := by
      intro hin
      obtain ⟨c, hc, hcp⟩ := List.mem_map.mp hin
      exact ((isGroupPeer_iff g R c).mp (List.mem_filter.mp hc).2).2 hcp
    rw [if_neg hnot] at hk0
    obtain ⟨t, ht, htk⟩ := lookup_upd_mark (setRadio true) ht0
    exact ⟨t, ht, htk.trans (setRadio_kind_radio true (hk0.trans hk))⟩
  · intro q s hq hne
    obtain ⟨t0, ht0, hk0⟩ := lookup_deactivate
      ((pn.children.filter (isGroupPeer g R)).map (fun c => c.self.ptr)) ctx.widgets q s hq
    have ht0' : fieldsAt (deactivateGroup ctx.widgets g R pn.children) q = some t0 := ht0
    refine ⟨_, by rw [fieldsAt_markDirty, fieldsAt_updIn, ht0']; rfl, ?_⟩
    rw [dirtyF_kind, updF_other R _ (fun h => hne ((fieldsAt_ptr ht0').symm.trans h)), hk0]

/-! ## The close wiring of a dropdown -/

theorem runObservers_observers (c : Nat) (e : UIEvent) :
    ∀ (cbs : List CB) (ctx : UIContext), cbs.all CB.isUser = true →
      runObservers c e cbs ctx = some { ctx with trace := ctx.trace ++ callbackEntries c e cbs }
  | [], ctx, _ => by simp [runObservers, callbackEntries]
  | CB.user tag :: rest, ctx, h => by
    have hr : rest.all CB.isUser = true := by
      simp only [List.all_cons, Bool.and_eq_true] at h
      exact h.2
    simp only [runObservers, callbackEntries]
    rw [runObservers_observers c e rest _ hr]
    simp
  | CB.menuClose mb :: rest, ctx, h => by
    simp [CB.isUser] at h

/-- An assignment that keeps the id does not change which top-level widget
`remove` erases. -/
theorem removeFirst_updIn (p : Nat) {f : Fields → Fields} (hf : ∀ s, (f s).id = s.id) (id : String) :
    ∀ ws : List UIComponent, removeFirst id (updIn p f ws)
      = (removeFirst id ws).map (fun r => (updNode p f r.1, updIn p f r.2))
  | [] => rfl
  | c :: rest => by
    have hid : (updNode p f c).self.id = c.self.id := by
      rw [updNode_self]
      unfold updF
      split_ifs
      · exact hf _
      · rfl
    simp only [updIn, removeFirst, hid]
    by_cases h : c.self.id = id
    · simp only [h, if_true, Option.map_some']
    · simp only [h, if_false]
      rw [removeFirst_updIn p hf id rest]
      cases removeFirst id rest with
      | none => rfl
      | some r => rfl

theorem setOpenIdx_id (i : Int) (s : Fields) : (setOpenIdx i s).id = s.id := by
  unfold setOpenIdx
  split <;> rfl

theorem setDropdown_id (d : Option Nat) (s : Fields) : (setDropdown d s).id = s.id := by
  unfold setDropdown
  split <;> rfl

theorem close_kind {m : Fields} {menus : List Menu} {oi : Int} {dd : Option Nat}
    (h : m.kind = Kind.MenuBar menus oi dd) (p : Nat) (hp : m.ptr = p) :
    (updF p (setDropdown none) (updF p (setOpenIdx (-1)) m)).kind = Kind.MenuBar menus (-1) none := by
  have h1 : (updF p (setOpenIdx (-1)) m).kind = Kind.MenuBar menus (-1) dd := by
    rw [updF_kind_self p _ hp]
    unfold setOpenIdx
    simp only [h]
  have hp1 : (updF p (setOpenIdx (-1)) m).ptr = p := by
    unfold updF
    split_ifs <;> exact hp
  rw [updF_kind_self p _ hp1]
  unfold setDropdown
  simp only [h1]

theorem remove_of_some {ctx : UIContext} {id : String} {c : UIComponent} {rest : List UIComponent}
    (h : removeFirst id ctx.widgets = some (c, rest)) :
    (UIContext.remove ctx id).2.widgets = rest ∧ (UIContext.remove ctx id).2.trace = ctx.trace := by
  unfold UIContext.remove
  simp only [h, and_self]

/-- The handler of a dropdown on a left button-down over an enabled item emits
`MenuItemClicked` with the id of the item. -/
theorem dropdown_mouseDown (ctx : UIContext) (d : Nat) (sd : Fields) (items : List MenuItem)
    (h : Int) (it : MenuItem) (e : UIEvent)
    (hk : sd.kind = Kind.MenuDropdown items h)
    (hh : 0 ≤ h) (hit : items[h.toNat]? = some it) (hdis : it.disabled = false)
    (he : e.type = EventType.MouseDown ∧ e.mbtn = SDL_BUTTON_LEFT) :
    onEvent ctx d sd e
      = emit ctx d { type := EventType.MenuItemClicked, svalue := it.id, ivalue := h } := by
  unfold onEvent
  simp only [hk]
  unfold dropdownOnEvent
  simp only [he.1, he.2, reduceCtorEq, if_false, and_self, if_true, ge_iff_le, hh, hit, hdis,
    Bool.not_false]

/-- The emission of a dropdown whose only `MenuItemClicked` callback is the
close wiring of the menu bar `mb` runs that wiring. -/
theorem emit_close_wiring (ctx : UIContext) (d mb : Nat) (sd : Fields) (ev : UIEvent)
    (hd : fieldsAt ctx.widgets d = some sd) (hty : ev.type = EventType.MenuItemClicked)
    (hcb : sd.subscribers EventType.MenuItemClicked = [CB.menuClose mb]) :
    emit ctx d ev = menuCloseCB mb d ev ctx := by
  unfold emit
  simp only [hd, hty, hcb, runCallbacks]
  cases menuCloseCB mb d ev ctx <;> rfl

/-- The close wiring with observers on the menu bar: the observers run, the
menu bar forgets the dropdown and the dropdown is removed. -/
theorem menuCloseCB_obs (ctx : UIContext) (d mb : Nat) (sd m : Fields) (ev : UIEvent)
    (hd : fieldsAt ctx.widgets d = some sd) (hm : fieldsAt ctx.widgets mb = some m)
    (hne : d ≠ mb) (hmo : m.observersOnly = true) :
    menuCloseCB mb d ev ctx
      = some (UIContext.remove
          { ctx with trace := ctx.trace ++ callbackEntries mb ev (m.subscribers ev.type),
                     widgets := updIn mb (setDropdown none) (updIn mb (setOpenIdx (-1)) ctx.widgets) }
          sd.id).2 := by
  have hdf : fieldsAt (updIn mb (setDropdown none) (updIn mb (setOpenIdx (-1)) ctx.widgets)) d
      = some sd := by
    rw [fieldsAt_updIn, fieldsAt_updIn, hd]
    have hp : sd.ptr ≠ mb := fun h => hne ((fieldsAt_ptr hd).symm.trans h)
    simp only [Option.map_some', updF_other mb _ hp]
  unfold menuCloseCB
  simp only [hm, runObservers_observers mb ev _ ctx (subscribers_observers hmo ev.type), hdf]

theorem nodup_without {A B : List Nat} {d : Nat} (h : (A ++ d :: B).Nodup) :
    d ∉ A ++ B ∧ (A ++ B).Nodup :=
  List.nodup_cons.mp (List.nodup_middle.mp h)

/-! ## Lookup, flags and the menu bar -/

/-- C22: `UIComponent::findById` returns the first object with the id in
depth-first pre-order (the node, then its children in vector order), and none
exactly when no object of the subtree has the id; `UIContext::findById`
returns none in a fresh context, in every context whose registry has no entry
for the id, and still does after `add` of objects with other ids. -/
theorem findById_spec (c : UIComponent) (id : String) :
    UIComponent.findById id c
        = ((fieldsOf c).find? (fun s => decide (s.id = id))).map (fun s => s.ptr)
    ∧ (UIComponent.findById id c = none ↔ ∀ s ∈ fieldsOf c, s.id ≠ id)
    ∧ UIContext.findById {} id = none
    ∧ (∀ ctx : UIContext, (∀ kv ∈ ctx.registry, kv.1 ≠ id) → UIContext.findById ctx id = none)
    ∧ (∀ (ctx : UIContext) (d : UIComponent), UIContext.findById ctx id = none →
        (∀ s ∈ fieldsOf d, s.id ≠ id) → UIContext.findById (UIContext.add ctx d) id = none) := by
  refine ⟨findById_eq id c, ?_, rfl, ?_, ?_⟩
  · rw [findById_eq, Option.map_eq_none', List.find?_eq_none]
    simp
  · intro ctx h
    unfold UIContext.findById regFind
    rw [Option.map_eq_none', List.find?_eq_none]
    intro kv hkv
    simpa using h kv hkv
  · intro ctx d hnone hd
    show regFind (registerWidget ctx.registry d) id = none
    rw [registerWidget_eq, regFind_foldl_regKey_other id _ _ ?_]
    · exact hnone
    · intro kp hkp
      unfold keysIn at hkp
      rw [fieldsIn_singleton] at hkp
      obtain ⟨s, hs, rfl⟩ := List.mem_map.mp hkp
      exact hd s hs

/-- C26 (code defect): on a clean, enabled button in state `Hovered`,
`setEnabled(true)` (the value the flag has) resets the interaction state to
`Normal` and sets the dirty flag; `setVisible` compares with the current flag
first, `setEnabled` does not. -/
theorem setEnabled_same_value_changes :
    (fieldsIn exHovered).map (fun s => (s.enabled, s.wstate, s.dirty))
        = [(true, WidgetState.Hovered, false)]
    ∧ (fieldsIn (setEnabled exHovered 1 true)).map (fun s => (s.enabled, s.wstate, s.dirty))
        = [(true, WidgetState.Normal, true)] := by
  decide

/-- What the two setters do: `setVisible(v)` with the value the flag has changes nothing;
with another value it assigns the flag and marks the node dirty, interaction
state and enabledness staying. `setEnabled(e)` assigns the flag and puts the
interaction state to `Normal` (e true) or `Disabled` (e false); the node is
marked dirty when the interaction state changes by that, and is left as it is
when flag and interaction state already have these values. -/
theorem setVisible_setEnabled_spec (ws : List UIComponent) (p : Nat) (s : Fields) (v e : Bool)
    (hs : fieldsAt ws p = some s) :
    (v = s.visible → setVisible ws p v = ws)
    ∧ (v ≠ s.visible → ∃ t, fieldsAt (setVisible ws p v) p = some t ∧ t.visible = v
        ∧ t.dirty = true ∧ t.wstate = s.wstate ∧ t.enabled = s.enabled)
    ∧ (∃ t, fieldsAt (setEnabled ws p e) p = some t ∧ t.enabled = e
        ∧ t.wstate = (if e then WidgetState.Normal else WidgetState.Disabled)
        ∧ t.visible = s.visible
        ∧ (s.wstate ≠ (if e then WidgetState.Normal else WidgetState.Disabled) → t.dirty = true)
        ∧ (e = s.enabled → s.wstate = (if e then WidgetState.Normal else WidgetState.Disabled) →
            t = s)) := by
  have hp := fieldsAt_ptr hs
  refine ⟨?_, ?_, ?_⟩
  · intro h
    unfold setVisible
    simp [hs, h]
  · intro h
    unfold setVisible
    simp only [hs]
    rw [if_pos (fun e : s.visible = v => h e.symm), fieldsAt_markDirty, fieldsAt_updIn, hs]
    refine ⟨_, rfl, ?_, ?_, ?_, ?_⟩
    · rw [dirtyF_visible]
      simp [updF, hp]
    · exact dirtyF_self_dirty _ (by simp [hp])
    · rw [dirtyF_wstate]
      simp [updF, hp]
    · rw [dirtyF_enabled]
      simp [updF, hp]
  · have h1 : fieldsAt (updIn p (fun s => { s with enabled := e }) ws) p
        = some (updF p (fun s => { s with enabled := e }) s) := by
      rw [fieldsAt_updIn, hs]
      rfl
    have hu : updF p (fun s => { s with enabled := e }) s = { s with enabled := e } := by
      simp [updF, hp]
    rw [hu] at h1
    obtain ⟨t, ht, hw, hen, hvis, hd, hsame⟩ :=
      setState_fields (if e then WidgetState.Normal else WidgetState.Disabled) h1
    refine ⟨t, ht, hen, hw, hvis, hd, ?_⟩
    intro he hwst
    rw [hsame hwst, he]

theorem setVisible_setEnabled_spec_witness :
    ∃ t, fieldsAt (setEnabled exHovered 1 false) 1 = some t ∧ t.enabled = false
      ∧ t.wstate = WidgetState.Disabled ∧ t.dirty = true := by
  obtain ⟨t, h1, h2, h3, _, h5, _⟩ := (setVisible_setEnabled_spec exHovered 1
    { ptr := 1, id := "b", kind := Kind.Button, wstate := WidgetState.Hovered, dirty := false }
    true false (by decide)).2.2
  exact ⟨t, h1, h2, h3, h5 (by decide)⟩

/-- C28 (code defect): a focused text input with `maxLen == 3` that holds "ab"
(2 ≤ 3) receives the text input "cd"; the test `text.size()<maxLen` passes and
the whole fragment is inserted: the text is "abcd", 4 long, above `maxLen`. -/
theorem textInput_exceeds_maxLen :
    (fieldsIn exTextCtx.widgets).map (fun s => s.kind)
        = [Kind.TextInput { text := "ab", cursor := 2, maxLen := 3 }]
    ∧ (UIContext.processEvent exTextCtx (SDLEvent.textInput "cd")).map
        (fun c => (fieldsIn c.widgets).map (fun s => s.kind))
        = some [Kind.TextInput { text := "abcd", cursor := 4, selStart := 4, selEnd := 4,
                                 maxLen := 3 }] := by
  decide!

/-- C30 (code defect): for the menus File and Edit, `onDraw` paints Edit at
the offset 46 (it advances by `size*8+8+4`), while the range in which
`onEvent` opens Edit starts at 50 (it advances by `size*8+12+4`): a button-down
at 46 and at 49, on the painted title, hits no menu, and 50 is the first
offset that opens Edit. Only menu 0 starts at the same offset, 2, in both. -/
theorem menuBar_click_drawn_misaligned :
    menuDrawX exMenus 2 1 = some 46
    ∧ (menuAt 46 exMenus 2 0).map (fun r => (r.1, r.2.1)) = none
    ∧ (menuAt 49 exMenus 2 0).map (fun r => (r.1, r.2.1)) = none
    ∧ (menuAt 50 exMenus 2 0).map (fun r => (r.1, r.2.1)) = some (1, 50)
    ∧ menuDrawX exMenus 2 0 = some 2
    ∧ (menuAt 2 exMenus 2 0).map (fun r => (r.1, r.2.1)) = some (0, 2)
    ∧ (menuAt 1 exMenus 2 0).map (fun r => (r.1, r.2.1)) = none := by
  decide

/-- C21 (counterexample): a registry entry for a node outside the tree. After
`p->addChild(c, ctx)` on a panel "p" that is not attached to the context, the
context is in a state the library reaches, `findById("c")` returns the child,
and the tree of the context is empty. -/
theorem registry_entry_outside_tree :
    Built exDetachedReg ∧ UIContext.findById exDetachedReg "c" = some 2
      ∧ fieldsIn exDetachedReg.widgets = [] :=
  ⟨Built.addChildDetached {} [.node { ptr := 1, id := "p" } []] 1 (.node { ptr := 2, id := "c" } [])
      Built.empty (by decide!),
    by decide!, by decide!⟩

/-- C21 (amended): in every context the library builds, after `remove(id)`
erased the node `c`, `findById` returns none for the id of `c` and of every
one of its descendants; and when the context was built by `add`, `remove` and
`addChild` on parents that are part of the tree, every registry entry is the
id and the address of an object of the tree. -/
theorem registry_purged (ctx : UIContext) (h : Built ctx) :
    (∀ (id : String) (c : UIComponent) (rest : List UIComponent),
        removeFirst id ctx.widgets = some (c, rest) →
        (UIContext.remove ctx id).1 = true
          ∧ ∀ s ∈ fieldsOf c, UIContext.findById (UIContext.remove ctx id).2 s.id = none)
    ∧ (Attached ctx → ∀ (k : String) (v : Nat), UIContext.findById ctx k = some v →
        ∃ s ∈ fieldsIn ctx.widgets, s.id = k ∧ s.ptr = v) := by
  refine ⟨?_, fun ha k v hf => attached_entry ha hf⟩
  intro id c rest hr
  unfold UIContext.remove
  simp only [hr, true_and]
  intro s hs
  exact regFind_unregister c (built_noEmpty h) hs

theorem registry_purged_witness :
    UIContext.findById (UIContext.remove exAttached "p").2 "c" = none
      ∧ ∃ s ∈ fieldsIn exAttached.widgets, s.id = "c" ∧ s.ptr = 2 :=
  have hb : Built exAttached :=
    Built.addChild _ 1 _
      (Built.add _ _ (Built.add _ _ Built.empty (by unfold distinctWith; decide!))
        (by unfold distinctWith; decide!))
      (by unfold distinctWith; decide!)
  have ha : Attached exAttached :=
    Attached.addChild _ 1 _
      (Attached.add _ _ (Attached.add _ _ Attached.empty (by unfold distinctWith; decide!))
        (by unfold distinctWith; decide!))
      (by decide!) (by unfold distinctWith; decide!)
  ⟨((registry_purged exAttached hb).1 "p"
      (.node { ptr := 1, id := "p" } [.node { ptr := 2, id := "c", parent := some 1 } []])
      [.node { ptr := 3, id := "w" } []] rfl).2
      { ptr := 2, id := "c", parent := some 1 } (by decide),
    (registry_purged exAttached hb).2 ha "c" 2 (by decide!)⟩

/-- C24: hover transitions on a motion event. With hovered and pressed widget
null or live, the motion event at (mx,my) returns; with hit = hitTest(mx,my),
the handler invocations it adds are: when hit differs from hoveredWidget, the
`dispatch` of MouseLeave to the old hovered widget and then the `dispatch` of
MouseEnter to hit (a null or disabled target receives nothing), when hit equals
hoveredWidget neither; after them come MouseMove invocations only. Afterwards
hoveredWidget equals hit. In a forest of distinct objects the hit is enabled,
so MouseEnter does reach it. -/
theorem motion_hover_transition (ctx : UIContext) (mx my : Int)
    (hh : liveIn ctx.widgets ctx.hoveredWidget = true)
    (hp : liveIn ctx.widgets ctx.pressedWidget = true) :
    ∃ ctx1 moves, UIContext.processEvent ctx (SDLEvent.mouseMotion mx my) = some ctx1
      ∧ ctx1.hoveredWidget = UIContext.hitTest ctx mx my
      ∧ handlerCalls ctx1.trace = handlerCalls ctx.trace
          ++ (if UIContext.hitTest ctx mx my = ctx.hoveredWidget then []
              else dispatched ctx.widgets ctx.hoveredWidget
                    { type := EventType.MouseLeave, mx := mx, my := my }
                ++ dispatched ctx.widgets (UIContext.hitTest ctx mx my)
                    { type := EventType.MouseEnter, mx := mx, my := my })
          ++ moves
      ∧ (∀ c ∈ moves, c.2.type = EventType.MouseMove)
      ∧ ((ptrsIn ctx.widgets).Nodup → ∀ r, UIContext.hitTest ctx mx my = some r →
          dispatched ctx.widgets (some r) { type := EventType.MouseEnter, mx := mx, my := my }
            = [(r, { type := EventType.MouseEnter, mx := mx, my := my })]) := by
  obtain ⟨ctx1, h1, h2, _, h4, _⟩ := processMotion_spec { ctx with needsRedraw := true } mx my hh hp
  refine ⟨ctx1, _, h1, h2, h4, ?_, ?_⟩
  · intro c hc
    rw [(dispatched_mem hc).1]
  · intro hnd r hr
    exact dispatched_hit ctx mx my hnd _ r hr

theorem motion_hover_transition_witness :
    ∃ ctx1 moves, UIContext.processEvent exButtonCtx (SDLEvent.mouseMotion 20 15) = some ctx1
      ∧ ctx1.hoveredWidget = some 1
      ∧ handlerCalls ctx1.trace
          = [(1, { type := EventType.MouseEnter, mx := 20, my := 15 })] ++ moves
      ∧ (∀ c ∈ moves, c.2.type = EventType.MouseMove) :=
  match motion_hover_transition exButtonCtx 20 15 (by decide!) (by decide!) with
  | ⟨ctx1, moves, h1, h2, h3, h4, _⟩ =>
    ⟨ctx1, moves, h1, h2.trans (by decide!), h3.trans (by
      have e1 : UIContext.hitTest exButtonCtx 20 15 = some 1 := by decide!
      have e2 : exButtonCtx.hoveredWidget = none := by decide!
      have e3 : handlerCalls exButtonCtx.trace = [] := by decide!
      have e4 : dispatched exButtonCtx.widgets (some 1) { type := EventType.MouseEnter, mx := 20, my := 15 }
          = [(1, { type := EventType.MouseEnter, mx := 20, my := 15 })] := by decide!
      rw [e1, e2, e3, e4]
      rfl), h4⟩

/-- C25: the target of MouseMove. With hovered and pressed widget null or
live, the motion event returns and, after the MouseLeave/MouseEnter
invocations, makes one `dispatch` of MouseMove: to pressedWidget when there is
one (whatever the hit-test returns; an enabled pressed widget receives exactly
that one MouseMove), otherwise to the hit-test target (which receives exactly
one MouseMove), and no handler is invoked when there is neither. -/
theorem motion_move_target (ctx : UIContext) (mx my : Int)
    (hh : liveIn ctx.widgets ctx.hoveredWidget = true)
    (hp : liveIn ctx.widgets ctx.pressedWidget = true) :
    ∃ ctx1 before, UIContext.processEvent ctx (SDLEvent.mouseMotion mx my) = some ctx1
      ∧ handlerCalls ctx1.trace = handlerCalls ctx.trace ++ before
          ++ dispatched ctx.widgets
              (Option.orElse ctx.pressedWidget (fun _ => UIContext.hitTest ctx mx my))
              { type := EventType.MouseMove, mx := mx, my := my }
      ∧ (∀ c ∈ before, c.2.type ≠ EventType.MouseMove)
      ∧ (∀ p s, ctx.pressedWidget = some p → fieldsAt ctx.widgets p = some s → s.enabled = true →
          dispatched ctx.widgets
              (Option.orElse ctx.pressedWidget (fun _ => UIContext.hitTest ctx mx my))
              { type := EventType.MouseMove, mx := mx, my := my }
            = [(p, { type := EventType.MouseMove, mx := mx, my := my })])
      ∧ (ctx.pressedWidget = none → (ptrsIn ctx.widgets).Nodup →
          ∀ r, UIContext.hitTest ctx mx my = some r →
          dispatched ctx.widgets
              (Option.orElse ctx.pressedWidget (fun _ => UIContext.hitTest ctx mx my))
              { type := EventType.MouseMove, mx := mx, my := my }
            = [(r, { type := EventType.MouseMove, mx := mx, my := my })])
      ∧ (ctx.pressedWidget = none → UIContext.hitTest ctx mx my = none →
          dispatched ctx.widgets
              (Option.orElse ctx.pressedWidget (fun _ => UIContext.hitTest ctx mx my))
              { type := EventType.MouseMove, mx := mx, my := my } = []) := by
  obtain ⟨ctx1, h1, _, _, h4, _⟩ := processMotion_spec { ctx with needsRedraw := true } mx my hh hp
  refine ⟨ctx1, _, h1, h4, ?_, ?_, ?_, ?_⟩
  · intro c hc
    split_ifs at hc
    · cases hc
    · rcases List.mem_append.mp hc with hc | hc
      · rw [(dispatched_mem hc).1]
        simp
      · rw [(dispatched_mem hc).1]
        simp
  · intro p s hpw hs hen
    rw [hpw]
    exact dispatched_enabled _ hs hen
  · intro hpw hnd r hr
    rw [hpw]
    show dispatched ctx.widgets (UIContext.hitTest ctx mx my) _ = _
    rw [hr]
    exact dispatched_hit ctx mx my hnd _ r hr
  · intro hpw hr
    rw [hpw]
    show dispatched ctx.widgets (UIContext.hitTest ctx mx my) _ = _
    rw [hr]
    rfl

theorem motion_move_target_witness :
    ∃ ctx1 before, UIContext.processEvent exPressedCtx (SDLEvent.mouseMotion 200 200) = some ctx1
      ∧ UIContext.hitTest exPressedCtx 200 200 = none
      ∧ handlerCalls ctx1.trace = handlerCalls exPressedCtx.trace ++ before
          ++ [(1, { type := EventType.MouseMove, mx := 200, my := 200 })]
      ∧ (∀ c ∈ before, c.2.type ≠ EventType.MouseMove) :=
  match motion_move_target exPressedCtx 200 200 (by decide!) (by decide!) with
  | ⟨ctx1, before, h1, h2, h3, h4, _⟩ =>
    ⟨ctx1, before, h1, by decide!,
      h2.trans (by rw [h4 1 (fieldsOr exFieldsA exPressedCtx.widgets 1) (by decide!) (by decide!) (by decide!)]),
      h3⟩

/-- C27 (counterexample): a text input with the cursor inside the text on
which Backspace erases at a position beyond the text. The focused input holds
"ab" with cursor 2 (so cursor <= text.size()) and the selection members 5 and
7; the Backspace branch calls `text.erase(5, 2)`, position 5 is larger than the
text length 2, `std::string::erase` throws and the event does not return. -/
theorem textInput_selection_erase_faults :
    (fieldsAt exBadSel.widgets 1).map (fun s => (s.focused, s.kind))
        = some (true, Kind.TextInput { text := "ab", cursor := 2, selStart := 5, selEnd := 7 })
      ∧ exBadSel.focusedWidget = some 1
      ∧ stringErase "ab" (min 5 7) (max 5 7 - min 5 7) = none
      ∧ (textKeyDown { text := "ab", cursor := 2, selStart := 5, selEnd := 7 } SDLK_BACKSPACE 0).isSome
          = false
      ∧ (UIContext.processEvent exBadSel (SDLEvent.keyDown SDLK_BACKSPACE 0)).isSome = false := by
  decide!

/-- C27 (amended): the text input keeps its cursor inside the text. If
cursor <= text.size() holds and the selection is empty or starts at position 0
(so it is after construction and after every member function of the class),
then, with application callbacks that only observe and a focus pointer that is
null or live, the handler returns for every event, the input then again has
its cursor inside the text and a selection that is empty or starts at 0; the
same holds after `setText`, which puts the cursor at the end of the new text;
and the erase and insert calls of the handler get a position that is at most
the text length (they do not throw). -/
theorem textInput_cursor_in_text (ctx : UIContext) (p : Nat) (s : Fields) (st : TextInputState)
    (hs : fieldsAt ctx.widgets p = some s) (hk : s.kind = Kind.TextInput st)
    (hinv : st.inv) (hobs : allObservers ctx.widgets = true) (hlive : focusLive ctx = true) :
    (∀ e : UIEvent, ∃ ctx1 s1 st1, onEvent ctx p s e = some ctx1
        ∧ fieldsAt ctx1.widgets p = some s1 ∧ s1.kind = Kind.TextInput st1
        ∧ st1.cursor ≤ st1.text.length
        ∧ (st1.selStart ≠ st1.selEnd → min st1.selStart st1.selEnd = 0))
    ∧ (∀ t : String, ∃ s1 st1, fieldsAt (setText ctx.widgets p t) p = some s1
        ∧ s1.kind = Kind.TextInput st1 ∧ st1.text = t ∧ st1.cursor = t.length
        ∧ (st1.selStart ≠ st1.selEnd → min st1.selStart st1.selEnd = 0))
    ∧ (∀ (key : Int) (mod : Nat), ∃ st1 ch, textKeyDown st key mod = some (st1, ch)
        ∧ st1.cursor ≤ st1.text.length)
    ∧ (∀ ins : String, ∃ st1 t1, eraseSelection st = some st1
        ∧ stringInsert st1.text st1.cursor ins = some t1)
    ∧ TextInputState.inv {} := by
  refine ⟨?_, ?_, ?_, ?_, ?_⟩
  · intro e
    have he : onEvent ctx p s e = textInputOnEvent ctx p s st e := by
      unfold onEvent
      simp only [hk]
    rw [he]
    obtain ⟨ctx1, s1, st1, h1, h2, h3, h4⟩ := textInputOnEvent_inv ctx p s st e hs hk hinv hobs hlive
    exact ⟨ctx1, s1, st1, h1, h2, h3, h4.1, h4.2⟩
  · intro t
    obtain ⟨s1, h1, h2⟩ := setText_lookup t hs hk
    exact ⟨s1, _, h1, h2, rfl, rfl, hinv.2⟩
  · intro key mod
    obtain ⟨st1, ch, h1, h2⟩ := textKeyDown_inv hinv key mod
    exact ⟨st1, ch, h1, h2.1⟩
  · intro ins
    obtain ⟨st1, h1, h2, _⟩ := eraseSelection_inv hinv
    obtain ⟨t1, h3, _⟩ := stringInsert_ok ins h2
    exact ⟨st1, t1, h1, h3⟩
  · exact ⟨Nat.le_refl _, fun h => absurd rfl h⟩

theorem textInput_cursor_in_text_witness :
    ∃ ctx1 s1 st1, onEvent exTextCtx 1 (fieldsOr exFieldsA exTextCtx.widgets 1)
          { type := EventType.KeyDown, key := SDLK_BACKSPACE } = some ctx1
        ∧ fieldsAt ctx1.widgets 1 = some s1 ∧ s1.kind = Kind.TextInput st1
        ∧ st1.cursor ≤ st1.text.length
        ∧ (st1.selStart ≠ st1.selEnd → min st1.selStart st1.selEnd = 0) :=
  (textInput_cursor_in_text exTextCtx 1 (fieldsOr exFieldsA exTextCtx.widgets 1)
    { text := "ab", cursor := 2, maxLen := 3 } (by decide!) (by decide!)
    ⟨by decide, by decide⟩ (by decide!) (by decide!)).1
    { type := EventType.KeyDown, key := SDLK_BACKSPACE }

/-- C29: activation of a radio button. Let R be an enabled radio button of
group `g` whose parent P is live, with observer callbacks, in a forest of
distinct objects. On a left MouseUp, or on Space while R is focused, the
handler returns; afterwards R is checked, every other radio button of group
`g` among the children of P is unchecked, every object that is not such a
child (radio buttons of other groups and of other parents among them) has the
class data it had, and the trace grows by exactly one CheckChanged event with
ivalue 1 for each subscriber R has for CheckChanged. -/
theorem radio_activation_exclusive (ctx : UIContext) (R : Nat) (sR : Fields) (g : String)
    (b : Bool) (P : Nat) (pn : UIComponent) (e : UIEvent)
    (hs : fieldsAt ctx.widgets R = some sR) (hk : sR.kind = Kind.RadioButton g b)
    (hen : sR.enabled = true) (hpar : sR.parent = some P)
    (hpn : getNodeIn P ctx.widgets = some pn) (ho : sR.observersOnly = true)
    (hnd : (ptrsIn ctx.widgets).Nodup)
    (he : (e.type = EventType.MouseUp ∧ e.mbtn = SDL_BUTTON_LEFT)
      ∨ (e.type = EventType.KeyDown ∧ sR.focused = true ∧ e.key = SDLK_SPACE)) :
    ∃ ctx1, onEvent ctx R sR e = some ctx1
      ∧ ctx1.trace = ctx.trace ++ callbackEntries R { type := EventType.CheckChanged, ivalue := 1 }
          (sR.subscribers EventType.CheckChanged)
      ∧ (∃ t, fieldsAt ctx1.widgets R = some t ∧ t.kind = Kind.RadioButton g true)
      ∧ (∀ c ∈ pn.children, c.self.ptr ≠ R → ∀ b1, c.self.kind = Kind.RadioButton g b1 →
          ∃ t, fieldsAt ctx1.widgets c.self.ptr = some t ∧ t.kind = Kind.RadioButton g false)
      ∧ (∀ q s, fieldsAt ctx.widgets q = some s → q ≠ R →
          (∀ c ∈ pn.children, c.self.ptr = q → ∀ b1, c.self.kind ≠ Kind.RadioButton g b1) →
          ∃ t, fieldsAt ctx1.widgets q = some t ∧ t.kind = s.kind) := by
  obtain ⟨ws1, hact, hR, hothers⟩ := activateInGroup_spec ctx R sR g b P pn hs hk hpar hpn ho
  have hev : onEvent ctx R sR e = activateInGroup ctx R sR g := by
    unfold onEvent
    simp only [hk]
    unfold radioOnEvent
    rcases he with ⟨h1, h2⟩ | ⟨h1, h2, h3⟩
    · simp [hen, h1, h2]
    · simp [hen, h1, h2, h3]
  refine ⟨_, hev.trans hact, rfl, hR, ?_, ?_⟩
  · intro c hc hne b1 hkc
    have hmem : c.self ∈ fieldsIn ctx.widgets := child_fields_mem hpn hc
    have hat := fieldsAt_of_mem_nodup hnd hmem
    obtain ⟨t, ht, htk⟩ := hothers c.self.ptr c.self hat hne
    have hin : c.self.ptr ∈ (pn.children.filter (isGroupPeer g R)).map (fun c => c.self.ptr) :=
      List.mem_map.mpr ⟨c, List.mem_filter.mpr ⟨hc, (isGroupPeer_iff g R c).mpr ⟨⟨b1, hkc⟩, hne⟩⟩, rfl⟩
    rw [if_pos hin] at htk
    exact ⟨t, ht, htk.trans (setRadio_kind_radio false hkc)⟩
  · intro q s hq hne hno
    obtain ⟨t, ht, htk⟩ := hothers q s hq hne
    have hnin : q ∉ (pn.children.filter (isGroupPeer g R)).map (fun c => c.self.ptr) := by
      intro hin
      obtain ⟨c, hc, hcp⟩ := List.mem_map.mp hin
      obtain ⟨hc1, hc2⟩ := List.mem_filter.mp hc
      obtain ⟨⟨b1, hb1⟩, _⟩ := (isGroupPeer_iff g R c).mp hc2
      exact hno c hc1 hcp b1 hb1
    rw [if_neg hnin] at htk
    exact ⟨t, ht, htk⟩

theorem radio_activation_exclusive_witness :
    ∃ ctx1, onEvent exRadios 3 exRadioB { type := EventType.MouseUp, mbtn := SDL_BUTTON_LEFT }
        = some ctx1
      ∧ ctx1.trace = [Trace.callback 9 3 { type := EventType.CheckChanged, ivalue := 1 }]
      ∧ (∃ t, fieldsAt ctx1.widgets 3 = some t ∧ t.kind = Kind.RadioButton "g" true)
      ∧ (∃ t, fieldsAt ctx1.widgets 2 = some t ∧ t.kind = Kind.RadioButton "g" false)
      ∧ (∃ t, fieldsAt ctx1.widgets 4 = some t ∧ t.kind = Kind.RadioButton "h" true)
      ∧ (∃ t, fieldsAt ctx1.widgets 5 = some t ∧ t.kind = Kind.RadioButton "g" true) :=
  match radio_activation_exclusive exRadios 3 exRadioB "g" false 1
      (.node { ptr := 1, id := "panel", rect := ⟨0, 0, 100, 100⟩ } exRadioKids)
      { type := EventType.MouseUp, mbtn := SDL_BUTTON_LEFT }
      (by decide!) (by decide) (by decide) (by decide) rfl (by decide) (by decide!)
      (Or.inl ⟨rfl, rfl⟩) with
  | ⟨ctx1, h1, h2, h3, h4, h5⟩ =>
    ⟨ctx1, h1, h2, h3,
      h4 (.node { ptr := 2, id := "a", rect := ⟨0, 0, 20, 10⟩, parent := some 1, kind := Kind.RadioButton "g" true } [])
        (List.Mem.head _) (by decide) true rfl,
      h5 4 { ptr := 4, id := "c", rect := ⟨0, 20, 20, 10⟩, parent := some 1, kind := Kind.RadioButton "h" true }
        (by decide!) (by decide) (by decide!),
      h5 5 { ptr := 5, id := "d", rect := ⟨200, 0, 20, 10⟩, kind := Kind.RadioButton "g" true }
        (by decide!) (by decide) (by decide!)⟩

/-- C23: selecting an item of an open dropdown. Let the dropdown `d` be the
childless top-level widget `remove` finds under its id, opened from the menu
bar `mb` (the menu bar refers to it, and the only MenuItemClicked callback of
the dropdown is the close wiring of `mb`), with the hovered index at an enabled
item `it`; the callbacks of the menu bar are observers and the objects are
distinct. A left button-down delivered to the dropdown returns; the trace grows
by exactly one MenuItemClicked event with `svalue = it.id` for each
MenuItemClicked subscriber of the menu bar; afterwards the dropdown is not in
the forest, the dropdown reference of the menu bar is null and its open index
is -1. -/
theorem dropdown_item_click (ctx : UIContext) (d mb : Nat) (sd m : Fields)
    (items : List MenuItem) (h : Int) (it : MenuItem) (menus : List Menu) (oi : Int) (e : UIEvent)
    (hd : fieldsAt ctx.widgets d = some sd) (hk : sd.kind = Kind.MenuDropdown items h)
    (hh : 0 ≤ h) (hit : items[h.toNat]? = some it) (hdis : it.disabled = false)
    (hcb : sd.subscribers EventType.MenuItemClicked = [CB.menuClose mb])
    (hm : fieldsAt ctx.widgets mb = some m) (hmk : m.kind = Kind.MenuBar menus oi (some d))
    (hmo : m.observersOnly = true)
    (htop : (removeFirst sd.id ctx.widgets).map (fun r => fieldsOf r.1) = some [sd])
    (hnd : (ptrsIn ctx.widgets).Nodup)
    (he : e.type = EventType.MouseDown ∧ e.mbtn = SDL_BUTTON_LEFT) :
    ∃ ctx1, onEvent ctx d sd e = some ctx1
      ∧ ctx1.trace = ctx.trace
          ++ callbackEntries mb { type := EventType.MenuItemClicked, svalue := it.id, ivalue := h }
              (m.subscribers EventType.MenuItemClicked)
      ∧ d ∉ ptrsIn ctx1.widgets
      ∧ (∀ c ∈ ctx1.widgets, c.self.ptr ≠ d)
      ∧ ∃ m1, fieldsAt ctx1.widgets mb = some m1 ∧ m1.kind = Kind.MenuBar menus (-1) none := by
  have hne : d ≠ mb := by
    intro hdm
    rw [hdm, hm] at hd
    cases hd
    rw [hk] at hmk
    cases hmk
  obtain ⟨⟨c, rest⟩, hrf, hfc⟩ := Option.map_eq_some'.mp htop
  simp only at hfc
  obtain ⟨pre, post, hws, hrest⟩ := removeFirst_split hrf
  have hrf2 : removeFirst sd.id
      (updIn mb (setDropdown none) (updIn mb (setOpenIdx (-1)) ctx.widgets))
      = some (updNode mb (setDropdown none) (updNode mb (setOpenIdx (-1)) c),
          updIn mb (setDropdown none) (updIn mb (setOpenIdx (-1)) rest)) := by
    rw [removeFirst_updIn mb (setDropdown_id none), removeFirst_updIn mb (setOpenIdx_id (-1)), hrf]
    rfl
  have hrem := @remove_of_some
    { ctx with trace := ctx.trace ++ callbackEntries mb
                  { type := EventType.MenuItemClicked, svalue := it.id, ivalue := h }
                  (m.subscribers EventType.MenuItemClicked),
               widgets := updIn mb (setDropdown none) (updIn mb (setOpenIdx (-1)) ctx.widgets) }
    sd.id _ _ hrf2
  have hptrs : ptrsIn ctx.widgets = ptrsIn pre ++ d :: ptrsIn post := by
    unfold ptrsIn
    rw [hws, fieldsIn_append, fieldsIn_cons, hfc, List.map_append]
    simp only [List.singleton_append, List.map_cons, fieldsAt_ptr hd]
  rw [hptrs] at hnd
  obtain ⟨hnot, hnd2⟩ := nodup_without hnd
  have hprest : ptrsIn rest = ptrsIn pre ++ ptrsIn post := by
    unfold ptrsIn
    rw [hrest, fieldsIn_append, List.map_append]
  have hmrest : fieldsAt rest mb = some m := by
    have hmem : m ∈ fieldsIn rest := by
      have h0 := fieldsAt_mem hm
      rw [hws, fieldsIn_append, fieldsIn_cons, hfc] at h0
      rw [hrest, fieldsIn_append]
      rcases List.mem_append.mp h0 with h1 | h1
      · exact List.mem_append_left _ h1
      · rcases List.mem_append.mp h1 with h2 | h2
        · rw [List.mem_singleton] at h2
          rw [h2, hk] at hmk
          cases hmk
        · exact List.mem_append_right _ h2
    have hnr : (ptrsIn rest).Nodup := by
      rw [hprest]
      exact hnd2
    have := fieldsAt_of_mem_nodup hnr hmem
    rw [fieldsAt_ptr hm] at this
    exact this
  refine ⟨_, ?_, hrem.2, ?_, ?_, ?_⟩
  · rw [dropdown_mouseDown ctx d sd items h it e hk hh hit hdis he,
      emit_close_wiring ctx d mb sd _ hd rfl hcb,
      menuCloseCB_obs ctx d mb sd m _ hd hm hne hmo]
  · rw [hrem.1, ptrsIn_updIn, ptrsIn_updIn, hprest]
    exact hnot
  · intro c1 hc1 hp
    rw [hrem.1] at hc1
    have hin : c1.self.ptr ∈ ptrsIn (updIn mb (setDropdown none) (updIn mb (setOpenIdx (-1)) rest)) :=
      List.mem_map_of_mem (fun s => s.ptr) (fieldsOf_sub_of_mem hc1 _ (self_mem_fieldsOf c1))
    rw [ptrsIn_updIn, ptrsIn_updIn, hprest, hp] at hin
    exact hnot hin
  · rw [hrem.1, fieldsAt_updIn, fieldsAt_updIn, hmrest]
    exact ⟨_, rfl, close_kind hmk mb (fieldsAt_ptr hm)⟩

theorem dropdown_item_click_witness :
    ∃ ctx1, onEvent exOpenMenu 2 (fieldsOr exFieldsA exOpenMenu.widgets 2)
          { type := EventType.MouseDown, mx := 5, my := 25, mbtn := SDL_BUTTON_LEFT } = some ctx1
      ∧ ctx1.trace = exOpenMenu.trace
          ++ [Trace.callback 5 1 { type := EventType.MenuItemClicked, svalue := "new", ivalue := 0 }]
      ∧ 2 ∉ ptrsIn ctx1.widgets
      ∧ ∃ m1, fieldsAt ctx1.widgets 1 = some m1
          ∧ m1.kind = Kind.MenuBar [⟨"File", [{ text := "New", id := "new" }]⟩] (-1) none :=
  match dropdown_item_click exOpenMenu 2 1 (fieldsOr exFieldsA exOpenMenu.widgets 2)
      (fieldsOr exFieldsA exOpenMenu.widgets 1) [{ text := "New", id := "new" }] 0
      { text := "New", id := "new" } [⟨"File", [{ text := "New", id := "new" }]⟩] 0
      { type := EventType.MouseDown, mx := 5, my := 25, mbtn := SDL_BUTTON_LEFT }
      (by decide!) (by decide!) (by decide) (by decide) (by decide) (by decide!)
      (by decide!) (by decide!) (by decide!) (by decide!) (by decide!) ⟨rfl, rfl⟩ with
  | ⟨ctx1, h1, h2, h3, _, h5⟩ => ⟨ctx1, h1, h2.trans (by decide!), h3, h5⟩

end WXUI
